import Mathlib

/-!
Verification of libopenapi: the low-level `Paths` builder of `datamodel/low/3.0/path.go`
(`Paths.Build` with its dispatch and aggregation loops) and the reference containers and
circular-reference queries of `datamodel/low/reference.go` (`KeyReference`, `ValueReference`,
`IsCircular`, `GetCircularReferenceResult`).

Pointers to `yaml.Node` are addresses into an explicit heap, so that node identity
(pointer equality in the Go code) is equality of addresses and never structural equality.
The goroutines of `Paths.Build` are modelled by the order in which their results arrive
at the aggregation loop; every statement about `Build` is quantified over that order.
-/

namespace LibOpenAPI

/-! ## Raw node tree (`yaml.Node`) -/

/-- Address of an allocated `yaml.Node`. -/
abbrev Addr := Nat

/-- A nilable `*yaml.Node`: `none` is the nil pointer. -/
abbrev Ptr := Option Addr

/-- The fields of `yaml.Node` the code reads. `Content` holds the children in document order;
for a mapping node keys sit at even and values at odd indexes. The parser never stores a nil
child, so children are addresses. `Value` is the scalar text and is empty for mapping and
sequence nodes. -/
structure YNode where
  Kind : Nat
  Value : String
  Line : Nat
  Column : Nat
  Content : List Addr
deriving DecidableEq, Repr, Inhabited

/-- The store of allocated nodes. -/
abbrev Heap := Addr → YNode

/-! ## Strings -/

/-- ASCII lower-casing of a character, as `strings.ToLower` acts on the two characters that
matter for the prefix test: only `X` and `x` lower to `x`, and only `-` lowers to `-`. -/
def lowerChar (c : Char) : Char :=
  if 65 ≤ c.toNat ∧ c.toNat ≤ 90 then Char.ofNat (c.toNat + 32) else c

/-- The test `strings.HasPrefix(strings.ToLower(s), "x-")` of `Paths.Build`. -/
def hasXDashStart (s : String) : Bool :=
  match s.data with
  | c :: d :: _ => decide (lowerChar c = 'x') && decide (lowerChar d = '-')
  | _ => false

/-- Substring test on character lists. -/
def containsChars (p : List Char) : List Char → Bool
  | [] => p.isEmpty
  | c :: cs => p.isPrefixOf (c :: cs) || containsChars p cs

/-- The function `strings.Contains(s, sub)`. -/
def strContains (s sub : String) : Bool := containsChars sub.data s.data

/-- Decimal digits of a number, least significant first, with `fuel` bounding the length. -/
def decimalDigitsRev : Nat → Nat → List Char
  | 0, _ => []
  | fuel + 1, n =>
    if n < 10 then [Char.ofNat (48 + n)]
    else Char.ofNat (48 + n % 10) :: decimalDigitsRev fuel (n / 10)

/-- The rendering of a non-negative integer by the verb `%d`. -/
def fmtD (n : Nat) : String := ⟨(decimalDigitsRev (n + 1) n).reverse⟩

/-! ## Reference containers (`datamodel/low/reference.go`) -/

/-- The container `KeyReference[T]`: a key value and the node holding the key. Two key
references are the same map key only if both the value and the node pointer agree. -/
structure KeyReference (T : Type) where
  Value : T
  KeyNode : Ptr
deriving DecidableEq, Repr

/-- The container `ValueReference[T]`. -/
structure ValueReference (T : Type) where
  Value : T
  ValueNode : Ptr
  ReferenceNode : Bool
  Reference : String
deriving DecidableEq, Repr

/-- The method `ValueReference.GetReference`. -/
def ValueReference.GetReference {T : Type} (n : ValueReference T) : String := n.Reference

/-- The method `ValueReference.IsReference`: true when the reference string is not empty. -/
def ValueReference.IsReference {T : Type} (n : ValueReference T) : Bool :=
  if n.Reference ≠ "" then true else false

/-- The method `ValueReference.GetValueNode`. -/
def ValueReference.GetValueNode {T : Type} (n : ValueReference T) : Ptr := n.ValueNode

/-- The method `ValueReference.GetValue`. -/
def ValueReference.GetValue {T : Type} (n : ValueReference T) : T := n.Value

/-! ## Helpers of the `utils` package -/

/-- Scan of a mapping's children for a `$ref` key at a key position, giving the key node and
the text of the value that follows it. -/
def refValueIn (h : Heap) : List Addr → Option (Addr × String)
  | k :: v :: rest =>
    if (h k).Value = "$ref" then some (k, (h v).Value) else refValueIn h rest
  | _ => none

/-- Modelled from the spec: `utils.IsNodeRefValue` is not among the sources. A reference marker
is a node with a `$ref` key at a key position (even index) of its content, the scan that
`NodeReference.IsReference` performs; the result is the flag, the key node and the reference
string, which is the text of the value following the key. A nil node is not a marker. -/
def IsNodeRefValue (h : Heap) (node : Ptr) : Bool × Ptr × String :=
  match node with
  | none => (false, none, "")
  | some a =>
    match refValueIn h (h a).Content with
    | some (k, s) => (true, some k, s)
    | none => (false, none, "")

/-- Modelled from the spec: `utils.FindKeyNode` is not among the sources. It locates the
matching child key node in a mapping's children by case-sensitive exact match and returns the
key node and the value node that follows it, or two nil pointers when no key matches. -/
def FindKeyNode (h : Heap) (key : String) : List Addr → Ptr × Ptr
  | k :: v :: rest =>
    if (h k).Value = key then (some k, some v) else FindKeyNode h key rest
  | _ => (none, none)

/-! ## The index (`index` package, type declarations only) -/

namespace index

/-- The fields of `index.Reference` read by the circular-reference queries. -/
structure Reference where
  Definition : String
  Node : Ptr
  Circular : Bool
deriving DecidableEq, Repr

/-- The fields of `index.CircularReferenceResult` read by the queries. `LoopPoint` and the
steps of `Journey` are never nil in a result recorded by the index. -/
structure CircularReferenceResult where
  Journey : List Reference
  LoopPoint : Reference
deriving DecidableEq, Repr

/-- The two read-only queries of `index.SpecIndex` used here: the list returned by
`GetCircularReferences` and the map returned by `GetMappedReferences`. -/
structure SpecIndex where
  GetCircularReferences : List CircularReferenceResult
  GetMappedReferences : String → Option Reference

end index

/-! ## Circular-reference queries (`reference.go`, lines 309-371) -/

/-- Inner loop of `IsCircular` and `GetCircularReferenceResult` over `refs[i].Journey`:
true when a step's node is `node`, or `node` is a reference marker whose reference string is
the step's definition. -/
def journeyMatches (h : Heap) (node : Ptr) : List index.Reference → Bool
  | [] => false
  | j :: js =>
    if j.Node = node then true
    else
      let r := IsNodeRefValue h node
      if r.1 ∧ j.Definition = r.2.2 then true else journeyMatches h node js

/-- Outer loop of `GetCircularReferenceResult` (lines 347-360): the first result whose loop
point or journey matches. -/
def firstCircularMatch (h : Heap) (node : Ptr) :
    List index.CircularReferenceResult → Option index.CircularReferenceResult
  | [] => none
  | r :: rs =>
    if r.LoopPoint.Node = node then some r
    else if journeyMatches h node r.Journey then some r
    else firstCircularMatch h node rs

/-- Outer loop of `IsCircular` (lines 315-328). -/
def circularLoop (h : Heap) (node : Ptr) : List index.CircularReferenceResult → Bool
  | [] => false
  | r :: rs =>
    if r.LoopPoint.Node = node then true
    else if journeyMatches h node r.Journey then true
    else circularLoop h node rs

/-- The function `IsCircular`. The result `none` stands for the nil-pointer panic of
`node.Content` at line 330 when `node` is nil and the loop found nothing. -/
def IsCircular (h : Heap) (node : Ptr) (idx : Option index.SpecIndex) : Option Bool :=
  match idx with
  | none => some false
  | some idx =>
    if circularLoop h node idx.GetCircularReferences then some true
    else
      match node with
      | none => none
      | some a =>
        match (FindKeyNode h "$ref" (h a).Content).2 with
        | some nv =>
          match idx.GetMappedReferences (h nv).Value with
          | some ref => some ref.Circular
          | none => some false
        | none => some false

/-- Second loop of `GetCircularReferenceResult` (lines 364-368): the first result whose loop
point definition is the given reference string. -/
def firstLoopPointDefinition (s : String) :
    List index.CircularReferenceResult → Option index.CircularReferenceResult
  | [] => none
  | r :: rs => if r.LoopPoint.Definition = s then some r else firstLoopPointDefinition s rs

/-- The function `GetCircularReferenceResult`. The outer `none` stands for the nil-pointer
panic of `node.Content` at line 362; `some none` is the nil result. -/
def GetCircularReferenceResult (h : Heap) (node : Ptr) (idx : Option index.SpecIndex) :
    Option (Option index.CircularReferenceResult) :=
  match idx with
  | none => some none
  | some idx =>
    let refs := idx.GetCircularReferences
    match firstCircularMatch h node refs with
    | some r => some (some r)
    | none =>
      match node with
      | none => none
      | some a =>
        match (FindKeyNode h "$ref" (h a).Content).2 with
        | some nv => some (firstLoopPointDefinition (h nv).Value refs)
        | none => some none

/-! ## Go maps -/

/-- A Go map as the list of its entries, with at most one entry per key. The order of the
list is not observable: a map is read through `GoMap.get`, its key set and its size. -/
abbrev GoMap (K V : Type) := List (K × V)

/-- The assignment `m[k] = v`: the entry of `k` is replaced or added. -/
def GoMap.assign {K V : Type} [DecidableEq K] (m : GoMap K V) (k : K) (v : V) : GoMap K V :=
  (k, v) :: m.filter (fun e => decide (e.1 ≠ k))

/-- The read `m[k]`. -/
def GoMap.get {K V : Type} [DecidableEq K] (m : GoMap K V) (k : K) : Option V :=
  (m.find? (fun e => decide (e.1 = k))).map (fun e => e.2)

/-! ## `Paths` (`datamodel/low/3.0/path.go`) -/

/-- The struct `Paths`. `PI` is the built `PathItem` and `E` the type of the extension map. -/
structure Paths (PI E : Type) where
  PathItems : GoMap (KeyReference String) (ValueReference PI)
  Extensions : E
deriving DecidableEq

/-- The collaborators of `Paths.Build` that live outside the sources, for a fixed index:
`low.ExtractExtensions(root)`, `low.LocateRefNode(pNode, idx)`, `low.BuildModel(pNode, path)`
applied to a fresh `PathItem` (the populated item and the error it returns), and
`path.Build(pNode, idx)` (the finished item or its error). -/
structure BuildEnv (PI E : Type) where
  ExtractExtensions : Ptr → E
  LocateRefNode : Addr → Ptr
  BuildModel : Addr → PI × Option String
  PathItemBuild : PI → Addr → Except String PI

/-- The local type `pathBuildResult`. -/
structure pathBuildResult (PI : Type) where
  k : KeyReference String
  v : ValueReference PI
deriving DecidableEq, Repr

/-- What one `buildPathItem` goroutine does: it sends a result on `bChan`, sends an error on
`eChan`, or panics (which ends the whole process). -/
inductive TaskOutcome (PI : Type) where
  | built (res : pathBuildResult PI)
  | failed (err : String)
  | panicked
deriving DecidableEq, Repr

/-- The message of line 66:
`"path item build failed: cannot find reference: %s at line %d, col %d"`. -/
def cannotFindReference (ref : String) (line col : Nat) : String :=
  "path item build failed: cannot find reference: " ++ ref ++ " at line " ++ fmtD line ++
    ", col " ++ fmtD col

/-- The closure `buildPathItem` (lines 60-89) run on `(cNode, pNode)`. -/
def buildPathItem {PI E : Type} (env : BuildEnv PI E) (h : Heap) (cNode : Ptr) (pNode : Addr) :
    TaskOutcome PI :=
  let located : Option (Except String Addr) :=
    if (IsNodeRefValue h (some pNode)).1 then
      match env.LocateRefNode pNode with
      | some r => some (.ok r)
      | none =>
        match (h pNode).Content[1]? with
        | some c => some (.error (cannotFindReference (h c).Value (h c).Line (h c).Column))
        | none => none
    else some (.ok pNode)
  match located with
  | none => .panicked
  | some (.error e) => .failed e
  | some (.ok pNode) =>
    let path := (env.BuildModel pNode).1
    match env.PathItemBuild path pNode with
    | .error err => .failed err
    | .ok path =>
      match cNode with
      | none => .panicked
      | some c =>
        .built
          { k := { Value := (h c).Value, KeyNode := some c }
            v := { Value := path, ValueNode := some pNode, ReferenceNode := false,
                   Reference := "" } }

/-- The dispatch loop over `root.Content` (lines 91-107): the `(currentNode, pathNode)` pairs
handed to `go buildPathItem`, in document order. The arguments are the remaining children, the
index `i`, the flag `skip` and `currentNode`. -/
def dispatchLoop (h : Heap) : List Addr → Nat → Bool → Ptr → List (Ptr × Addr)
  | [], _, _, _ => []
  | pathNode :: rest, i, skip, currentNode =>
    if hasXDashStart (h pathNode).Value then dispatchLoop h rest (i + 1) true currentNode
    else if skip then dispatchLoop h rest (i + 1) false currentNode
    else if i % 2 = 0 then dispatchLoop h rest (i + 1) false (some pathNode)
    else (currentNode, pathNode) :: dispatchLoop h rest (i + 1) false currentNode

/-- The aggregation loop (lines 109-118) fed with the task outcomes in the order they arrive.
`none` means that `Build` never returns: a goroutine panicked, or the loop waits for a message
that no task will send. -/
def aggregate {PI : Type} (pathCount : Nat) :
    Nat → GoMap (KeyReference String) (ValueReference PI) → List (TaskOutcome PI) →
    Option (Except String (GoMap (KeyReference String) (ValueReference PI)))
  | completedItems, pathsMap, [] =>
    if completedItems < pathCount then none else some (.ok pathsMap)
  | completedItems, pathsMap, o :: rest =>
    if completedItems < pathCount then
      match o with
      | .failed err => some (.error err)
      | .built res => aggregate pathCount (completedItems + 1) (pathsMap.assign res.k res.v) rest
      | .panicked => none
    else some (.ok pathsMap)

/-- The tasks `Paths.Build` dispatches for `root`, in document order. -/
def dispatched (h : Heap) (root : Addr) : List (Ptr × Addr) :=
  dispatchLoop h (h root).Content 0 false none

/-- The outcome of every dispatched task, in document order. -/
def taskOutcomes {PI E : Type} (env : BuildEnv PI E) (h : Heap) (root : Addr) :
    List (TaskOutcome PI) :=
  (dispatched h root).map (fun t => buildPathItem env h t.1 t.2)

/-- An arrival order of `n` tasks: every task index exactly once. -/
def IsArrivalOrder (n : Nat) (order : List Nat) : Prop := order.Perm (List.range n)

instance (n : Nat) (order : List Nat) : Decidable (IsArrivalOrder n order) := by
  unfold IsArrivalOrder
  infer_instance

/-- The outcomes in the order given by `order`. -/
def arrivals {PI : Type} (outcomes : List (TaskOutcome PI)) (order : List Nat) :
    List (TaskOutcome PI) :=
  order.filterMap (fun i => outcomes[i]?)

/-- What a call of `Paths.Build` leaves behind when it returns: the receiver and the error
(`none` is the nil error). -/
structure BuildReturn (PI E : Type) where
  p : Paths PI E
  err : Option String
deriving DecidableEq

/-- The method `Paths.Build` on receiver `p`, where the goroutines complete in the order
`order`. The result `none` means the call never returns (nil `root`, a panicking goroutine). -/
def Paths.Build {PI E : Type} (env : BuildEnv PI E) (h : Heap) (p : Paths PI E) (root : Ptr)
    (order : List Nat) : Option (BuildReturn PI E) :=
  let p1 : Paths PI E := { p with Extensions := env.ExtractExtensions root }
  match root with
  | none => none
  | some r =>
    let outcomes := taskOutcomes env h r
    match aggregate outcomes.length 0 [] (arrivals outcomes order) with
    | none => none
    | some (.error err) => some { p := p1, err := some err }
    | some (.ok pathsMap) => some { p := { p1 with PathItems := pathsMap }, err := none }

/-- A strictly sequential build in document order: task `0` first, then task `1`, ... -/
def Paths.BuildSequential {PI E : Type} (env : BuildEnv PI E) (h : Heap) (p : Paths PI E)
    (root : Addr) : Option (BuildReturn PI E) :=
  Paths.Build env h p (some root) (List.range (dispatched h root).length)

/-- The keys of the root mapping that are not extension keys: the children at key positions
whose text does not begin with `x-`, compared case-insensitively. -/
def nonExtensionKeys (h : Heap) (root : Addr) : List Addr :=
  ((h root).Content.enum.filter
    (fun e => decide (e.1 % 2 = 0) && !hasXDashStart (h e.2).Value)).map (fun e => e.2)

/-- The environment `env` in which `low.BuildModel` reports the error `f a` for node `a` and
populates the path item as before. -/
def withBuildModelError {PI E : Type} (env : BuildEnv PI E) (f : Addr → Option String) :
    BuildEnv PI E :=
  { env with BuildModel := fun a => ((env.BuildModel a).1, f a) }

/-- The key/value pairs of a mapping's children: the child at index `2 * j` with the child at
index `2 * j + 1`. -/
def keyValuePairs : List Addr → List (Addr × Addr)
  | k :: v :: rest => (k, v) :: keyValuePairs rest
  | _ => []

/-- No value of the mapping is a scalar whose text begins with `x-`. -/
def NoXDashValue (h : Heap) (content : List Addr) : Prop :=
  ∀ p ∈ keyValuePairs content, hasXDashStart (h p.2).Value = false

/-- The keys carried by the successful results among a list of task outcomes. -/
def builtKeys {PI : Type} (outcomes : List (TaskOutcome PI)) : List (KeyReference String) :=
  outcomes.filterMap (fun o =>
    match o with
    | .built res => some res.k
    | _ => none)

/-! ## Example documents -/

/-- A scalar node. -/
def scalarNode (text : String) (line col : Nat) : YNode :=
  { Kind := 8, Value := text, Line := line, Column := col, Content := [] }

/-- A mapping node. -/
def mappingNode (line col : Nat) (content : List Addr) : YNode :=
  { Kind := 4, Value := "", Line := line, Column := col, Content := content }

/-- Collaborators that never fail: a path item is modelled by the address of the node it was
built from, no reference resolves, and the extension map is the list of the extension key
texts of the root. -/
def plainEnv (h : Heap) : BuildEnv Addr (List String) where
  ExtractExtensions := fun root =>
    match root with
    | none => []
    | some r =>
      ((h r).Content.enum.filter
        (fun e => decide (e.1 % 2 = 0) && hasXDashStart (h e.2).Value)).map
        (fun e => (h e.2).Value)
  LocateRefNode := fun _ => none
  BuildModel := fun a => (a, none)
  PathItemBuild := fun path _ => .ok path

/-- The collaborators of `plainEnv`, except that `path.Build` fails on the node `bad`. -/
def failingEnv (h : Heap) (bad : Addr) : BuildEnv Addr (List String) :=
  { plainEnv h with
    PathItemBuild := fun path n => if n = bad then .error "path item is broken" else .ok path }

/-- The collaborators of `plainEnv`, except that the marker node `site` resolves to the node
`target`. -/
def resolvingEnv (h : Heap) (site target : Addr) : BuildEnv Addr (List String) :=
  { plainEnv h with LocateRefNode := fun n => if n = site then some target else none }

/-- The empty receiver on which `Build` is called. -/
def emptyPaths : Paths Addr (List String) := { PathItems := [], Extensions := [] }

/-- The paths mapping with the three entries `/a: {}`, `x-e: x-v` and `/b: {}`: the root
mapping is at address 1, the keys at 2, 4, 6 and their values at 3, 5, 7. -/
def docExtScalar : Heap := fun a =>
  match a with
  | 1 => mappingNode 1 1 [2, 3, 4, 5, 6, 7]
  | 2 => scalarNode "/a" 2 3
  | 3 => mappingNode 2 7 []
  | 4 => scalarNode "x-e" 3 3
  | 5 => scalarNode "x-v" 3 8
  | 6 => scalarNode "/b" 4 3
  | 7 => mappingNode 4 7 []
  | _ => default

/-- The paths mapping with the three entries `x-e: x-v`, `/p: {}` and `/q: {}`: the root
mapping is at address 1, the keys at 2, 4, 6 and their values at 3, 5, 7. -/
def docExtFirst : Heap := fun a =>
  match a with
  | 1 => mappingNode 1 1 [2, 3, 4, 5, 6, 7]
  | 2 => scalarNode "x-e" 2 3
  | 3 => scalarNode "x-v" 2 8
  | 4 => scalarNode "/p" 3 3
  | 5 => mappingNode 3 7 []
  | 6 => scalarNode "/q" 4 3
  | 7 => mappingNode 4 7 []
  | _ => default

/-- The paths mapping with the two entries `x-e: v` and `/p: {}`: the root mapping is at
address 1, the keys at 2, 4 and their values at 3, 5. -/
def docExtAndPath : Heap := fun a =>
  match a with
  | 1 => mappingNode 1 1 [2, 3, 4, 5]
  | 2 => scalarNode "x-e" 2 3
  | 3 => scalarNode "v" 2 8
  | 4 => scalarNode "/p" 3 3
  | 5 => mappingNode 3 7 []
  | _ => default

/-- The paths mapping with the single entry `/p: {}`: the root mapping is at address 1, the
key at 2 and its value at 3. -/
def docOnePath : Heap := fun a =>
  match a with
  | 1 => mappingNode 1 1 [2, 3]
  | 2 => scalarNode "/p" 2 3
  | 3 => mappingNode 2 7 []
  | _ => default

/-- The paths mapping with the single entry `/p: {$ref: '#/components/pathItems/P'}`: the
root mapping is at address 1, the key `/p` at 2, the marker mapping at 3 with its `$ref` key at
4 and the reference string at 5. Address 9 holds the mapping the reference names. -/
def docRefFirst : Heap := fun a =>
  match a with
  | 1 => mappingNode 1 1 [2, 3]
  | 2 => scalarNode "/p" 2 3
  | 3 => mappingNode 3 5 [4, 5]
  | 4 => scalarNode "$ref" 3 5
  | 5 => scalarNode "#/components/pathItems/P" 3 11
  | 9 => mappingNode 20 7 []
  | _ => default

/-- The paths mapping with the single entry
`/p: {description: pets, $ref: '#/components/pathItems/Nope'}`: the root mapping is at
address 1, the key `/p` at 2, the marker mapping at 3 with the keys `description` at 4 and
`$ref` at 6 and their values at 5 and 7. -/
def docRefSecond : Heap := fun a =>
  match a with
  | 1 => mappingNode 1 1 [2, 3]
  | 2 => scalarNode "/p" 2 3
  | 3 => mappingNode 3 5 [4, 5, 6, 7]
  | 4 => scalarNode "description" 3 5
  | 5 => scalarNode "pets" 3 18
  | 6 => scalarNode "$ref" 4 5
  | 7 => scalarNode "#/components/pathItems/Nope" 4 11
  | _ => default

/-- What `Build` returns on `docExtAndPath` when the build of `/p` fails. -/
def docExtAndPathReturn : BuildReturn Addr (List String) :=
  { p := { PathItems := [], Extensions := ["x-e"] }, err := some "path item is broken" }

/-- What `Build` returns on `docRefFirst` when the marker resolves to node 9. -/
def docRefFirstReturn : BuildReturn Addr (List String) :=
  { p := { PathItems := [(⟨"/p", some 2⟩, ⟨9, some 9, false, ""⟩)], Extensions := [] },
    err := none }

/-- What `Build` returns on `docRefSecond` when the reference is not in the index. -/
def docRefSecondReturn : BuildReturn Addr (List String) :=
  { p := { PathItems := [], Extensions := [] },
    err := some "path item build failed: cannot find reference: pets at line 3, col 18" }

/-- An index with one circular result `#/a -> #/b -> #/a`, whose journey steps sit at the
nodes 10 and 11 and whose loop point is the node 12. -/
def idxLoop : index.SpecIndex where
  GetCircularReferences :=
    [{ Journey := [⟨"#/a", some 10, true⟩, ⟨"#/b", some 11, true⟩],
       LoopPoint := ⟨"#/a", some 12, true⟩ }]
  GetMappedReferences := fun _ => none

/-- An index without circular results, in which every mapped reference is flagged circular. -/
def idxNoLoops : index.SpecIndex where
  GetCircularReferences := []
  GetMappedReferences := fun s => some ⟨s, none, true⟩

/-- A heap with the marker mapping `{$ref: '#/b'}` at address 3 (key at 4, value at 5). -/
def docMarker : Heap := fun a =>
  match a with
  | 3 => mappingNode 3 5 [4, 5]
  | 4 => scalarNode "$ref" 3 5
  | 5 => scalarNode "#/b" 3 11
  | _ => default

/-! ## Definitions for the circular-reference claims -/

/-- The node is located in the circular result `r` by the main search of the two queries: it is
the loop point's node, the node of a journey step, or a reference marker whose reference string
is the definition of a journey step. -/
def LocatedIn (h : Heap) (node : Ptr) (r : index.CircularReferenceResult) : Prop :=
  r.LoopPoint.Node = node ∨
  (∃ j ∈ r.Journey, j.Node = node) ∨
  (∃ j ∈ r.Journey, (IsNodeRefValue h node).1 = true ∧
    j.Definition = (IsNodeRefValue h node).2.2)

/-- An index with one circular result whose journey is empty and whose loop point `#/b` sits
at node 12; no reference is mapped. -/
def idxLoopPointOnly : index.SpecIndex where
  GetCircularReferences := [{ Journey := [], LoopPoint := ⟨"#/b", some 12, true⟩ }]
  GetMappedReferences := fun _ => none

/-- The circular result recorded by `idxLoop`. -/
def idxLoopResult : index.CircularReferenceResult :=
  { Journey := [⟨"#/a", some 10, true⟩, ⟨"#/b", some 11, true⟩],
    LoopPoint := ⟨"#/a", some 12, true⟩ }

/-! ## More of `reference.go`: `NodeReference`, `Mutate`, `MarshalYAML` -/

/-- The container `NodeReference[T]`. -/
structure NodeReference (T : Type) where
  Value : T
  ValueNode : Ptr
  KeyNode : Ptr
  ReferenceNode : Bool
  Reference : String
deriving DecidableEq, Repr

/-- The method `NodeReference.IsEmpty`: no key node and no value node. -/
def NodeReference.IsEmpty {T : Type} (n : NodeReference T) : Bool :=
  decide (n.KeyNode = none) && decide (n.ValueNode = none)

/-- The method `NodeReference.GetValue`. -/
def NodeReference.GetValue {T : Type} (n : NodeReference T) : T := n.Value

/-- The method `NodeReference.GetValueNode`. -/
def NodeReference.GetValueNode {T : Type} (n : NodeReference T) : Ptr := n.ValueNode

/-- The method `NodeReference.GetKeyNode`. -/
def NodeReference.GetKeyNode {T : Type} (n : NodeReference T) : Ptr := n.KeyNode

/-- The assignment `node.Value = text` through a pointer to the node at address `a`. -/
def Heap.setValue (h : Heap) (a : Addr) (text : String) : Heap :=
  fun b => if b = a then { h b with Value := text } else h b

/-- The method `NodeReference.Mutate` (lines 191-195). `render` is `fmt.Sprintf("%v", value)`.
The result is the heap after the call and the returned reference; `none` is the nil-pointer
panic of `n.ValueNode.Value` when there is no value node. -/
def NodeReference.Mutate {T : Type} (render : T → String) (h : Heap) (n : NodeReference T)
    (value : T) : Option (Heap × NodeReference T) :=
  match n.ValueNode with
  | none => none
  | some a => some (Heap.setValue h a (render value), { n with Value := value })

/-- The method `ValueReference.Mutate` (lines 303-307), as `NodeReference.Mutate`. -/
def ValueReference.Mutate {T : Type} (render : T → String) (h : Heap) (n : ValueReference T)
    (value : T) : Option (Heap × ValueReference T) :=
  match n.ValueNode with
  | none => none
  | some a => some (Heap.setValue h a (render value), { n with Value := value })

/-- A mapping node that has just been created, with the nodes created as its children. -/
structure FreshMapNode where
  Kind : Nat
  Value : String
  Content : List YNode
deriving DecidableEq, Repr

/-- What `MarshalYAML` hands back as its first result: a node it created, or the copy of the
value node made by `Decode`. -/
inductive Marshalled where
  | created (m : FreshMapNode)
  | decoded (node : YNode)
deriving DecidableEq, Repr

/-- Modelled from the spec: `utils.CreateStringNode` is not among the sources. It creates a
scalar node (kind 8) holding the given text. -/
def CreateStringNode (str : String) : YNode :=
  { Kind := 8, Value := str, Line := 0, Column := 0, Content := [] }

/-- Modelled from the spec: `utils.CreateEmptyMapNode` is not among the sources. It creates
a mapping node (kind 4) without children. -/
def CreateEmptyMapNode : FreshMapNode :=
  { Kind := 4, Value := "", Content := [] }

/-- The method `ValueReference.MarshalYAML` (lines 267-279). `Decode h a` is
`n.ValueNode.Decode(&h)`: the decoded copy and the error. The result is the pair
`(interface{}, error)`; `none` is the panic of `Decode` on a nil value node. -/
def ValueReference.MarshalYAML {T : Type} (Decode : Heap → Addr → YNode × Option String)
    (h : Heap) (n : ValueReference T) : Option (Marshalled × Option String) :=
  if n.IsReference then
    let nodes := [CreateStringNode "$ref", CreateStringNode n.Reference]
    let m := { CreateEmptyMapNode with Content := nodes }
    some (.created m, none)
  else
    match n.ValueNode with
    | none => none
    | some a => some (.decoded (Decode h a).1, (Decode h a).2)

/-- The method `Paths.FindPath` (lines 32-39). `visit` is the order in which the `range` loop
visits the entries of `p.PathItems`, a permutation of the map that Go chooses anew for every
loop. The result is the pointer returned: `none` is nil. -/
def Paths.FindPath {PI E : Type} (p : Paths PI E)
    (visit : List (KeyReference String × ValueReference PI)) (path : String) :
    Option (ValueReference PI) :=
  match visit with
  | [] => none
  | (k, j) :: rest => if k.Value = path then some j else Paths.FindPath p rest path

/-- A receiver with the two paths `/pets` and `/Pets`. -/
def twoPaths : Paths Addr (List String) :=
  { PathItems := [(⟨"/pets", some 2⟩, ⟨3, some 3, false, ""⟩),
                  (⟨"/Pets", some 4⟩, ⟨5, some 5, false, ""⟩)],
    Extensions := [] }

/-! ## The what-changed model (`what-changed/model`)

Only `media_type.go` and `callback.go` are among the sources. The change record, the
property changes and the comparison functions they call live in files that are not; the
nested change sets (`PathItemChanges`, `SchemaChanges`, `ExampleChanges`, `EncodingChanges`,
`ExtensionChanges`) are values of a type `N` that is only read through its two totals. -/

/-- The change type `Modified`; the numbers are those asserted in `change_types_test.go`. -/
def Modified : Nat := 1

/-- The change type `PropertyAdded`. -/
def PropertyAdded : Nat := 2

/-- The change type `ObjectAdded`. -/
def ObjectAdded : Nat := 3

/-- The change type `ObjectRemoved`. -/
def ObjectRemoved : Nat := 4

/-- The change type `PropertyRemoved`. -/
def PropertyRemoved : Nat := 5

/-- The record `Change`, as far as the callers in the sources fill it: the arguments they pass
to `CreateChange`. `none` in `OriginalObject` and `NewObject` is the nil they pass. -/
structure Change (Obj : Type) where
  ChangeType : Nat
  Property : String
  LeftNode : Ptr
  RightNode : Ptr
  Breaking : Bool
  OriginalObject : Option Obj
  NewObject : Option Obj
deriving DecidableEq, Repr

/-- Modelled from the spec: `CreateChange` is not among the sources. It appends to `changes`
one change recording the change type, the property, the two value nodes, the breaking flag
and the original and new objects it is given. -/
def CreateChange {Obj : Type} (changes : List (Change Obj)) (changeType : Nat)
    (property : String) (leftValueNode rightValueNode : Ptr) (breaking : Bool)
    (originalObject newObject : Option Obj) : List (Change Obj) :=
  changes ++ [{ ChangeType := changeType, Property := property, LeftNode := leftValueNode,
                RightNode := rightValueNode, Breaking := breaking,
                OriginalObject := originalObject, NewObject := newObject }]

/-- The struct `PropertyChanges`: the list `Changes` that `CompareCallback` assigns. -/
structure PropertyChanges (Obj : Type) where
  Changes : List (Change Obj)
deriving DecidableEq, Repr

/-- Modelled from the spec: `PropertyChanges.TotalChanges` is not among the sources. It is the
number of recorded changes. -/
def PropertyChanges.TotalChanges {Obj : Type} (p : PropertyChanges Obj) : Int :=
  (p.Changes.length : Int)

/-- Modelled from the spec: `PropertyChanges.TotalBreakingChanges` is not among the sources.
It is the number of recorded changes that are marked breaking. -/
def PropertyChanges.TotalBreakingChanges {Obj : Type} (p : PropertyChanges Obj) : Int :=
  ((p.Changes.filter (fun c => c.Breaking)).length : Int)

/-- The methods `TotalChanges` and `TotalBreakingChanges` of the nested change sets. -/
structure NestedTotals (N : Type) where
  TotalChanges : N → Int
  TotalBreakingChanges : N → Int

/-- The struct `CallbackChanges` (`callback.go`, lines 11-15). -/
structure CallbackChanges (Obj N : Type) where
  PropertyChanges : PropertyChanges Obj
  ExpressionChanges : GoMap String N
  ExtensionChanges : Option N

/-- The method `CallbackChanges.TotalChanges` (lines 17-26). -/
def CallbackChanges.TotalChanges {Obj N : Type} (t : NestedTotals N)
    (c : CallbackChanges Obj N) : Int :=
  let d := c.PropertyChanges.TotalChanges
  let d := c.ExpressionChanges.foldl (fun d e => d + t.TotalChanges e.2) d
  match c.ExtensionChanges with
  | some x => d + t.TotalChanges x
  | none => d

/-- The method `CallbackChanges.TotalBreakingChanges` (lines 28-37). -/
def CallbackChanges.TotalBreakingChanges {Obj N : Type} (t : NestedTotals N)
    (c : CallbackChanges Obj N) : Int :=
  let d := c.PropertyChanges.TotalBreakingChanges
  let d := c.ExpressionChanges.foldl (fun d e => d + t.TotalBreakingChanges e.2) d
  match c.ExtensionChanges with
  | some x => d + t.TotalBreakingChanges x
  | none => d

/-- The struct `MediaTypeChanges` (`media_type.go`, lines 15-21). `PropertyChanges` is an
embedded pointer: `none` is nil. -/
structure MediaTypeChanges (Obj N : Type) where
  PropertyChanges : Option (PropertyChanges Obj)
  SchemaChanges : Option N
  ExtensionChanges : Option N
  ExampleChanges : GoMap String N
  EncodingChanges : GoMap String N

/-- The method `MediaTypeChanges.TotalChanges` (lines 24-41). `none` is the nil-pointer panic
of `m.PropertyChanges.TotalChanges()` on a nil `PropertyChanges`. -/
def MediaTypeChanges.TotalChanges {Obj N : Type} (t : NestedTotals N)
    (m : MediaTypeChanges Obj N) : Option Int :=
  match m.PropertyChanges with
  | none => none
  | some pc =>
    let c := pc.TotalChanges
    let c := m.ExampleChanges.foldl (fun c e => c + t.TotalChanges e.2) c
    let c := match m.SchemaChanges with
      | some s => c + t.TotalChanges s
      | none => c
    let c := if m.EncodingChanges.length > 0 then
        m.EncodingChanges.foldl (fun c e => c + t.TotalChanges e.2) c
      else c
    let c := match m.ExtensionChanges with
      | some x => c + t.TotalChanges x
      | none => c
    some c

/-- The method `MediaTypeChanges.TotalBreakingChanges` (lines 44-58); the extension changes
are not counted. -/
def MediaTypeChanges.TotalBreakingChanges {Obj N : Type} (t : NestedTotals N)
    (m : MediaTypeChanges Obj N) : Option Int :=
  match m.PropertyChanges with
  | none => none
  | some pc =>
    let c := pc.TotalBreakingChanges
    let c := m.ExampleChanges.foldl (fun c e => c + t.TotalBreakingChanges e.2) c
    let c := match m.SchemaChanges with
      | some s => c + t.TotalBreakingChanges s
      | none => c
    let c := if m.EncodingChanges.length > 0 then
        m.EncodingChanges.foldl (fun c e => c + t.TotalBreakingChanges e.2) c
      else c
    some c

/-- The sum of the values of `f` over the entries of a map. -/
def sumOver {N : Type} (f : N → Int) (m : GoMap String N) : Int :=
  (m.map (fun e => f e.2)).sum

/-- The total of an optional nested change set: 0 when it is nil. -/
def totalOrZero {N : Type} (f : N → Int) (x : Option N) : Int :=
  match x with
  | some n => f n
  | none => 0

/-- Totals of a nested change set modelled by its number of changes. -/
def countTotals : NestedTotals Nat where
  TotalChanges := fun n => (n : Int)
  TotalBreakingChanges := fun _ => 0

/-- A `CallbackChanges` with one property change, two expression change sets and an
extension change set. -/
def sampleCallbackChanges : CallbackChanges Nat Nat :=
  { PropertyChanges := { Changes := [⟨ObjectAdded, "$url", none, some 5, false, none, some 7⟩] }
    ExpressionChanges := [("a", 2), ("b", 3)]
    ExtensionChanges := some 4 }

/-- A `MediaTypeChanges` with one property change and every nested change set present. -/
def sampleMediaTypeChanges : MediaTypeChanges Nat Nat :=
  { PropertyChanges := some { Changes := [⟨Modified, "example", some 5, some 6, false, none, none⟩] }
    SchemaChanges := some 2
    ExtensionChanges := some 1
    ExampleChanges := [("x", 3)]
    EncodingChanges := [("e", 4), ("f", 5)] }

/-! ## `CompareMediaTypes` (`media_type.go`, lines 60-139) -/

/-- Modelled from the spec: `utils.IsNodeMap` is not among the sources. A node is a map when
it is not nil and its kind is mapping (4). -/
def IsNodeMap (h : Heap) (node : Ptr) : Bool :=
  match node with
  | none => false
  | some a => decide ((h a).Kind = 4)

/-- Modelled from the spec: `utils.IsNodeArray` is not among the sources. A node is an array
when it is not nil and its kind is sequence (2). -/
def IsNodeArray (h : Heap) (node : Ptr) : Bool :=
  match node with
  | none => false
  | some a => decide ((h a).Kind = 2)

/-- The fields of `v3.MediaType` that `CompareMediaTypes` reads. -/
structure MediaType (V Ext : Type) where
  Schema : NodeReference V
  Example : NodeReference V
  Examples : NodeReference V
  Encoding : NodeReference V
  Extensions : Ext

/-- The collaborators of `CompareMediaTypes` that live outside the sources. `Marshal h a` is
`yaml.Marshal` of the node at `a`: the rendered text and the error. `Sprint` is `fmt.Sprint`
of the rendered bytes. `CheckExample` stands for `addPropertyCheck` followed by
`CheckProperties` on the example property: the changes they record, given the heap, the two
value nodes and the two values. `CheckExamples` and `CheckEncoding` stand for the two calls of
`CheckMapForChanges`: the changes they record and the map they return. None of them writes to
a node. -/
structure MediaTypeEnv (V Ext N : Type) where
  AreEqual : Heap → MediaType V Ext → MediaType V Ext → Bool
  Marshal : Heap → Addr → String × Option String
  Sprint : String → String
  CheckExample : Heap → Ptr → Ptr → V → V → List (Change V)
  CompareSchemas : V → V → Option N
  CheckExamples : V → V → List (Change V) × GoMap String N
  CheckEncoding : V → V → List (Change V) × GoMap String N
  CompareExtensions : Ext → Ext → Option N
  totals : NestedTotals N

/-- The statement pair `render, err := yaml.Marshal(node); if err != nil { node.Value = ... }`
applied to the left example (lines 76-79 and 91-94): the text is written when rendering
fails. `text` is `fmt.Sprintf("%s", render)` in the first place and `fmt.Sprint(render)` in
the second. -/
def renderLeft {V Ext N : Type} (env : MediaTypeEnv V Ext N) (text : String → String)
    (h : Heap) (node : Ptr) : Heap :=
  match node with
  | none => h
  | some a =>
    if (env.Marshal h a).2 ≠ none then Heap.setValue h a (text (env.Marshal h a).1) else h

/-- The statement pair `render, err = yaml.Marshal(node); if err == nil { node.Value = ... }`
applied to the right example (lines 80-83 and 98-101): the rendered text is written when
rendering succeeds. -/
def renderRight {V Ext N : Type} (env : MediaTypeEnv V Ext N) (h : Heap) (node : Ptr) : Heap :=
  match node with
  | none => h
  | some b =>
    if (env.Marshal h b).2 = none then Heap.setValue h b (env.Marshal h b).1 else h

/-- The example step of `CompareMediaTypes` (lines 72-107) as far as it writes to nodes: the
heap after it. -/
def renderExamples {V Ext N : Type} (env : MediaTypeEnv V Ext N) (h : Heap)
    (l r : MediaType V Ext) : Heap :=
  let lv := l.Example.ValueNode
  let rv := r.Example.ValueNode
  if !l.Example.IsEmpty && !r.Example.IsEmpty then
    if (IsNodeMap h lv && IsNodeMap h rv) || (IsNodeArray h lv && IsNodeArray h rv) then
      let h1 := renderLeft env (fun s => s) h lv
      renderRight env h1 rv
    else h
  else
    let h1 := if IsNodeMap h lv || IsNodeArray h lv then renderLeft env env.Sprint h lv else h
    if IsNodeMap h1 rv || IsNodeArray h1 rv then renderRight env h1 rv else h1

/-- The changes recorded for the schema (lines 112-123). -/
def schemaChanges {V : Type} (lSchema rSchema : NodeReference V) (changes : List (Change V)) :
    List (Change V) :=
  let changes :=
    if !lSchema.IsEmpty && rSchema.IsEmpty then
      CreateChange changes ObjectRemoved "schema" lSchema.ValueNode none true
        (some lSchema.Value) none
    else changes
  if lSchema.IsEmpty && !rSchema.IsEmpty then
    CreateChange changes ObjectAdded "schema" none rSchema.ValueNode true
      none (some rSchema.Value)
  else changes

/-- The change set `mc` that `CompareMediaTypes` has filled in when it reaches its last
test (lines 109-133), given the heap `h2` left by the example step. -/
def mediaTypeChangesOf {V Ext N : Type} (env : MediaTypeEnv V Ext N) (h2 : Heap)
    (l r : MediaType V Ext) : MediaTypeChanges V N :=
  let changes : List (Change V) :=
    env.CheckExample h2 l.Example.ValueNode r.Example.ValueNode l.Example.Value
      r.Example.Value
  let schema : Option N :=
    if !l.Schema.IsEmpty && !r.Schema.IsEmpty then
      env.CompareSchemas l.Schema.Value r.Schema.Value
    else none
  let changes := schemaChanges l.Schema r.Schema changes
  let examples := env.CheckExamples l.Examples.Value r.Examples.Value
  let changes := changes ++ examples.1
  let encoding := env.CheckEncoding l.Encoding.Value r.Encoding.Value
  let changes := changes ++ encoding.1
  { PropertyChanges := some { Changes := changes }
    SchemaChanges := schema
    ExtensionChanges := env.CompareExtensions l.Extensions r.Extensions
    ExampleChanges := examples.2
    EncodingChanges := encoding.2 }

/-- The function `CompareMediaTypes`. The result is the heap after the call and the pointer
returned (`none` is nil); the outer `none` is the panic of `TotalChanges` on a nil
`PropertyChanges`, which `NewPropertyChanges` never produces. -/
def CompareMediaTypes {V Ext N : Type} (env : MediaTypeEnv V Ext N) (h : Heap)
    (l r : MediaType V Ext) : Option (Heap × Option (MediaTypeChanges V N)) :=
  if env.AreEqual h l r then some (h, none)
  else
    let h2 := renderExamples env h l r
    let mc := mediaTypeChangesOf env h2 l r
    match mc.TotalChanges env.totals with
    | none => none
    | some total => if total ≤ 0 then some (h2, none) else some (h2, some mc)

/-- A heap with two example mappings: `{a: 1}` at address 20 and `{a: 2}` at address 30. -/
def docExamples : Heap := fun a =>
  match a with
  | 20 => mappingNode 5 12 [21, 22]
  | 21 => scalarNode "a" 6 9
  | 22 => scalarNode "1" 6 12
  | 30 => mappingNode 5 12 [31, 32]
  | 31 => scalarNode "a" 6 9
  | 32 => scalarNode "2" 6 12
  | _ => default

/-- An empty `NodeReference`. -/
def emptyNodeRef : NodeReference Nat :=
  { Value := 0, ValueNode := none, KeyNode := none, ReferenceNode := false, Reference := "" }

/-- A media type whose only field is the example held by the node at `a`. -/
def mediaTypeWithExample (a : Addr) : MediaType Nat Unit :=
  { Schema := emptyNodeRef
    Example := { Value := a, ValueNode := some a, KeyNode := some (a - 1),
                 ReferenceNode := false, Reference := "" }
    Examples := emptyNodeRef
    Encoding := emptyNodeRef
    Extensions := () }

/-- Collaborators for the example heap: media types are equal when their example values are,
rendering always succeeds and writes the flow form of the mapping, and the example check
records one modification when the two value nodes hold different texts. -/
def exampleEnv : MediaTypeEnv Nat Unit Nat where
  AreEqual := fun _ l r => decide (l.Example.Value = r.Example.Value)
  Marshal := fun h a =>
    (String.intercalate ", " ((h a).Content.map (fun c => (h c).Value)), none)
  Sprint := fun s => s
  CheckExample := fun h lv rv _ _ =>
    match lv, rv with
    | some a, some b =>
      if (h a).Value = (h b).Value then []
      else [⟨Modified, "example", some a, some b, false, none, none⟩]
    | _, _ => []
  CompareSchemas := fun _ _ => none
  CheckExamples := fun _ _ => ([], [])
  CheckEncoding := fun _ _ => ([], [])
  CompareExtensions := fun _ _ => none
  totals := countTotals

/-! ## `CompareCallback` (`callback.go`, lines 39-95) and the hash rendering -/

/-- A SHA-256 sum: the Go type `[32]byte`, each element read modulo 256. -/
structure Hash32 where
  bytes : List Nat
  size : bytes.length = 32

/-- One lower-case hexadecimal digit. -/
def hexDigit (n : Nat) : Char :=
  if n < 10 then Char.ofNat (48 + n) else Char.ofNat (87 + n)

/-- Two hexadecimal digits per byte, as the verb `%x` renders a byte array. -/
def hexOf : List Nat → List Char
  | [] => []
  | b :: bs => hexDigit (b % 256 / 16) :: hexDigit (b % 16) :: hexOf bs

/-- The function `HashToString` (`reference.go`, lines 373-375): `fmt.Sprintf("%x", hash)`,
the rendering named by the constant `HASH`. -/
def HashToString (hash : Hash32) : String := ⟨hexOf hash.bytes⟩

/-- The struct `v3.Callback` as far as `CompareCallback` reads it: the map
`Expression.Value` and the extensions. -/
structure Callback (P Ext : Type) where
  Expression : GoMap (KeyReference String) (ValueReference P)
  Extensions : Ext

/-- The collaborators of `CompareCallback` that live outside the sources: the 32-byte hash of
a path item, `ComparePathItems`, `CompareExtensions` and the totals of the change sets they
return. -/
structure CallbackEnv (P Ext N : Type) where
  Hash : P → Hash32
  ComparePathItems : P → P → N
  CompareExtensions : Ext → Ext → Option N
  totals : NestedTotals N

/-- Modelled from the spec: `low.GenerateHashString` is not among the sources. It is the
`HASH` rendering of the 32-byte content hash of its argument. -/
def GenerateHashString {P Ext N : Type} (env : CallbackEnv P Ext N) (v : P) : String :=
  HashToString (env.Hash v)

/-- The loops of lines 51-59: the entries of `Expression.Value` are visited in the order
`visit`, and each stores its hash and its value under the text of its key. The arguments are
the entries still to visit and the two maps built so far. -/
def collectLoop {P Ext N : Type} (env : CallbackEnv P Ext N) :
    List (KeyReference String × ValueReference P) → GoMap String String →
    GoMap String (ValueReference P) → GoMap String String × GoMap String (ValueReference P)
  | [], hashes, values => (hashes, values)
  | e :: rest, hashes, values =>
    collectLoop env rest (hashes.assign e.1.Value (GenerateHashString env e.2.Value))
      (values.assign e.1.Value e.2)

/-- The read `m[k]` of a map of strings: the empty string when `k` is absent. -/
def hashAt (m : GoMap String String) (k : String) : String := (m.get k).getD ""

/-- The read `m[k]` of a map of value references: the zero value when `k` is absent. -/
def valueAt {P : Type} [Inhabited P] (m : GoMap String (ValueReference P)) (k : String) :
    ValueReference P :=
  (m.get k).getD { Value := default, ValueNode := none, ReferenceNode := false, Reference := "" }

/-- The loop of lines 64-77 over the keys of `lHashes`. -/
def checkLeftLoop {P Ext N : Type} [Inhabited P] (env : CallbackEnv P Ext N)
    (lHashes rHashes : GoMap String String) (lValues rValues : GoMap String (ValueReference P)) :
    List String → List (Change P) → GoMap String N → List (Change P) × GoMap String N
  | [], changes, expChanges => (changes, expChanges)
  | k :: rest, changes, expChanges =>
    let rhash := hashAt rHashes k
    if rhash = "" then
      checkLeftLoop env lHashes rHashes lValues rValues rest
        (CreateChange changes ObjectRemoved k (valueAt lValues k).GetValueNode none true
          (some (valueAt lValues k).GetValue) none)
        expChanges
    else if hashAt lHashes k = hashAt rHashes k then
      checkLeftLoop env lHashes rHashes lValues rValues rest changes expChanges
    else
      checkLeftLoop env lHashes rHashes lValues rValues rest changes
        (expChanges.assign k
          (env.ComparePathItems (valueAt lValues k).Value (valueAt rValues k).Value))

/-- The loop of lines 80-88 over the keys of `rHashes`. -/
def checkRightLoop {P : Type} [Inhabited P] (lHashes : GoMap String String)
    (rValues : GoMap String (ValueReference P)) :
    List String → List (Change P) → List (Change P)
  | [], changes => changes
  | k :: rest, changes =>
    let lhash := hashAt lHashes k
    if lhash = "" then
      checkRightLoop lHashes rValues rest
        (CreateChange changes ObjectAdded k none (valueAt rValues k).GetValueNode false
          none (some (valueAt rValues k).GetValue))
    else checkRightLoop lHashes rValues rest changes

/-- The function `CompareCallback`. `lVisit` and `rVisit` are the orders in which the two
`range` loops of lines 51-59 visit `l.Expression.Value` and `r.Expression.Value`; Go chooses
the order anew for every loop, also when `l` and `r` are the same callback. The loops over
`lHashes` and `rHashes` are run in the order of their entries, which decides only the order
of the recorded changes. The result is the pointer returned: `none` is nil. -/
def CompareCallback {P Ext N : Type} [Inhabited P] (env : CallbackEnv P Ext N)
    (l r : Callback P Ext) (lVisit rVisit : List (KeyReference String × ValueReference P)) :
    Option (CallbackChanges P N) :=
  let lMaps := collectLoop env lVisit [] []
  let rMaps := collectLoop env rVisit [] []
  let left := checkLeftLoop env lMaps.1 rMaps.1 lMaps.2 rMaps.2
    (lMaps.1.map (fun e => e.1)) [] []
  let changes := checkRightLoop lMaps.1 rMaps.2 (rMaps.1.map (fun e => e.1)) left.1
  let cc : CallbackChanges P N :=
    { PropertyChanges := { Changes := changes }
      ExpressionChanges := left.2
      ExtensionChanges := env.CompareExtensions l.Extensions r.Extensions }
  if cc.TotalChanges env.totals ≤ 0 then none else some cc

/-- Collaborators for the examples: a path item is a number, its hash is that number repeated
32 times, comparing two path items gives a change set with one change, and extensions never
change. -/
def numberEnv : CallbackEnv Nat Unit Nat where
  Hash := fun n => { bytes := List.replicate 32 n, size := List.length_replicate 32 n }
  ComparePathItems := fun _ _ => 1
  CompareExtensions := fun _ _ => none
  totals := countTotals

/-- A callback whose mapping has the expression `$url` twice, at the key nodes 1 and 3,
with the path items 7 and 8. -/
def twiceCallback : Callback Nat Unit :=
  { Expression := [(⟨"$url", some 1⟩, ⟨7, some 2, false, ""⟩),
                   (⟨"$url", some 3⟩, ⟨8, some 4, false, ""⟩)]
    Extensions := () }

/-- A callback with the two expressions `$url` and `$other`. -/
def plainCallback : Callback Nat Unit :=
  { Expression := [(⟨"$url", some 1⟩, ⟨7, some 2, false, ""⟩),
                   (⟨"$other", some 3⟩, ⟨8, some 4, false, ""⟩)]
    Extensions := () }

/-! ## The remaining methods of the reference containers (`reference.go`) -/

/-- The method `ValueReference.IsEmpty`: no value node. -/
def ValueReference.IsEmpty {T : Type} (n : ValueReference T) : Bool :=
  decide (n.ValueNode = none)

/-- The method `KeyReference.IsEmpty`: no key node. -/
def KeyReference.IsEmpty {T : Type} (n : KeyReference T) : Bool :=
  decide (n.KeyNode = none)

/-- The method `NodeReference.NodeLineNumber` (lines 150-156). `none` is the nil-pointer panic
of `n.ValueNode.Line`. -/
def NodeReference.NodeLineNumber {T : Type} (h : Heap) (n : NodeReference T) : Option Nat :=
  if !n.IsEmpty then
    match n.ValueNode with
    | some a => some (h a).Line
    | none => none
  else some 0

/-- The method `ValueReference.NodeLineNumber` (lines 223-229). `none` is the nil-pointer
panic of `n.ValueNode.Line`. -/
def ValueReference.NodeLineNumber {T : Type} (h : Heap) (n : ValueReference T) : Option Nat :=
  if !n.IsEmpty then
    match n.ValueNode with
    | some a => some (h a).Line
    | none => none
  else some 0

/-- The text `fmt.Sprintf("%d:%d", line, column)`. -/
def lineColumnKey (line column : Nat) : String :=
  fmtD line ++ ":" ++ fmtD column

/-- The method `NodeReference.GenerateMapKey` (lines 185-187). `none` is the nil-pointer panic
on a nil value node. -/
def NodeReference.GenerateMapKey {T : Type} (h : Heap) (n : NodeReference T) : Option String :=
  match n.ValueNode with
  | some a => some (lineColumnKey (h a).Line (h a).Column)
  | none => none

/-- The method `ValueReference.GenerateMapKey` (lines 232-234). -/
def ValueReference.GenerateMapKey {T : Type} (h : Heap) (n : ValueReference T) :
    Option String :=
  match n.ValueNode with
  | some a => some (lineColumnKey (h a).Line (h a).Column)
  | none => none

/-- The method `KeyReference.GenerateMapKey` (lines 297-299), on the key node. -/
def KeyReference.GenerateMapKey {T : Type} (h : Heap) (n : KeyReference T) : Option String :=
  match n.KeyNode with
  | some a => some (lineColumnKey (h a).Line (h a).Column)
  | none => none

/-- The loop of `NodeReference.IsReference` (lines 172-179) over `n.KeyNode.Content`, from the
index `k` on: true when a child at an even index has the text `$ref`. -/
def refKeyScan (h : Heap) : List Addr → Nat → Bool
  | [], _ => false
  | c :: rest, k =>
    if k % 2 = 0 then
      if (h c).Value = "$ref" then true else refKeyScan h rest (k + 1)
    else refKeyScan h rest (k + 1)

/-- The method `NodeReference.IsReference` (lines 167-182). The assignment to
`n.ReferenceNode` acts on the receiver's copy and is not visible to the caller. -/
def NodeReference.IsReference {T : Type} (h : Heap) (n : NodeReference T) : Bool :=
  if n.ReferenceNode then true
  else
    match n.KeyNode with
    | some a => refKeyScan h (h a).Content 0
    | none => false

/-- The digits of a decimal rendering read back, least significant first. -/
def valueOfDigitsRev : List Char → Nat
  | [] => 0
  | c :: cs => (c.toNat - 48) + 10 * valueOfDigitsRev cs

/-- A heap with a node at line 33, column 56 (address 1), two more nodes at other positions
and a key node (address 6) whose children are `a`, `$ref`, `$ref`, `b`. -/
def docPositions : Heap := fun a =>
  match a with
  | 1 => scalarNode "v" 33 56
  | 2 => scalarNode "k" 33 50
  | 3 => scalarNode "w" 3 356
  | 6 => mappingNode 7 1 [7, 8, 9, 10]
  | 7 => scalarNode "a" 7 3
  | 8 => scalarNode "$ref" 7 6
  | 9 => scalarNode "$ref" 8 3
  | 10 => scalarNode "b" 8 9
  | _ => default

/-! ## The high-level model (`datamodel/high`) -/

/-- A pointer to a low-level object: the address that identifies the object and the object
it points to. -/
structure GoPtr (α : Type) where
  addr : Addr
  target : α
deriving DecidableEq, Repr

namespace low

/-- The struct `low.Link` as far as `NewLink` reads it. `S` is the low-level `Server` and
`Ext` the low-level extension map; the `Value` of `Server` is a pointer, `none` when nil. -/
structure Link (S Ext : Type) where
  OperationRef : NodeReference String
  OperationId : NodeReference String
  Parameters : NodeReference (GoMap (KeyReference String) (ValueReference String))
  RequestBody : NodeReference String
  Description : NodeReference String
  Server : NodeReference (Option S)
  Extensions : Ext

/-- The struct `low.OAuthFlows` as far as `NewOAuthFlows` reads it. `F` is a pointer to the
low-level `OAuthFlow`. -/
structure OAuthFlows (F Ext : Type) where
  Implicit : NodeReference F
  Password : NodeReference F
  ClientCredentials : NodeReference F
  AuthorizationCode : NodeReference F
  Extensions : Ext

end low

namespace high

/-- The struct `Link` (`link.go`, lines 13-22). `Parameters` is a Go map: `none` is the nil
map; `Server` is a pointer: `none` is nil. -/
structure Link (S Ext HS HExt : Type) where
  OperationRef : String
  OperationId : String
  Parameters : Option (GoMap String String)
  RequestBody : String
  Description : String
  Server : Option HS
  Extensions : HExt
  low : GoPtr (low.Link S Ext)

/-- The collaborators of `NewLink` outside the sources: `NewServer` and
`high.ExtractExtensions`. -/
structure LinkEnv (S Ext HS HExt : Type) where
  NewServer : S → HS
  ExtractExtensions : Ext → HExt

/-- The loop of lines 30-32: `params[k.Value] = v.Value` for every entry visited. -/
def paramsLoop : List (KeyReference String × ValueReference String) → GoMap String String →
    GoMap String String
  | [], params => params
  | e :: rest, params => paramsLoop rest (params.assign e.1.Value e.2.Value)

/-- The function `NewLink` (lines 25-42). `visit` is the order in which the `range` loop
visits `link.Parameters.Value`. -/
def NewLink {S Ext HS HExt : Type} (env : LinkEnv S Ext HS HExt) (link : GoPtr (low.Link S Ext))
    (visit : List (KeyReference String × ValueReference String)) : Link S Ext HS HExt :=
  { low := link
    OperationRef := link.target.OperationRef.Value
    OperationId := link.target.OperationId.Value
    Parameters := some (paramsLoop visit [])
    RequestBody := link.target.RequestBody.Value
    Description := link.target.Description.Value
    Server :=
      match link.target.Server.Value with
      | some s => some (env.NewServer s)
      | none => none
    Extensions := env.ExtractExtensions link.target.Extensions }

/-- The method `Link.GoLow` (lines 45-47). -/
def Link.GoLow {S Ext HS HExt : Type} (l : Link S Ext HS HExt) : GoPtr (low.Link S Ext) :=
  l.low

/-- The struct `OAuthFlows` (`oauth_flows.go`, lines 11-18). -/
structure OAuthFlows (F Ext HF HExt : Type) where
  Implicit : Option HF
  Password : Option HF
  ClientCredentials : Option HF
  AuthorizationCode : Option HF
  Extensions : HExt
  low : GoPtr (low.OAuthFlows F Ext)

/-- The collaborators of `NewOAuthFlows` outside the sources: `NewOAuthFlow` and
`high.ExtractExtensions`. -/
structure OAuthFlowsEnv (F Ext HF HExt : Type) where
  NewOAuthFlow : F → HF
  ExtractExtensions : Ext → HExt

/-- The function `NewOAuthFlows` (lines 20-40); the second test of `Implicit` (lines 35-37)
assigns the same value again. -/
def NewOAuthFlows {F Ext HF HExt : Type} (env : OAuthFlowsEnv F Ext HF HExt)
    (flows : GoPtr (low.OAuthFlows F Ext)) : OAuthFlows F Ext HF HExt :=
  let implicit1 : Option HF :=
    if !flows.target.Implicit.IsEmpty then some (env.NewOAuthFlow flows.target.Implicit.Value)
    else none
  let implicit2 : Option HF :=
    if !flows.target.Implicit.IsEmpty then some (env.NewOAuthFlow flows.target.Implicit.Value)
    else implicit1
  { low := flows
    Implicit := implicit2
    Password :=
      if !flows.target.Password.IsEmpty then
        some (env.NewOAuthFlow flows.target.Password.Value)
      else none
    ClientCredentials :=
      if !flows.target.ClientCredentials.IsEmpty then
        some (env.NewOAuthFlow flows.target.ClientCredentials.Value)
      else none
    AuthorizationCode :=
      if !flows.target.AuthorizationCode.IsEmpty then
        some (env.NewOAuthFlow flows.target.AuthorizationCode.Value)
      else none
    Extensions := env.ExtractExtensions flows.target.Extensions }

/-- The method `OAuthFlows.GoLow` (lines 42-44). -/
def OAuthFlows.GoLow {F Ext HF HExt : Type} (o : OAuthFlows F Ext HF HExt) :
    GoPtr (low.OAuthFlows F Ext) :=
  o.low

end high

/-- A `NodeReference` holding `v` at the value node `a`. -/
def nodeRefAt {T : Type} (v : T) (a : Addr) : NodeReference T :=
  { Value := v, ValueNode := some a, KeyNode := none, ReferenceNode := false, Reference := "" }

/-- A low-level link with two parameters and a server, at address 100. -/
def sampleLowLink : GoPtr (low.Link String Unit) :=
  { addr := 100
    target :=
      { OperationRef := nodeRefAt "#/paths/~1pets/get" 1
        OperationId := nodeRefAt "listPets" 2
        Parameters := nodeRefAt
          [(⟨"id", some 7⟩, ⟨"$response.body#/id", some 8, false, ""⟩),
           (⟨"tag", some 9⟩, ⟨"$request.query.tag", some 10, false, ""⟩)] 3
        RequestBody := nodeRefAt "body" 4
        Description := nodeRefAt "next page" 5
        Server := nodeRefAt (some "https://pb33f.io") 6
        Extensions := () } }

/-- Collaborators for the sample link: the high-level server is the URL text. -/
def sampleLinkEnv : high.LinkEnv String Unit String Unit where
  NewServer := fun s => s
  ExtractExtensions := fun _ => ()

/-- A low-level `OAuthFlows` with only the implicit flow, at address 200. -/
def sampleLowFlows : GoPtr (low.OAuthFlows Nat Unit) :=
  { addr := 200
    target :=
      { Implicit := nodeRefAt 1 11
        Password := { Value := 0, ValueNode := none, KeyNode := none, ReferenceNode := false,
                      Reference := "" }
        ClientCredentials := { Value := 0, ValueNode := none, KeyNode := none,
                               ReferenceNode := false, Reference := "" }
        AuthorizationCode := { Value := 0, ValueNode := none, KeyNode := none,
                               ReferenceNode := false, Reference := "" }
        Extensions := () } }

/-! ## Reading the result of `CompareCallback` -/

/-- The change set `cc` that `CompareCallback` has filled in when it reaches its last test
(line 91). -/
def callbackChangesOf {P Ext N : Type} [Inhabited P] (env : CallbackEnv P Ext N)
    (l r : Callback P Ext) (lVisit rVisit : List (KeyReference String × ValueReference P)) :
    CallbackChanges P N :=
  let lMaps := collectLoop env lVisit [] []
  let rMaps := collectLoop env rVisit [] []
  let left := checkLeftLoop env lMaps.1 rMaps.1 lMaps.2 rMaps.2
    (lMaps.1.map (fun e => e.1)) [] []
  let changes := checkRightLoop lMaps.1 rMaps.2 (rMaps.1.map (fun e => e.1)) left.1
  { PropertyChanges := { Changes := changes }
    ExpressionChanges := left.2
    ExtensionChanges := env.CompareExtensions l.Extensions r.Extensions }

/-- The change recorded at lines 67-69 for the key `k`. -/
def removedChange {P : Type} [Inhabited P] (lValues : GoMap String (ValueReference P))
    (k : String) : Change P :=
  { ChangeType := ObjectRemoved, Property := k, LeftNode := (valueAt lValues k).GetValueNode,
    RightNode := none, Breaking := true, OriginalObject := some (valueAt lValues k).GetValue,
    NewObject := none }

/-- The change recorded at lines 83-85 for the key `k`. -/
def addedChange {P : Type} [Inhabited P] (rValues : GoMap String (ValueReference P))
    (k : String) : Change P :=
  { ChangeType := ObjectAdded, Property := k, LeftNode := none,
    RightNode := (valueAt rValues k).GetValueNode, Breaking := false, OriginalObject := none,
    NewObject := some (valueAt rValues k).GetValue }

/-- Some key of the expression map has the text `s`. -/
def HasKeyText {P : Type} (m : GoMap (KeyReference String) (ValueReference P)) (s : String) :
    Prop :=
  ∃ e ∈ m, e.1.Value = s

/-- A left callback with the expressions `$gone` and `$kept`. -/
def leftCallback : Callback Nat Unit :=
  { Expression := [(⟨"$gone", some 1⟩, ⟨7, some 2, false, ""⟩),
                   (⟨"$kept", some 3⟩, ⟨8, some 4, false, ""⟩)]
    Extensions := () }

/-- A right callback with the expressions `$kept`, holding another path item, and `$new`. -/
def rightCallback : Callback Nat Unit :=
  { Expression := [(⟨"$kept", some 13⟩, ⟨9, some 14, false, ""⟩),
                   (⟨"$new", some 15⟩, ⟨10, some 16, false, ""⟩)]
    Extensions := () }

/-! ## Two media types with the same example -/

/-- A heap holding the example mapping `a: 1` twice, at the addresses 20 and 40. -/
def docTwins : Heap := fun a =>
  match a with
  | 20 => mappingNode 5 12 [21, 22]
  | 21 => scalarNode "a" 6 9
  | 22 => scalarNode "1" 6 12
  | 40 => mappingNode 5 12 [41, 42]
  | 41 => scalarNode "a" 6 9
  | 42 => scalarNode "1" 6 12
  | _ => default

/-- A media type with the schema value `schema` held by the node at `s`, and an example of
value 1 held by the node at `a`. -/
def mediaTypeWithSchema (schema : Nat) (s a : Addr) : MediaType Nat Unit :=
  { Schema := { Value := schema, ValueNode := some s, KeyNode := some (s - 1),
                ReferenceNode := false, Reference := "" }
    Example := { Value := 1, ValueNode := some a, KeyNode := some (a - 1),
                 ReferenceNode := false, Reference := "" }
    Examples := emptyNodeRef
    Encoding := emptyNodeRef
    Extensions := () }

/-- The left media type: schema 5, the example at node 20. -/
def twinLeft : MediaType Nat Unit := mediaTypeWithSchema 5 50 20

/-- The right media type: schema 6, the same example at node 40. -/
def twinRight : MediaType Nat Unit := mediaTypeWithSchema 6 60 40

/-- Collaborators for the twin examples: as `exampleEnv`, but media types are equal when
their schema values and their example values are, and two different schemas compare to a
change set with one change. -/
def twinEnv : MediaTypeEnv Nat Unit Nat where
  AreEqual := fun _ l r =>
    decide (l.Schema.Value = r.Schema.Value) && decide (l.Example.Value = r.Example.Value)
  Marshal := exampleEnv.Marshal
  Sprint := exampleEnv.Sprint
  CheckExample := exampleEnv.CheckExample
  CompareSchemas := fun a b => if a = b then none else some 1
  CheckExamples := exampleEnv.CheckExamples
  CheckEncoding := exampleEnv.CheckEncoding
  CompareExtensions := exampleEnv.CompareExtensions
  totals := countTotals

/-- The property changes of a result of `CompareMediaTypes`, when it returned a change set. -/
def recordedChanges {V N : Type} (res : Option (Heap × Option (MediaTypeChanges V N))) :
    Option (List (Change V)) :=
  match res with
  | some (_, some mc) => mc.PropertyChanges.map (fun p => p.Changes)
  | _ => none

/-! ## Indexes as the detector records them -/

/-- Modelled from the spec: the `index` package that fills the two tables is not among the
sources. The detector records a result with `LoopPoint` the revisited node and `Journey` the
stack contents between the first and the second visit, so the definition of the loop point
is the definition of a step of the journey (in particular when the loop point is itself a
step); and a reference is flagged circular only when it was met on such a chain, so a mapped
reference flagged `Circular` under the string `s` has a recorded result with a journey step
of definition `s`. -/
def index.SpecIndex.Consistent (idx : index.SpecIndex) : Prop :=
  (∀ r ∈ idx.GetCircularReferences, ∃ j ∈ r.Journey, j.Definition = r.LoopPoint.Definition) ∧
  (∀ s ref, idx.GetMappedReferences s = some ref → ref.Circular = true →
    ∃ r ∈ idx.GetCircularReferences, ∃ j ∈ r.Journey, j.Definition = s)

/-- The index of the document `a: {$ref: '#/b'}`, `b: {$ref: '#/a'}`, `c: {}`: one circular
result with the journey `#/a`, `#/b` and the loop point at `#/b`, the references `#/a` and
`#/b` mapped and flagged circular, and `#/c` mapped and not flagged. -/
def idxRecorded : index.SpecIndex where
  GetCircularReferences :=
    [{ Journey := [⟨"#/a", some 10, true⟩, ⟨"#/b", some 11, true⟩],
       LoopPoint := ⟨"#/b", some 11, true⟩ }]
  GetMappedReferences := fun s =>
    if s = "#/a" then some ⟨"#/a", some 10, true⟩
    else if s = "#/b" then some ⟨"#/b", some 11, true⟩
    else if s = "#/c" then some ⟨"#/c", some 13, false⟩
    else none

/-! ## Theorems -/

/-- C1 (evaluation at a failing input). On the paths mapping `/a: {}`, `x-e: x-v`, `/b: {}`
the call succeeds, and the only entry of `PathItems` has the key `/a` (key node 2) paired with
the path item built from node 7, which is the value that follows the key `/b` (node 6), not
the value 3 that follows `/a`. -/
theorem C1_key_paired_with_value_of_other_key :
    (Paths.Build (plainEnv docExtScalar) docExtScalar emptyPaths (some 1) [0, 1]).map
        (fun r => (r.err, r.p.PathItems)) =
      some (none, [(⟨"/a", some 2⟩, ⟨7, some 7, false, ""⟩)]) ∧
    (docExtScalar 1).Content = [2, 3, 4, 5, 6, 7] ∧
    (docExtScalar 2).Value = "/a" ∧ (docExtScalar 6).Value = "/b" := by
  decide

/-- C2 (evaluation at a failing input). On the paths mapping `/a: {}`, `x-e: x-v`, `/b: {}`
the root has two keys that are not extensions, but after a successful call `PathItems` has a
single entry, in both arrival orders. -/
theorem C2_fewer_entries_than_keys :
    nonExtensionKeys docExtScalar 1 = [2, 6] ∧
    (Paths.Build (plainEnv docExtScalar) docExtScalar emptyPaths (some 1) [0, 1]).map
        (fun r => (r.err, r.p.PathItems.length)) = some (none, 1) ∧
    (Paths.Build (plainEnv docExtScalar) docExtScalar emptyPaths (some 1) [1, 0]).map
        (fun r => (r.err, r.p.PathItems.length)) = some (none, 1) := by
  decide

/-- C3 (evaluation at a failing input). On the paths mapping `/a: {}`, `x-e: x-v`, `/b: {}`
both siblings succeed, and the value stored under the key `/a` depends on which of them
arrives last: it is the item built from node 7 in the order `[0, 1]`, which is also the
sequential build, and the item built from node 3 in the order `[1, 0]`. -/
theorem C3_map_depends_on_arrival_order :
    IsArrivalOrder (taskOutcomes (plainEnv docExtScalar) docExtScalar 1).length [0, 1] ∧
    IsArrivalOrder (taskOutcomes (plainEnv docExtScalar) docExtScalar 1).length [1, 0] ∧
    (Paths.Build (plainEnv docExtScalar) docExtScalar emptyPaths (some 1) [0, 1]).map
        (fun r => (r.err, r.p.PathItems.get ⟨"/a", some 2⟩)) =
      some (none, some ⟨7, some 7, false, ""⟩) ∧
    (Paths.Build (plainEnv docExtScalar) docExtScalar emptyPaths (some 1) [1, 0]).map
        (fun r => (r.err, r.p.PathItems.get ⟨"/a", some 2⟩)) =
      some (none, some ⟨3, some 3, false, ""⟩) ∧
    (Paths.BuildSequential (plainEnv docExtScalar) docExtScalar emptyPaths 1).map
        (fun r => (r.err, r.p.PathItems.get ⟨"/a", some 2⟩)) =
      some (none, some ⟨7, some 7, false, ""⟩) := by
  refine ⟨?_, ?_, ?_, ?_, ?_⟩ <;> decide

/-- C4 (evaluation at a failing input). On the paths mapping `x-e: x-v`, `/p: {}`,
`/q: {}`, where the build of `/q` fails, the task for `/p` is dispatched with a nil key node
and panics; when it completes first, `Build` never returns, although a sibling failed. -/
theorem C4_failing_sibling_without_returned_error :
    dispatched docExtFirst 1 = [(none, 5), (some 6, 7)] ∧
    taskOutcomes (failingEnv docExtFirst 7) docExtFirst 1 =
      [.panicked, .failed "path item is broken"] ∧
    IsArrivalOrder 2 [0, 1] ∧
    (Paths.Build (failingEnv docExtFirst 7) docExtFirst emptyPaths (some 1) [0, 1]).map
        (fun r => r.err) = none := by
  refine ⟨?_, ?_, ?_, ?_⟩ <;> decide

/-! ### General facts about the aggregation loop -/

theorem GoMap.mem_assign {K V : Type} [DecidableEq K] (m : GoMap K V) (k : K) (v : V)
    (e : K × V) (he : e ∈ m.assign k v) : e = (k, v) ∨ e ∈ m := by
  unfold GoMap.assign at he
  rcases List.mem_cons.mp he with h1 | h1
  · exact Or.inl h1
  · exact Or.inr (List.mem_filter.mp h1).1

theorem mem_of_mem_arrivals {PI : Type} (outcomes : List (TaskOutcome PI)) (order : List Nat)
    (o : TaskOutcome PI) (ho : o ∈ arrivals outcomes order) : o ∈ outcomes := by
  unfold arrivals at ho
  obtain ⟨i, _, hi⟩ := List.mem_filterMap.mp ho
  exact List.getElem?_mem hi

theorem aggregate_entries {PI : Type} (n : Nat) (arr : List (TaskOutcome PI)) :
    ∀ (c : Nat) (m m' : GoMap (KeyReference String) (ValueReference PI)),
      aggregate n c m arr = some (.ok m') →
      ∀ e ∈ m', e ∈ m ∨ ∃ res, TaskOutcome.built res ∈ arr ∧ e = (res.k, res.v) := by
  induction arr with
  | nil =>
    intro c m m' hagg e he
    simp only [aggregate] at hagg
    split at hagg
    · cases hagg
    · cases hagg
      exact Or.inl he
  | cons o rest ih =>
    intro c m m' hagg e he
    simp only [aggregate] at hagg
    split at hagg
    · cases o with
      | built res =>
        rcases ih _ _ _ hagg e he with h1 | ⟨res', hmem, heq⟩
        · rcases GoMap.mem_assign _ _ _ _ h1 with h2 | h2
          · exact Or.inr ⟨res, List.mem_cons_self _ _, h2⟩
          · exact Or.inl h2
        · exact Or.inr ⟨res', List.mem_cons_of_mem _ hmem, heq⟩
      | failed err => cases hagg
      | panicked => cases hagg
    · cases hagg
      exact Or.inl he

theorem aggregate_error {PI : Type} (n : Nat) (arr : List (TaskOutcome PI)) :
    ∀ (c : Nat) (m : GoMap (KeyReference String) (ValueReference PI)) (err : String),
      aggregate n c m arr = some (.error err) → TaskOutcome.failed err ∈ arr := by
  induction arr with
  | nil =>
    intro c m err hagg
    simp only [aggregate] at hagg
    split at hagg <;> cases hagg
  | cons o rest ih =>
    intro c m err hagg
    simp only [aggregate] at hagg
    split at hagg
    · cases o with
      | built res => exact List.mem_cons_of_mem _ (ih _ _ _ hagg)
      | failed err2 =>
        cases hagg
        exact List.mem_cons_self _ _
      | panicked => cases hagg
    · cases hagg

/-! ### General facts about one task -/

theorem buildPathItem_failed {PI E : Type} (env : BuildEnv PI E) (h : Heap) (c : Ptr) (n : Addr)
    (err : String) (hf : buildPathItem env h c n = .failed err) :
    ((IsNodeRefValue h (some n)).1 = true ∧ env.LocateRefNode n = none) ∨
      ∃ m, env.PathItemBuild (env.BuildModel m).1 m = .error err := by
  unfold buildPathItem at hf
  by_cases hm : (IsNodeRefValue h (some n)).1 = true
  · cases hl : env.LocateRefNode n with
    | none => exact Or.inl ⟨hm, rfl⟩
    | some r =>
      simp only [hm, hl, if_true] at hf
      cases hb : env.PathItemBuild (env.BuildModel r).1 r with
      | error e2 =>
        simp only [hb] at hf
        cases hf
        exact Or.inr ⟨r, hb⟩
      | ok path =>
        simp only [hb] at hf
        cases c <;> simp at hf
  · simp only [hm] at hf
    cases hb : env.PathItemBuild (env.BuildModel n).1 n with
    | error e2 =>
      simp [hb] at hf
      cases hf
      exact Or.inr ⟨n, hb⟩
    | ok path =>
      simp [hb] at hf
      cases c <;> simp at hf

theorem buildPathItem_built {PI E : Type} (env : BuildEnv PI E) (h : Heap) (c : Ptr) (n : Addr)
    (res : pathBuildResult PI) (hb : buildPathItem env h c n = .built res) :
    res.k.KeyNode = c ∧ res.v.ReferenceNode = false ∧ res.v.Reference = "" ∧
      res.v.ValueNode =
        (if (IsNodeRefValue h (some n)).1 = true then env.LocateRefNode n else some n) := by
  unfold buildPathItem at hb
  by_cases hm : (IsNodeRefValue h (some n)).1 = true
  · cases hl : env.LocateRefNode n with
    | none =>
      simp only [hm, hl, if_true] at hb
      cases hc : (h n).Content[1]? <;> simp [hc] at hb
    | some r =>
      simp only [hm, hl, if_true] at hb
      cases hp : env.PathItemBuild (env.BuildModel r).1 r with
      | error e2 => simp [hp] at hb
      | ok path =>
        simp only [hp] at hb
        cases c with
        | none => simp at hb
        | some a =>
          simp at hb
          subst hb
          simp [hm]
  · simp only [hm] at hb
    cases hp : env.PathItemBuild (env.BuildModel n).1 n with
    | error e2 => simp [hp] at hb
    | ok path =>
      simp [hp] at hb
      cases c with
      | none => simp at hb
      | some a =>
        simp at hb
        subst hb
        simp [hm]

/-! ### General facts about `Paths.Build` -/

theorem Build_error_from_task {PI E : Type} (env : BuildEnv PI E) (h : Heap) (p : Paths PI E)
    (root : Addr) (order : List Nat) (r : BuildReturn PI E) (err : String)
    (hret : Paths.Build env h p (some root) order = some r) (herr : r.err = some err) :
    ∃ t ∈ dispatched h root, buildPathItem env h t.1 t.2 = .failed err := by
  unfold Paths.Build at hret
  simp only at hret
  split at hret
  · cases hret
  · rename_i e2 hagg
    cases hret
    simp only [Option.some.injEq] at herr
    subst herr
    have hmem := mem_of_mem_arrivals _ _ _ (aggregate_error _ _ _ _ _ hagg)
    unfold taskOutcomes at hmem
    obtain ⟨t, ht, heq⟩ := List.mem_map.mp hmem
    exact ⟨t, ht, heq⟩
  · cases hret
    cases herr

theorem Build_entries_from_tasks {PI E : Type} (env : BuildEnv PI E) (h : Heap)
    (p : Paths PI E) (root : Addr) (order : List Nat) (r : BuildReturn PI E)
    (hret : Paths.Build env h p (some root) order = some r) (herr : r.err = none) :
    ∀ e ∈ r.p.PathItems, ∃ t ∈ dispatched h root, ∃ res,
      buildPathItem env h t.1 t.2 = .built res ∧ e = (res.k, res.v) := by
  unfold Paths.Build at hret
  simp only at hret
  split at hret
  · cases hret
  · cases hret
    cases herr
  · rename_i m hagg
    cases hret
    intro e he
    rcases aggregate_entries _ _ _ _ _ hagg e he with h1 | ⟨res, hmem, heq⟩
    · cases h1
    · have hmem2 := mem_of_mem_arrivals _ _ _ hmem
      unfold taskOutcomes at hmem2
      obtain ⟨t, ht, hb⟩ := List.mem_map.mp hmem2
      exact ⟨t, ht, res, hb, heq⟩

/-! ### Claims C5 to C8 -/

/-- C5 (counterexample). On the paths mapping `x-e: v`, `/p: {}`, where the build of `/p`
fails, `Build` returns the error and the receiver's `Extensions`, empty before the call, now
holds the extension `x-e`. -/
theorem C5_extensions_replaced_on_error :
    (Paths.Build (failingEnv docExtAndPath 5) docExtAndPath emptyPaths (some 1) [0]).map
        (fun r => (r.err, r.p.Extensions)) = some (some "path item is broken", ["x-e"]) ∧
    emptyPaths.Extensions = [] := by
  decide

/-- C5 (amended). When `Paths.Build` returns an error, the receiver's `PathItems` is exactly
as it was before the call, so the results of siblings that had already completed are
discarded; `Extensions` has been replaced by the extensions extracted from `root`. -/
theorem C5_error_keeps_pathItems_replaces_extensions {PI E : Type} (env : BuildEnv PI E)
    (h : Heap) (p : Paths PI E) (root : Ptr) (order : List Nat) (r : BuildReturn PI E)
    (err : String) (hret : Paths.Build env h p root order = some r)
    (herr : r.err = some err) :
    r.p.PathItems = p.PathItems ∧ r.p.Extensions = env.ExtractExtensions root := by
  unfold Paths.Build at hret
  cases root with
  | none => cases hret
  | some a =>
    simp only at hret
    split at hret
    · cases hret
    · cases hret
      exact ⟨rfl, rfl⟩
    · cases hret
      cases herr

theorem C5_error_keeps_pathItems_replaces_extensions_witness :
    Paths.Build (failingEnv docExtAndPath 5) docExtAndPath emptyPaths (some 1) [0] =
      some docExtAndPathReturn ∧
    docExtAndPathReturn.err = some "path item is broken" ∧
    (docExtAndPathReturn.p.PathItems = emptyPaths.PathItems ∧
      docExtAndPathReturn.p.Extensions =
        (failingEnv docExtAndPath 5).ExtractExtensions (some 1)) :=
  ⟨by decide, by decide,
    C5_error_keeps_pathItems_replaces_extensions (failingEnv docExtAndPath 5) docExtAndPath
      emptyPaths (some 1) [0] docExtAndPathReturn "path item is broken" (by decide)
      (by decide)⟩

/-- C6 (evaluation at a failing input). On the path item
`/p: {description: pets, $ref: '#/components/pathItems/Nope'}` the value node is a reference
marker with reference string `#/components/pathItems/Nope`, which the index cannot locate.
`Build` fails, but the error text names `pets`, the value of the first key of the marker, and
does not contain the reference string. -/
theorem C6_error_names_first_value_of_marker :
    IsNodeRefValue docRefSecond (some 3) = (true, some 6, "#/components/pathItems/Nope") ∧
    Paths.Build (plainEnv docRefSecond) docRefSecond emptyPaths (some 1) [0] =
      some docRefSecondReturn ∧
    docRefSecondReturn.err =
      some "path item build failed: cannot find reference: pets at line 3, col 18" ∧
    strContains "path item build failed: cannot find reference: pets at line 3, col 18"
      "#/components/pathItems/Nope" = false := by
  refine ⟨?_, ?_, ?_, ?_⟩ <;> decide

/-- C7 (counterexample). On the paths mapping `/p: {}`, `low.BuildModel` fails on the path
item with a malformed-node error while `path.Build` succeeds: `Build` returns a nil error and
the built model. -/
theorem C7_buildModel_failure_not_returned :
    ((withBuildModelError (plainEnv docOnePath)
        (fun _ => some "malformed node")).BuildModel 3).2 = some "malformed node" ∧
    (Paths.Build (withBuildModelError (plainEnv docOnePath) (fun _ => some "malformed node"))
        docOnePath emptyPaths (some 1) [0]).map (fun r => (r.err, r.p.PathItems)) =
      some (none, [(⟨"/p", some 2⟩, ⟨3, some 3, false, ""⟩)]) := by
  decide

/-- C7 (amended). The error returned by `low.BuildModel` is discarded: `Paths.Build` does the
same whatever error `BuildModel` reports for any node, and when it returns an error, that error
was produced for a dispatched path item whose reference could not be located or by the
`Build` of a path item. -/
theorem C7_buildModel_error_discarded {PI E : Type} (env : BuildEnv PI E) (h : Heap)
    (p : Paths PI E) (root : Addr) (order : List Nat) :
    (∀ f : Addr → Option String,
      Paths.Build (withBuildModelError env f) h p (some root) order =
        Paths.Build env h p (some root) order) ∧
    (∀ (r : BuildReturn PI E) (err : String),
      Paths.Build env h p (some root) order = some r → r.err = some err →
      ∃ t ∈ dispatched h root, buildPathItem env h t.1 t.2 = .failed err ∧
        (((IsNodeRefValue h (some t.2)).1 = true ∧ env.LocateRefNode t.2 = none) ∨
          ∃ m, env.PathItemBuild (env.BuildModel m).1 m = .error err)) := by
  refine ⟨fun f => rfl, ?_⟩
  intro r err hret herr
  obtain ⟨t, ht, hf⟩ := Build_error_from_task env h p root order r err hret herr
  exact ⟨t, ht, hf, buildPathItem_failed env h t.1 t.2 err hf⟩

theorem C7_buildModel_error_discarded_witness :
    Paths.Build (failingEnv docExtAndPath 5) docExtAndPath emptyPaths (some 1) [0] =
      some docExtAndPathReturn ∧
    docExtAndPathReturn.err = some "path item is broken" ∧
    ∃ t ∈ dispatched docExtAndPath 1,
      buildPathItem (failingEnv docExtAndPath 5) docExtAndPath t.1 t.2 =
        .failed "path item is broken" ∧
      (((IsNodeRefValue docExtAndPath (some t.2)).1 = true ∧
          (failingEnv docExtAndPath 5).LocateRefNode t.2 = none) ∨
        ∃ m, (failingEnv docExtAndPath 5).PathItemBuild
          ((failingEnv docExtAndPath 5).BuildModel m).1 m = .error "path item is broken") :=
  ⟨by decide, by decide,
    (C7_buildModel_error_discarded (failingEnv docExtAndPath 5) docExtAndPath emptyPaths 1
      [0]).2 docExtAndPathReturn "path item is broken" (by decide) (by decide)⟩

/-- C8 (counterexample). On the path item `/p: {$ref: '#/components/pathItems/P'}`, whose
value site is the marker at node 3 and whose reference resolves to node 9, the `ValueNode` of
the stored `ValueReference` is the target 9, not the value site 3. -/
theorem C8_valueNode_is_not_the_value_site :
    IsNodeRefValue docRefFirst (some 3) = (true, some 4, "#/components/pathItems/P") ∧
    (resolvingEnv docRefFirst 3 9).LocateRefNode 3 = some 9 ∧
    dispatched docRefFirst 1 = [(some 2, 3)] ∧
    Paths.Build (resolvingEnv docRefFirst 3 9) docRefFirst emptyPaths (some 1) [0] =
      some docRefFirstReturn ∧
    docRefFirstReturn.err = none ∧
    docRefFirstReturn.p.PathItems.map (fun e => (e.1, e.2.ValueNode)) =
      [(⟨"/p", some 2⟩, some 9)] ∧
    ¬ ∀ e ∈ docRefFirstReturn.p.PathItems, e.2.ValueNode = some 3 := by
  refine ⟨?_, ?_, ?_, ?_, ?_, ?_, ?_⟩ <;> decide

/-- At the same input the stored `ValueReference` has the `ReferenceNode` flag unset and an
empty `Reference`, so `IsReference()` is false and `GetReference()` is the empty string:
`buildPathItem` discards the reference string that `utils.IsNodeRefValue` returns, although
the fields are documented as marking a reference in the original tree. -/
theorem stored_reference_fields_unset :
    docRefFirstReturn.p.PathItems.map
        (fun e => (e.2.ReferenceNode, e.2.IsReference, e.2.GetReference)) =
      [(false, false, "")] := by
  decide

/-- C8 (amended). Every `ValueReference` stored in `PathItems` by a successful `Paths.Build`
belongs to a dispatched key and value site, and its `ValueNode` is the resolved target when
that value site is a reference marker (which then resolves), and the value site itself
otherwise. -/
theorem C8_stored_value_points_at_resolved_target {PI E : Type} (env : BuildEnv PI E)
    (h : Heap) (p : Paths PI E) (root : Addr) (order : List Nat) (r : BuildReturn PI E)
    (hret : Paths.Build env h p (some root) order = some r) (herr : r.err = none) :
    ∀ e ∈ r.p.PathItems,
      ∃ t ∈ dispatched h root, e.1.KeyNode = t.1 ∧
        ((IsNodeRefValue h (some t.2)).1 = true →
          e.2.ValueNode = env.LocateRefNode t.2 ∧ env.LocateRefNode t.2 ≠ none) ∧
        ((IsNodeRefValue h (some t.2)).1 = false → e.2.ValueNode = some t.2) := by
  intro e he
  obtain ⟨t, ht, res, hb, heq⟩ := Build_entries_from_tasks env h p root order r hret herr e he
  obtain ⟨hk, _, _, hnode⟩ := buildPathItem_built env h t.1 t.2 res hb
  subst heq
  refine ⟨t, ht, hk, ?_, ?_⟩
  · intro hm
    rw [hnode, if_pos hm]
    refine ⟨rfl, ?_⟩
    intro hnil
    unfold buildPathItem at hb
    simp only [hm, hnil, if_true] at hb
    cases hc : (h t.2).Content[1]? <;> simp [hc] at hb
  · intro hm
    rw [hnode]
    simp [hm]

theorem C8_stored_value_points_at_resolved_target_witness :
    Paths.Build (resolvingEnv docRefFirst 3 9) docRefFirst emptyPaths (some 1) [0] =
      some docRefFirstReturn ∧
    docRefFirstReturn.err = none ∧
    ∀ e ∈ docRefFirstReturn.p.PathItems,
      ∃ t ∈ dispatched docRefFirst 1, e.1.KeyNode = t.1 ∧
        ((IsNodeRefValue docRefFirst (some t.2)).1 = true →
          e.2.ValueNode = (resolvingEnv docRefFirst 3 9).LocateRefNode t.2 ∧
            (resolvingEnv docRefFirst 3 9).LocateRefNode t.2 ≠ none) ∧
        ((IsNodeRefValue docRefFirst (some t.2)).1 = false → e.2.ValueNode = some t.2) :=
  ⟨by decide, by decide,
    C8_stored_value_points_at_resolved_target (resolvingEnv docRefFirst 3 9) docRefFirst
      emptyPaths 1 [0] docRefFirstReturn (by decide) (by decide)⟩

/-! ### Claims C9 and C10 -/

theorem journeyMatches_of_step (h : Heap) (node : Ptr) :
    ∀ (js : List index.Reference) (j : index.Reference), j ∈ js →
      (j.Node = node ∨
        ((IsNodeRefValue h node).1 = true ∧ j.Definition = (IsNodeRefValue h node).2.2)) →
      journeyMatches h node js = true := by
  intro js
  induction js with
  | nil => intro j hj; cases hj
  | cons x xs ih =>
    intro j hj hit
    unfold journeyMatches
    by_cases h1 : x.Node = node
    · simp [h1]
    · by_cases h2 : (IsNodeRefValue h node).1 = true ∧
          x.Definition = (IsNodeRefValue h node).2.2
      · simp [h1, h2]
      · rcases List.mem_cons.mp hj with hjx | hjxs
        · subst hjx
          rcases hit with hit | hit
          · exact absurd hit h1
          · exact absurd hit h2
        · simp only [h1, h2, if_false]
          exact ih j hjxs hit

theorem circularLoop_of_result (h : Heap) (node : Ptr) :
    ∀ (rs : List index.CircularReferenceResult) (r : index.CircularReferenceResult), r ∈ rs →
      (r.LoopPoint.Node = node ∨ journeyMatches h node r.Journey = true) →
      circularLoop h node rs = true := by
  intro rs
  induction rs with
  | nil => intro r hr; cases hr
  | cons x xs ih =>
    intro r hr hit
    unfold circularLoop
    by_cases h1 : x.LoopPoint.Node = node
    · simp [h1]
    · by_cases h2 : journeyMatches h node x.Journey = true
      · simp [h1, h2]
      · rcases List.mem_cons.mp hr with hrx | hrxs
        · subst hrx
          rcases hit with hit | hit
          · exact absurd hit h1
          · exact absurd hit h2
        · simp only [h1, h2, if_false]
          exact ih r hrxs hit

theorem FindKeyNode_none (h : Heap) (key : String) :
    ∀ content : List Addr,
      (∀ i k, i % 2 = 0 → content[i]? = some k → (h k).Value ≠ key) →
      FindKeyNode h key content = (none, none)
  | [], _ => rfl
  | [_], _ => rfl
  | k :: v :: rest, hyp => by
    have hk : (h k).Value ≠ key := hyp 0 k rfl rfl
    have hrest := FindKeyNode_none h key rest
      (fun i x hi hx => hyp (i + 2) x (by omega) (by simpa using hx))
    simp only [FindKeyNode, hk, if_false]
    exact hrest

/-- C9. For every non-nil index and every node: if the node is the `LoopPoint` node of some
circular result of the index, or the node of some step of a result's `Journey`, or a reference
marker whose reference string equals the `Definition` of some `Journey` step, then
`IsCircular` returns true. -/
theorem C9_isCircular_true_on_recorded_nodes (h : Heap) (node : Ptr) (idx : index.SpecIndex)
    (r : index.CircularReferenceResult) (hr : r ∈ idx.GetCircularReferences)
    (hit : r.LoopPoint.Node = node ∨
      (∃ j ∈ r.Journey, j.Node = node) ∨
      (∃ j ∈ r.Journey, (IsNodeRefValue h node).1 = true ∧
        j.Definition = (IsNodeRefValue h node).2.2)) :
    IsCircular h node (some idx) = some true := by
  have hloop : circularLoop h node idx.GetCircularReferences = true := by
    apply circularLoop_of_result h node _ r hr
    rcases hit with h1 | ⟨j, hj, h2⟩ | ⟨j, hj, h3⟩
    · exact Or.inl h1
    · exact Or.inr (journeyMatches_of_step h node _ j hj (Or.inl h2))
    · exact Or.inr (journeyMatches_of_step h node _ j hj (Or.inr h3))
  simp [IsCircular, hloop]

theorem C9_isCircular_true_on_recorded_nodes_witness :
    (IsNodeRefValue docMarker (some 3)).1 = true ∧
    (IsNodeRefValue docMarker (some 3)).2.2 = "#/b" ∧
    IsCircular docMarker (some 3) (some idxLoop) = some true :=
  ⟨by decide, by decide,
    C9_isCircular_true_on_recorded_nodes docMarker (some 3) idxLoop
      { Journey := [⟨"#/a", some 10, true⟩, ⟨"#/b", some 11, true⟩],
        LoopPoint := ⟨"#/a", some 12, true⟩ }
      (by decide)
      (Or.inr (Or.inr ⟨⟨"#/b", some 11, true⟩, by decide, by decide, by decide⟩))⟩

/-- C10. `IsCircular` returns false and `GetCircularReferenceResult` returns nil whenever
there is nothing to find: when the index is nil, for every node, and when the index reports an
empty list of circular references and the node has no `$ref` key. -/
theorem C10_nothing_to_find (h : Heap) :
    (∀ node : Ptr, IsCircular h node none = some false ∧
      GetCircularReferenceResult h node none = some none) ∧
    (∀ (a : Addr) (idx : index.SpecIndex), idx.GetCircularReferences = [] →
      (∀ i k, i % 2 = 0 → (h a).Content[i]? = some k → (h k).Value ≠ "$ref") →
      IsCircular h (some a) (some idx) = some false ∧
      GetCircularReferenceResult h (some a) (some idx) = some none) := by
  refine ⟨fun node => ⟨rfl, rfl⟩, ?_⟩
  intro a idx hempty hkeys
  have hfind := FindKeyNode_none h "$ref" (h a).Content hkeys
  constructor
  · simp [IsCircular, hempty, circularLoop, hfind]
  · simp [GetCircularReferenceResult, hempty, firstCircularMatch, hfind]

theorem C10_nothing_to_find_witness :
    idxNoLoops.GetCircularReferences = [] ∧
    (IsCircular docOnePath (some 1) (some idxNoLoops) = some false ∧
      GetCircularReferenceResult docOnePath (some 1) (some idxNoLoops) = some none) :=
  ⟨rfl, (C10_nothing_to_find docOnePath).2 1 idxNoLoops rfl (by
    intro i k hi hk
    match i, hi, hk with
    | 0, _, hk =>
      simp [docOnePath, mappingNode] at hk
      subst hk
      decide
    | i + 2, _, hk => simp [docOnePath, mappingNode] at hk)⟩

/-! ### What holds when no value text begins with `x-`

The failures evaluated for C1 to C4 all start from a value node whose text begins with `x-`.
Without such a value the dispatch loop stays aligned with the key/value pairs of the root. -/

theorem dispatchLoop_aligned (h : Heap) :
    ∀ (content : List Addr) (i : Nat) (cur : Ptr), i % 2 = 0 → NoXDashValue h content →
      dispatchLoop h content i false cur =
        ((keyValuePairs content).filter (fun p => !hasXDashStart (h p.1).Value)).map
          (fun p => (some p.1, p.2))
  | [], _, _, _, _ => rfl
  | [k], i, cur, hi, _ => by
    by_cases hk : hasXDashStart (h k).Value = true
    · simp [dispatchLoop, keyValuePairs, hk]
    · simp [dispatchLoop, keyValuePairs, hk, hi]
  | k :: v :: rest, i, cur, hi, hno => by
    have hv : hasXDashStart (h v).Value = false :=
      hno (k, v) (by simp [keyValuePairs])
    have hrest : NoXDashValue h rest := fun p hp =>
      hno p (by simp [keyValuePairs, hp])
    have hi1 : ¬ (i + 1) % 2 = 0 := by omega
    have hi2 : (i + 1 + 1) % 2 = 0 := by omega
    by_cases hk : hasXDashStart (h k).Value = true
    · have ih := dispatchLoop_aligned h rest (i + 1 + 1) cur hi2 hrest
      simp [dispatchLoop, keyValuePairs, hk, hv, ih]
    · have ih := dispatchLoop_aligned h rest (i + 1 + 1) (some k) hi2 hrest
      simp [dispatchLoop, keyValuePairs, hk, hv, hi, hi1, ih]

theorem dispatched_has_key (h : Heap) (root : Addr) (hno : NoXDashValue h (h root).Content)
    (t : Ptr × Addr) (ht : t ∈ dispatched h root) :
    ∃ p ∈ keyValuePairs (h root).Content,
      hasXDashStart (h p.1).Value = false ∧ t = (some p.1, p.2) := by
  unfold dispatched at ht
  rw [dispatchLoop_aligned h _ 0 none rfl hno] at ht
  obtain ⟨p, hp, rfl⟩ := List.mem_map.mp ht
  obtain ⟨hp1, hp2⟩ := List.mem_filter.mp hp
  exact ⟨p, hp1, by simpa using hp2, rfl⟩

theorem refValueIn_some_length (h : Heap) :
    ∀ (content : List Addr) (x : Addr × String), refValueIn h content = some x →
      ∃ c, content[1]? = some c
  | [], _, hx => by simp [refValueIn] at hx
  | [_], _, hx => by simp [refValueIn] at hx
  | _ :: v :: _, _, _ => ⟨v, by simp⟩

theorem buildPathItem_with_key_not_panicked {PI E : Type} (env : BuildEnv PI E) (h : Heap)
    (c n : Addr) : buildPathItem env h (some c) n ≠ .panicked := by
  unfold buildPathItem
  by_cases hm : (IsNodeRefValue h (some n)).1 = true
  · cases hl : env.LocateRefNode n with
    | none =>
      have hc : ∃ c, (h n).Content[1]? = some c := by
        unfold IsNodeRefValue at hm
        cases hr : refValueIn h (h n).Content with
        | none => simp [hr] at hm
        | some x => exact refValueIn_some_length h _ x hr
      obtain ⟨c2, hc2⟩ := hc
      simp [hm, hc2]
    | some r =>
      simp only [hm, if_true]
      cases hp : env.PathItemBuild (env.BuildModel r).1 r <;> simp [hp]
  · simp only [hm]
    cases hp : env.PathItemBuild (env.BuildModel n).1 n <;> simp [hp]

theorem buildPathItem_built_key {PI E : Type} (env : BuildEnv PI E) (h : Heap) (c n : Addr)
    (res : pathBuildResult PI) (hb : buildPathItem env h (some c) n = .built res) :
    res.k = { Value := (h c).Value, KeyNode := some c } := by
  unfold buildPathItem at hb
  by_cases hm : (IsNodeRefValue h (some n)).1 = true
  · cases hl : env.LocateRefNode n with
    | none =>
      simp only [hm, hl, if_true] at hb
      cases hc : (h n).Content[1]? <;> simp [hc] at hb
    | some r =>
      simp only [hm, hl, if_true] at hb
      cases hp : env.PathItemBuild (env.BuildModel r).1 r with
      | error e2 => simp [hp] at hb
      | ok path =>
        simp [hp] at hb
        subst hb
        rfl
  · simp only [hm] at hb
    cases hp : env.PathItemBuild (env.BuildModel n).1 n with
    | error e2 => simp [hp] at hb
    | ok path =>
      simp [hp] at hb
      subst hb
      rfl

/-- When no value text begins with `x-`, every entry of `PathItems` after a successful
`Paths.Build` pairs a key of the root with the item built from the value that follows that
key (or from the node that value resolves to). -/
theorem Build_pairs_key_with_own_value {PI E : Type} (env : BuildEnv PI E) (h : Heap)
    (p : Paths PI E) (root : Addr) (order : List Nat) (r : BuildReturn PI E)
    (hno : NoXDashValue h (h root).Content)
    (hret : Paths.Build env h p (some root) order = some r) (herr : r.err = none) :
    ∀ e ∈ r.p.PathItems, ∃ kv ∈ keyValuePairs (h root).Content,
      e.1 = { Value := (h kv.1).Value, KeyNode := some kv.1 } ∧
      e.2.ValueNode =
        (if (IsNodeRefValue h (some kv.2)).1 = true then env.LocateRefNode kv.2
         else some kv.2) := by
  intro e he
  obtain ⟨t, ht, res, hb, heq⟩ := Build_entries_from_tasks env h p root order r hret herr e he
  obtain ⟨kv, hkv, _, rfl⟩ := dispatched_has_key h root hno t ht
  obtain ⟨_, _, _, hnode⟩ := buildPathItem_built env h _ _ res hb
  have hkey := buildPathItem_built_key env h _ _ res hb
  subst heq
  exact ⟨kv, hkv, hkey, hnode⟩

theorem filterMap_getElem?_range {α : Type} :
    ∀ l : List α, (List.range l.length).filterMap (fun i => l[i]?) = l
  | [] => rfl
  | a :: t => by
    have ih := filterMap_getElem?_range t
    rw [List.length_cons, List.range_succ_eq_map, List.filterMap_cons]
    simp only [List.getElem?_cons_zero, List.filterMap_map]
    congr 1
    have hfun : ((fun i => (a :: t)[i]?) ∘ Nat.succ) = (fun i => t[i]?) := by
      funext i
      simp
    rw [hfun]
    exact ih

theorem arrivals_perm {PI : Type} (outcomes : List (TaskOutcome PI)) (order : List Nat)
    (hord : IsArrivalOrder outcomes.length order) : (arrivals outcomes order).Perm outcomes := by
  unfold arrivals
  have hp := List.Perm.filterMap (fun i => outcomes[i]?) hord
  rw [filterMap_getElem?_range] at hp
  exact hp

theorem aggregate_returns {PI : Type} (n : Nat) (arr : List (TaskOutcome PI)) :
    ∀ (c : Nat) (m : GoMap (KeyReference String) (ValueReference PI)),
      c + arr.length = n → (∀ o ∈ arr, o ≠ .panicked) →
      (∃ m', aggregate n c m arr = some (.ok m') ∧ ∀ o ∈ arr, ∃ res, o = .built res) ∨
      (∃ err pre post, aggregate n c m arr = some (.error err) ∧
        arr = pre ++ .failed err :: post ∧ ∀ o ∈ pre, ∃ res, o = .built res) := by
  induction arr with
  | nil =>
    intro c m hlen _
    have hc : ¬ c < n := by simp at hlen; omega
    exact Or.inl ⟨m, by simp [aggregate, hc], by simp⟩
  | cons o rest ih =>
    intro c m hlen hnp
    have hc : c < n := by simp at hlen; omega
    cases o with
    | built res =>
      have hlen2 : c + 1 + rest.length = n := by simp at hlen; omega
      rcases ih (c + 1) (m.assign res.k res.v) hlen2
          (fun o ho => hnp o (List.mem_cons_of_mem _ ho)) with
        ⟨m', hagg, hall⟩ | ⟨err, pre, post, hagg, hsplit, hpre⟩
      · refine Or.inl ⟨m', by simp [aggregate, hc, hagg], ?_⟩
        intro o ho
        rcases List.mem_cons.mp ho with h1 | h1
        · exact ⟨res, h1⟩
        · exact hall o h1
      · refine Or.inr ⟨err, .built res :: pre, post, by simp [aggregate, hc, hagg], ?_, ?_⟩
        · simp [hsplit]
        · intro o ho
          rcases List.mem_cons.mp ho with h1 | h1
          · exact ⟨res, h1⟩
          · exact hpre o h1
    | failed err =>
      exact Or.inr ⟨err, [], rest, by simp [aggregate, hc], rfl, by simp⟩
    | panicked => exact absurd rfl (hnp .panicked (List.mem_cons_self _ _))

/-- When no value text begins with `x-`, `Paths.Build` returns for every arrival order: with a
nil error exactly when every dispatched sibling build succeeds, and otherwise with the error
of the first failing sibling received by the aggregation loop. -/
theorem Build_returns_first_error {PI E : Type} (env : BuildEnv PI E) (h : Heap)
    (p : Paths PI E) (root : Addr) (order : List Nat)
    (hno : NoXDashValue h (h root).Content)
    (hord : IsArrivalOrder (dispatched h root).length order) :
    ∃ r, Paths.Build env h p (some root) order = some r ∧
      (r.err = none ↔ ∀ o ∈ taskOutcomes env h root, ∃ res, o = .built res) ∧
      (∀ err, r.err = some err → ∃ pre post,
        arrivals (taskOutcomes env h root) order = pre ++ .failed err :: post ∧
        ∀ o ∈ pre, ∃ res, o = .built res) := by
  have hlen : (taskOutcomes env h root).length = (dispatched h root).length := by
    simp [taskOutcomes]
  have hperm := arrivals_perm (taskOutcomes env h root) order (by rw [hlen]; exact hord)
  have hnp : ∀ o ∈ arrivals (taskOutcomes env h root) order, o ≠ .panicked := by
    intro o ho
    have ho2 := hperm.mem_iff.mp ho
    unfold taskOutcomes at ho2
    obtain ⟨t, ht, rfl⟩ := List.mem_map.mp ho2
    obtain ⟨kv, _, _, rfl⟩ := dispatched_has_key h root hno t ht
    exact buildPathItem_with_key_not_panicked env h kv.1 kv.2
  have hl : 0 + (arrivals (taskOutcomes env h root) order).length =
      (taskOutcomes env h root).length := by
    rw [hperm.length_eq]; omega
  rcases aggregate_returns _ _ 0 [] hl hnp with
    ⟨m', hagg, hall⟩ | ⟨err, pre, post, hagg, hsplit, hpre⟩
  · refine ⟨{ p := { PathItems := m', Extensions := env.ExtractExtensions (some root) },
              err := none }, by simp [Paths.Build, hagg], ?_, ?_⟩
    · simp only [true_iff]
      intro o ho
      exact hall o (hperm.mem_iff.mpr ho)
    · intro err herr
      cases herr
  · refine ⟨{ p := { p with Extensions := env.ExtractExtensions (some root) },
              err := some err }, by simp [Paths.Build, hagg], ?_, ?_⟩
    · constructor
      · intro hcontra
        cases hcontra
      · intro hall
        have hmem : TaskOutcome.failed err ∈ arrivals (taskOutcomes env h root) order := by
          rw [hsplit]; simp
        obtain ⟨res, hres⟩ := hall _ (hperm.mem_iff.mp hmem)
        cases hres
    · intro err2 herr2
      cases herr2
      exact ⟨pre, post, hsplit, hpre⟩

/-! ### Aggregation when the dispatched keys are distinct -/

theorem find?_filter_other_key {K V : Type} [DecidableEq K] (k k2 : K) (hk : ¬ k = k2) :
    ∀ m : List (K × V),
      (m.filter (fun e => decide (e.1 ≠ k))).find? (fun e => decide (e.1 = k2)) =
        m.find? (fun e => decide (e.1 = k2))
  | [] => rfl
  | e :: m => by
    have ih := find?_filter_other_key k k2 hk m
    rw [List.filter_cons]
    by_cases he : e.1 = k
    · have h1 : decide (e.1 ≠ k) = false := by simp [he]
      have h2 : decide (e.1 = k2) = false := by simp [he, hk]
      rw [h1]
      simp only [Bool.false_eq_true, if_false]
      rw [ih, List.find?_cons, h2]
    · have h1 : decide (e.1 ≠ k) = true := by simp [he]
      rw [h1]
      simp only [if_true]
      rw [List.find?_cons, List.find?_cons, ih]

theorem GoMap.get_assign {K V : Type} [DecidableEq K] (m : GoMap K V) (k k2 : K) (v : V) :
    (m.assign k v).get k2 = if k2 = k then some v else m.get k2 := by
  unfold GoMap.assign GoMap.get
  by_cases hk : k2 = k
  · subst hk
    simp
  · have hk2 : ¬ k = k2 := fun hkk => hk hkk.symm
    have h1 : decide ((k, v).1 = k2) = false := by simp [hk2]
    rw [List.find?_cons, h1]
    simp only [hk, if_false]
    rw [find?_filter_other_key k k2 hk2 m]

theorem GoMap.length_assign {K V : Type} [DecidableEq K] (m : GoMap K V) (k : K) (v : V)
    (hk : ∀ e ∈ m, e.1 ≠ k) : (m.assign k v).length = m.length + 1 := by
  unfold GoMap.assign
  have hfil : m.filter (fun e => decide (e.1 ≠ k)) = m := by
    apply List.filter_eq_self.mpr
    intro e he
    exact decide_eq_true (hk e he)
  rw [List.length_cons, hfil]

theorem mem_builtKeys {PI : Type} (outcomes : List (TaskOutcome PI)) (key : KeyReference String) :
    key ∈ builtKeys outcomes ↔ ∃ res, TaskOutcome.built res ∈ outcomes ∧ res.k = key := by
  unfold builtKeys
  rw [List.mem_filterMap]
  constructor
  · rintro ⟨o, ho, hk⟩
    cases o with
    | built res => exact ⟨res, ho, by simpa using hk⟩
    | failed err => simp at hk
    | panicked => simp at hk
  · rintro ⟨res, ho, hk⟩
    exact ⟨.built res, ho, by simp [hk]⟩

theorem aggregate_get {PI : Type} (n : Nat) (arr : List (TaskOutcome PI)) :
    ∀ (c : Nat) (m m' : GoMap (KeyReference String) (ValueReference PI)),
      aggregate n c m arr = some (.ok m') → c + arr.length = n → (builtKeys arr).Nodup →
      (∀ key, key ∉ builtKeys arr → m'.get key = m.get key) ∧
      (∀ res, TaskOutcome.built res ∈ arr → m'.get res.k = some res.v) := by
  induction arr with
  | nil =>
    intro c m m' hagg hlen _
    have hc : ¬ c < n := by simp at hlen; omega
    simp [aggregate, hc] at hagg
    subst hagg
    exact ⟨fun _ _ => rfl, fun res hres => by cases hres⟩
  | cons o rest ih =>
    intro c m m' hagg hlen hnd
    have hc : c < n := by simp at hlen; omega
    cases o with
    | failed err => simp [aggregate, hc] at hagg
    | panicked => simp [aggregate, hc] at hagg
    | built res =>
      simp only [aggregate, hc, if_true] at hagg
      have hkeys : builtKeys (.built res :: rest) = res.k :: builtKeys rest := by
        simp [builtKeys]
      rw [hkeys] at hnd
      have hnotin : res.k ∉ builtKeys rest := (List.nodup_cons.mp hnd).1
      have hlen2 : c + 1 + rest.length = n := by simp at hlen; omega
      obtain ⟨ih1, ih2⟩ := ih (c + 1) _ m' hagg hlen2 (List.nodup_cons.mp hnd).2
      constructor
      · intro key hkey
        rw [hkeys] at hkey
        have hne : key ≠ res.k := fun hkk => hkey (by rw [hkk]; exact List.mem_cons_self _ _)
        have hrest : key ∉ builtKeys rest := fun hin => hkey (List.mem_cons_of_mem _ hin)
        rw [ih1 key hrest, GoMap.get_assign]
        simp [hne]
      · intro res2 hres2
        rcases List.mem_cons.mp hres2 with h1 | h1
        · cases h1
          rw [ih1 _ hnotin, GoMap.get_assign]
          simp
        · exact ih2 res2 h1

theorem aggregate_length {PI : Type} (n : Nat) (arr : List (TaskOutcome PI)) :
    ∀ (c : Nat) (m m' : GoMap (KeyReference String) (ValueReference PI)),
      aggregate n c m arr = some (.ok m') → c + arr.length = n → (builtKeys arr).Nodup →
      (∀ e ∈ m, e.1 ∉ builtKeys arr) →
      m'.length = m.length + arr.length := by
  induction arr with
  | nil =>
    intro c m m' hagg hlen _ _
    have hc : ¬ c < n := by simp at hlen; omega
    simp [aggregate, hc] at hagg
    subst hagg
    rfl
  | cons o rest ih =>
    intro c m m' hagg hlen hnd hdisj
    have hc : c < n := by simp at hlen; omega
    cases o with
    | failed err => simp [aggregate, hc] at hagg
    | panicked => simp [aggregate, hc] at hagg
    | built res =>
      simp only [aggregate, hc, if_true] at hagg
      have hkeys : builtKeys (.built res :: rest) = res.k :: builtKeys rest := by
        simp [builtKeys]
      rw [hkeys] at hnd hdisj
      have hnotin : res.k ∉ builtKeys rest := (List.nodup_cons.mp hnd).1
      have hlen2 : c + 1 + rest.length = n := by simp at hlen; omega
      have hfresh : ∀ e ∈ m, e.1 ≠ res.k := fun e he hek =>
        hdisj e he (by rw [hek]; exact List.mem_cons_self _ _)
      have hdisj2 : ∀ e ∈ m.assign res.k res.v, e.1 ∉ builtKeys rest := by
        intro e he hin
        rcases GoMap.mem_assign _ _ _ _ he with h1 | h1
        · rw [h1] at hin
          exact hnotin hin
        · exact hdisj e h1 (List.mem_cons_of_mem _ hin)
      rw [ih (c + 1) _ m' hagg hlen2 (List.nodup_cons.mp hnd).2 hdisj2,
        GoMap.length_assign m res.k res.v hfresh]
      simp
      omega

theorem builtKeys_nodup_of_keys {PI E : Type} (env : BuildEnv PI E) (h : Heap) :
    ∀ l : List (Addr × Addr), (l.map (fun p => p.1)).Nodup →
      (builtKeys (l.map (fun p => buildPathItem env h (some p.1) p.2))).Nodup ∧
      ∀ key ∈ builtKeys (l.map (fun p => buildPathItem env h (some p.1) p.2)),
        ∃ q ∈ l, key.KeyNode = some q.1
  | [], _ => by simp [builtKeys]
  | p :: l, hnd => by
    rw [List.map_cons, List.nodup_cons] at hnd
    obtain ⟨ih1, ih2⟩ := builtKeys_nodup_of_keys env h l hnd.2
    cases hb : buildPathItem env h (some p.1) p.2 with
    | built res =>
      have hkeys : builtKeys (List.map (fun p => buildPathItem env h (some p.1) p.2) (p :: l)) =
          res.k :: builtKeys (l.map (fun p => buildPathItem env h (some p.1) p.2)) := by
        simp [builtKeys, hb]
      have hk := buildPathItem_built_key env h p.1 p.2 res hb
      rw [hkeys]
      constructor
      · refine List.nodup_cons.mpr ⟨?_, ih1⟩
        intro hin
        obtain ⟨q, hq, hqk⟩ := ih2 _ hin
        rw [hk] at hqk
        simp only [Option.some.injEq] at hqk
        exact hnd.1 (List.mem_map.mpr ⟨q, hq, hqk.symm⟩)
      · intro key hkey
        rcases List.mem_cons.mp hkey with h1 | h1
        · exact ⟨p, List.mem_cons_self _ _, by rw [h1, hk]⟩
        · obtain ⟨q, hq, hqk⟩ := ih2 key h1
          exact ⟨q, List.mem_cons_of_mem _ hq, hqk⟩
    | failed err =>
      have hkeys : builtKeys (List.map (fun p => buildPathItem env h (some p.1) p.2) (p :: l)) =
          builtKeys (l.map (fun p => buildPathItem env h (some p.1) p.2)) := by
        simp [builtKeys, hb]
      rw [hkeys]
      exact ⟨ih1, fun key hkey =>
        let ⟨q, hq, hqk⟩ := ih2 key hkey
        ⟨q, List.mem_cons_of_mem _ hq, hqk⟩⟩
    | panicked =>
      have hkeys : builtKeys (List.map (fun p => buildPathItem env h (some p.1) p.2) (p :: l)) =
          builtKeys (l.map (fun p => buildPathItem env h (some p.1) p.2)) := by
        simp [builtKeys, hb]
      rw [hkeys]
      exact ⟨ih1, fun key hkey =>
        let ⟨q, hq, hqk⟩ := ih2 key hkey
        ⟨q, List.mem_cons_of_mem _ hq, hqk⟩⟩

theorem taskOutcomes_aligned {PI E : Type} (env : BuildEnv PI E) (h : Heap) (root : Addr)
    (hno : NoXDashValue h (h root).Content) :
    taskOutcomes env h root =
      ((keyValuePairs (h root).Content).filter (fun p => !hasXDashStart (h p.1).Value)).map
        (fun p => buildPathItem env h (some p.1) p.2) := by
  unfold taskOutcomes dispatched
  rw [dispatchLoop_aligned h _ 0 none rfl hno, List.map_map]
  rfl

theorem builtKeys_taskOutcomes_nodup {PI E : Type} (env : BuildEnv PI E) (h : Heap)
    (root : Addr) (hno : NoXDashValue h (h root).Content)
    (hdist : ((keyValuePairs (h root).Content).map (fun p => p.1)).Nodup) :
    (builtKeys (taskOutcomes env h root)).Nodup := by
  rw [taskOutcomes_aligned env h root hno]
  apply (builtKeys_nodup_of_keys env h _ _).1
  exact List.Nodup.sublist (List.Sublist.map _ (List.filter_sublist _)) hdist

theorem Build_ok_aggregate {PI E : Type} (env : BuildEnv PI E) (h : Heap) (p : Paths PI E)
    (root : Addr) (order : List Nat) (r : BuildReturn PI E)
    (hret : Paths.Build env h p (some root) order = some r) (herr : r.err = none) :
    aggregate (taskOutcomes env h root).length 0 []
      (arrivals (taskOutcomes env h root) order) = some (.ok r.p.PathItems) := by
  unfold Paths.Build at hret
  simp only at hret
  split at hret
  · cases hret
  · cases hret
    cases herr
  · rename_i m hagg
    cases hret
    exact hagg

/-- When no value text begins with `x-` and the key nodes of the root are distinct nodes, the
map a successful `Paths.Build` produces does not depend on the arrival order: any other
arrival order succeeds as well and yields the same value under every key. -/
theorem Build_order_independent {PI E : Type} (env : BuildEnv PI E) (h : Heap)
    (p : Paths PI E) (root : Addr) (order1 order2 : List Nat) (r1 : BuildReturn PI E)
    (hno : NoXDashValue h (h root).Content)
    (hdist : ((keyValuePairs (h root).Content).map (fun p => p.1)).Nodup)
    (hord1 : IsArrivalOrder (dispatched h root).length order1)
    (hord2 : IsArrivalOrder (dispatched h root).length order2)
    (hret1 : Paths.Build env h p (some root) order1 = some r1) (herr1 : r1.err = none) :
    ∃ r2, Paths.Build env h p (some root) order2 = some r2 ∧ r2.err = none ∧
      ∀ key, r1.p.PathItems.get key = r2.p.PathItems.get key := by
  have hlen : (taskOutcomes env h root).length = (dispatched h root).length := by
    simp [taskOutcomes]
  obtain ⟨r1', hr1', hiff1, _⟩ := Build_returns_first_error env h p root order1 hno hord1
  rw [hret1] at hr1'
  cases hr1'
  have hall := hiff1.mp herr1
  obtain ⟨r2, hret2, hiff2, _⟩ := Build_returns_first_error env h p root order2 hno hord2
  have herr2 : r2.err = none := hiff2.mpr hall
  refine ⟨r2, hret2, herr2, ?_⟩
  have hperm1 := arrivals_perm (taskOutcomes env h root) order1 (by rw [hlen]; exact hord1)
  have hperm2 := arrivals_perm (taskOutcomes env h root) order2 (by rw [hlen]; exact hord2)
  have hnd := builtKeys_taskOutcomes_nodup env h root hno hdist
  have hk1 : (builtKeys (arrivals (taskOutcomes env h root) order1)).Perm
      (builtKeys (taskOutcomes env h root)) := List.Perm.filterMap _ hperm1
  have hk2 : (builtKeys (arrivals (taskOutcomes env h root) order2)).Perm
      (builtKeys (taskOutcomes env h root)) := List.Perm.filterMap _ hperm2
  obtain ⟨ha1, hb1⟩ := aggregate_get _ _ 0 [] _
    (Build_ok_aggregate env h p root order1 r1 hret1 herr1)
    (by rw [hperm1.length_eq]; omega) (hk1.nodup_iff.mpr hnd)
  obtain ⟨ha2, hb2⟩ := aggregate_get _ _ 0 [] _
    (Build_ok_aggregate env h p root order2 r2 hret2 herr2)
    (by rw [hperm2.length_eq]; omega) (hk2.nodup_iff.mpr hnd)
  intro key
  by_cases hin : key ∈ builtKeys (taskOutcomes env h root)
  · obtain ⟨res, hres, hkey⟩ := (mem_builtKeys _ _).mp hin
    rw [← hkey, hb1 res (hperm1.mem_iff.mpr hres), hb2 res (hperm2.mem_iff.mpr hres)]
  · rw [ha1 key (fun hc => hin (hk1.mem_iff.mp hc)),
      ha2 key (fun hc => hin (hk2.mem_iff.mp hc))]

/-- When no value text begins with `x-` and the key nodes of the root are distinct nodes, a
successful `Paths.Build` stores one entry per dispatched task, that is one entry per
key/value pair whose key does not begin with `x-`. -/
theorem Build_entry_count {PI E : Type} (env : BuildEnv PI E) (h : Heap)
    (p : Paths PI E) (root : Addr) (order : List Nat) (r : BuildReturn PI E)
    (hno : NoXDashValue h (h root).Content)
    (hdist : ((keyValuePairs (h root).Content).map (fun p => p.1)).Nodup)
    (hord : IsArrivalOrder (dispatched h root).length order)
    (hret : Paths.Build env h p (some root) order = some r) (herr : r.err = none) :
    r.p.PathItems.length =
      ((keyValuePairs (h root).Content).filter
        (fun p => !hasXDashStart (h p.1).Value)).length := by
  have hlen : (taskOutcomes env h root).length = (dispatched h root).length := by
    simp [taskOutcomes]
  have hperm := arrivals_perm (taskOutcomes env h root) order (by rw [hlen]; exact hord)
  have hnd := builtKeys_taskOutcomes_nodup env h root hno hdist
  have hk : (builtKeys (arrivals (taskOutcomes env h root) order)).Perm
      (builtKeys (taskOutcomes env h root)) := List.Perm.filterMap _ hperm
  have hl := aggregate_length _ _ 0 [] _
    (Build_ok_aggregate env h p root order r hret herr)
    (by rw [hperm.length_eq]; omega) (hk.nodup_iff.mpr hnd) (by simp)
  rw [hl, hperm.length_eq, taskOutcomes_aligned env h root hno]
  simp

/-! ### Claims C11 and C12 -/

theorem journeyMatches_true_iff (h : Heap) (node : Ptr) :
    ∀ js : List index.Reference, journeyMatches h node js = true ↔
      ∃ j ∈ js, j.Node = node ∨
        ((IsNodeRefValue h node).1 = true ∧ j.Definition = (IsNodeRefValue h node).2.2) := by
  intro js
  constructor
  · induction js with
    | nil => intro hm; simp [journeyMatches] at hm
    | cons x xs ih =>
      intro hm
      unfold journeyMatches at hm
      by_cases h1 : x.Node = node
      · exact ⟨x, List.mem_cons_self _ _, Or.inl h1⟩
      · by_cases h2 : (IsNodeRefValue h node).1 = true ∧
            x.Definition = (IsNodeRefValue h node).2.2
        · exact ⟨x, List.mem_cons_self _ _, Or.inr h2⟩
        · simp only [h1, h2, if_false] at hm
          obtain ⟨j, hj, hit⟩ := ih hm
          exact ⟨j, List.mem_cons_of_mem _ hj, hit⟩
  · rintro ⟨j, hj, hit⟩
    exact journeyMatches_of_step h node js j hj hit

theorem located_iff (h : Heap) (node : Ptr) (r : index.CircularReferenceResult) :
    LocatedIn h node r ↔ (r.LoopPoint.Node = node ∨ journeyMatches h node r.Journey = true) := by
  unfold LocatedIn
  rw [journeyMatches_true_iff]
  constructor
  · rintro (h1 | ⟨j, hj, h2⟩ | ⟨j, hj, h3⟩)
    · exact Or.inl h1
    · exact Or.inr ⟨j, hj, Or.inl h2⟩
    · exact Or.inr ⟨j, hj, Or.inr h3⟩
  · rintro (h1 | ⟨j, hj, h2 | h3⟩)
    · exact Or.inl h1
    · exact Or.inr (Or.inl ⟨j, hj, h2⟩)
    · exact Or.inr (Or.inr ⟨j, hj, h3⟩)

theorem firstCircularMatch_some (h : Heap) (node : Ptr) :
    ∀ (rs : List index.CircularReferenceResult) (r : index.CircularReferenceResult),
      firstCircularMatch h node rs = some r → r ∈ rs ∧ LocatedIn h node r := by
  intro rs
  induction rs with
  | nil => intro r hr; simp [firstCircularMatch] at hr
  | cons x xs ih =>
    intro r hr
    unfold firstCircularMatch at hr
    by_cases h1 : x.LoopPoint.Node = node
    · simp only [h1, if_true, Option.some.injEq] at hr
      subst hr
      exact ⟨List.mem_cons_self _ _, (located_iff h node x).mpr (Or.inl h1)⟩
    · by_cases h2 : journeyMatches h node x.Journey = true
      · simp only [h1, h2, if_true, if_false, Option.some.injEq] at hr
        subst hr
        exact ⟨List.mem_cons_self _ _, (located_iff h node x).mpr (Or.inr h2)⟩
      · simp only [h1, h2, if_false] at hr
        obtain ⟨hmem, hloc⟩ := ih r hr
        exact ⟨List.mem_cons_of_mem _ hmem, hloc⟩

theorem firstCircularMatch_isSome (h : Heap) (node : Ptr) :
    ∀ rs : List index.CircularReferenceResult,
      (firstCircularMatch h node rs).isSome = circularLoop h node rs := by
  intro rs
  induction rs with
  | nil => rfl
  | cons x xs ih =>
    unfold firstCircularMatch circularLoop
    by_cases h1 : x.LoopPoint.Node = node
    · simp [h1]
    · by_cases h2 : journeyMatches h node x.Journey = true
      · simp [h1, h2]
      · simp only [h1, h2, if_false]
        exact ih

theorem circularLoop_true_iff (h : Heap) (node : Ptr)
    (rs : List index.CircularReferenceResult) :
    circularLoop h node rs = true ↔ ∃ r ∈ rs, LocatedIn h node r := by
  constructor
  · intro hl
    rw [← firstCircularMatch_isSome] at hl
    obtain ⟨r, hr⟩ := Option.isSome_iff_exists.mp hl
    exact ⟨r, firstCircularMatch_some h node rs r hr⟩
  · rintro ⟨r, hr, hloc⟩
    exact circularLoop_of_result h node rs r hr ((located_iff h node r).mp hloc)

theorem firstLoopPointDefinition_some (s : String) :
    ∀ (rs : List index.CircularReferenceResult) (r : index.CircularReferenceResult),
      firstLoopPointDefinition s rs = some r → r ∈ rs ∧ r.LoopPoint.Definition = s := by
  intro rs
  induction rs with
  | nil => intro r hr; simp [firstLoopPointDefinition] at hr
  | cons x xs ih =>
    intro r hr
    unfold firstLoopPointDefinition at hr
    by_cases h1 : x.LoopPoint.Definition = s
    · simp only [h1, if_true, Option.some.injEq] at hr
      subst hr
      exact ⟨List.mem_cons_self _ _, h1⟩
    · simp only [h1, if_false] at hr
      obtain ⟨hmem, hdef⟩ := ih r hr
      exact ⟨List.mem_cons_of_mem _ hmem, hdef⟩

theorem FindKeyNode_ref_is_marker (h : Heap) :
    ∀ (content : List Addr) (nv : Addr), (FindKeyNode h "$ref" content).2 = some nv →
      ∃ k, refValueIn h content = some (k, (h nv).Value)
  | [], nv, hf => by simp [FindKeyNode] at hf
  | [_], nv, hf => by simp [FindKeyNode] at hf
  | k :: v :: rest, nv, hf => by
    unfold FindKeyNode at hf
    unfold refValueIn
    by_cases hk : (h k).Value = "$ref"
    · simp only [hk, if_true, Option.some.injEq] at hf
      subst hf
      exact ⟨k, by simp [hk]⟩
    · simp only [hk, if_false] at hf
      obtain ⟨k2, hk2⟩ := FindKeyNode_ref_is_marker h rest nv hf
      exact ⟨k2, by simp [hk, hk2]⟩

theorem firstLoopPointDefinition_ne_none_iff (s : String) :
    ∀ rs : List index.CircularReferenceResult,
      firstLoopPointDefinition s rs ≠ none ↔ ∃ r ∈ rs, r.LoopPoint.Definition = s := by
  intro rs
  induction rs with
  | nil => simp [firstLoopPointDefinition]
  | cons x xs ih =>
    unfold firstLoopPointDefinition
    by_cases h1 : x.LoopPoint.Definition = s
    · simp [h1]
    · simp only [h1, if_false, ih, List.mem_cons]
      constructor
      · rintro ⟨r, hr, hd⟩
        exact ⟨r, Or.inr hr, hd⟩
      · rintro ⟨r, hr | hr, hd⟩
        · subst hr
          exact absurd hd h1
        · exact ⟨r, hr, hd⟩

/-- Without the invariants of a recorded index the two queries can differ on the marker
`{$ref: '#/b'}`: with a result whose journey is empty and whose loop point definition is
`#/b`, `IsCircular` is false while `GetCircularReferenceResult` returns that result; with no
result at all but every reference flagged circular, `IsCircular` is true while
`GetCircularReferenceResult` returns nil. Neither index is `Consistent`. -/
theorem queries_differ_on_inconsistent_index :
    IsCircular docMarker (some 3) (some idxLoopPointOnly) = some false ∧
    GetCircularReferenceResult docMarker (some 3) (some idxLoopPointOnly) =
      some (some { Journey := [], LoopPoint := ⟨"#/b", some 12, true⟩ }) ∧
    IsCircular docMarker (some 3) (some idxNoLoops) = some true ∧
    GetCircularReferenceResult docMarker (some 3) (some idxNoLoops) = some none ∧
    ¬ idxLoopPointOnly.Consistent ∧ ¬ idxNoLoops.Consistent := by
  refine ⟨by decide, by decide, by decide, by decide, ?_, ?_⟩
  · rintro ⟨h1, _⟩
    obtain ⟨j, hj, _⟩ := h1 _ (List.mem_cons_self _ _)
    cases hj
  · rintro ⟨_, h2⟩
    obtain ⟨r, hr, _⟩ := h2 "#/b" ⟨"#/b", none, true⟩ rfl rfl
    cases hr

/-- The two queries case by case. They agree for a nil index (false and nil), for a node that
the main search locates in some circular result of the index (true and non-nil), and for a
node without a `$ref` key that the main search does not locate (false and nil). For a node
with a `$ref` key that the main search does not locate, the two consult different tables:
`IsCircular` is true exactly when the reference string is mapped to a reference flagged
circular, and `GetCircularReferenceResult` is non-nil exactly when some result has that
string as the definition of its loop point. -/
theorem queries_case_by_case (h : Heap) (node : Ptr)
    (idx : Option index.SpecIndex) :
    (idx = none →
      IsCircular h node idx = some false ∧ GetCircularReferenceResult h node idx = some none) ∧
    (∀ i, idx = some i → (∃ r ∈ i.GetCircularReferences, LocatedIn h node r) →
      IsCircular h node idx = some true ∧
      ∃ r, GetCircularReferenceResult h node idx = some (some r)) ∧
    (∀ i a, idx = some i → node = some a →
      (¬ ∃ r ∈ i.GetCircularReferences, LocatedIn h node r) →
      (FindKeyNode h "$ref" (h a).Content).2 = none →
      IsCircular h node idx = some false ∧ GetCircularReferenceResult h node idx = some none) ∧
    (∀ i a nv, idx = some i → node = some a →
      (¬ ∃ r ∈ i.GetCircularReferences, LocatedIn h node r) →
      (FindKeyNode h "$ref" (h a).Content).2 = some nv →
      ∃ b o, IsCircular h node idx = some b ∧ GetCircularReferenceResult h node idx = some o ∧
        (b = true ↔ ∃ ref, i.GetMappedReferences (h nv).Value = some ref ∧ ref.Circular = true) ∧
        (o ≠ none ↔ ∃ r ∈ i.GetCircularReferences, r.LoopPoint.Definition = (h nv).Value)) := by
  refine ⟨?_, ?_, ?_, ?_⟩
  · intro hi
    subst hi
    exact ⟨rfl, rfl⟩
  · intro i hi hloc
    subst hi
    have hloop := (circularLoop_true_iff h node _).mpr hloc
    have hsome : (firstCircularMatch h node i.GetCircularReferences).isSome = true := by
      rw [firstCircularMatch_isSome]; exact hloop
    obtain ⟨r, hr⟩ := Option.isSome_iff_exists.mp hsome
    exact ⟨by simp [IsCircular, hloop], r, by simp [GetCircularReferenceResult, hr]⟩
  · intro i a hi hn hnot hfind
    subst hi
    subst hn
    have hloop : circularLoop h (some a) i.GetCircularReferences = false := by
      cases hc : circularLoop h (some a) i.GetCircularReferences with
      | false => rfl
      | true => exact absurd ((circularLoop_true_iff h _ _).mp hc) hnot
    have hnone : firstCircularMatch h (some a) i.GetCircularReferences = none := by
      have := firstCircularMatch_isSome h (some a) i.GetCircularReferences
      rw [hloop] at this
      cases hm : firstCircularMatch h (some a) i.GetCircularReferences with
      | none => rfl
      | some r => rw [hm] at this; cases this
    exact ⟨by simp [IsCircular, hloop, hfind], by simp [GetCircularReferenceResult, hnone, hfind]⟩
  · intro i a nv hi hn hnot hfind
    subst hi
    subst hn
    have hloop : circularLoop h (some a) i.GetCircularReferences = false := by
      cases hc : circularLoop h (some a) i.GetCircularReferences with
      | false => rfl
      | true => exact absurd ((circularLoop_true_iff h _ _).mp hc) hnot
    have hnone : firstCircularMatch h (some a) i.GetCircularReferences = none := by
      have := firstCircularMatch_isSome h (some a) i.GetCircularReferences
      rw [hloop] at this
      cases hm : firstCircularMatch h (some a) i.GetCircularReferences with
      | none => rfl
      | some r => rw [hm] at this; cases this
    refine ⟨(match i.GetMappedReferences (h nv).Value with
        | some ref => ref.Circular
        | none => false),
      firstLoopPointDefinition (h nv).Value i.GetCircularReferences, ?_, ?_, ?_, ?_⟩
    · simp only [IsCircular, hloop, hfind]
      cases i.GetMappedReferences (h nv).Value <;> simp
    · simp [GetCircularReferenceResult, hnone, hfind]
    · cases i.GetMappedReferences (h nv).Value <;> simp
    · exact firstLoopPointDefinition_ne_none_iff _ _

theorem marker_of_FindKeyNode (h : Heap) (a nv : Addr)
    (hfind : (FindKeyNode h "$ref" (h a).Content).2 = some nv) :
    (IsNodeRefValue h (some a)).1 = true ∧ (IsNodeRefValue h (some a)).2.2 = (h nv).Value := by
  obtain ⟨k, hk⟩ := FindKeyNode_ref_is_marker h (h a).Content nv hfind
  simp [IsNodeRefValue, hk]

theorem IsCircular_returns (h : Heap) (a : Addr) (idx : Option index.SpecIndex) :
    ∃ b, IsCircular h (some a) idx = some b := by
  cases idx with
  | none => exact ⟨false, rfl⟩
  | some i =>
    by_cases hloop : circularLoop h (some a) i.GetCircularReferences = true
    · exact ⟨true, by simp [IsCircular, hloop]⟩
    · cases hfind : (FindKeyNode h "$ref" (h a).Content).2 with
      | none => exact ⟨false, by simp [IsCircular, hloop, hfind]⟩
      | some nv =>
        cases hm : i.GetMappedReferences (h nv).Value with
        | none => exact ⟨false, by simp [IsCircular, hloop, hfind, hm]⟩
        | some ref => exact ⟨ref.Circular, by simp [IsCircular, hloop, hfind, hm]⟩

theorem queries_agree_on_consistent_index (h : Heap) (node : Ptr) (i : index.SpecIndex)
    (hc : i.Consistent) :
    IsCircular h node (some i) =
      (GetCircularReferenceResult h node (some i)).map (fun o => o.isSome) := by
  by_cases hloop : circularLoop h node i.GetCircularReferences = true
  · have hsome : (firstCircularMatch h node i.GetCircularReferences).isSome = true := by
      rw [firstCircularMatch_isSome]; exact hloop
    obtain ⟨r, hr⟩ := Option.isSome_iff_exists.mp hsome
    simp [IsCircular, GetCircularReferenceResult, hloop, hr]
  · have hnone : firstCircularMatch h node i.GetCircularReferences = none := by
      have hiso := firstCircularMatch_isSome h node i.GetCircularReferences
      cases hm : firstCircularMatch h node i.GetCircularReferences with
      | none => rfl
      | some r =>
        rw [hm] at hiso
        exact absurd hiso.symm hloop
    cases node with
    | none => simp [IsCircular, GetCircularReferenceResult, hloop, hnone]
    | some a =>
      cases hfind : (FindKeyNode h "$ref" (h a).Content).2 with
      | none => simp [IsCircular, GetCircularReferenceResult, hloop, hnone, hfind]
      | some nv =>
        obtain ⟨hm1, hm2⟩ := marker_of_FindKeyNode h a nv hfind
        have hstep : ∀ r ∈ i.GetCircularReferences, ∀ j ∈ r.Journey,
            j.Definition ≠ (h nv).Value := by
          intro r hr j hj hd
          exact hloop ((circularLoop_true_iff h (some a) _).mpr
            ⟨r, hr, Or.inr (Or.inr ⟨j, hj, hm1, by rw [hm2]; exact hd⟩)⟩)
        have hflp : firstLoopPointDefinition (h nv).Value i.GetCircularReferences = none := by
          by_contra hne
          obtain ⟨r, hr, hd⟩ := (firstLoopPointDefinition_ne_none_iff _ _).mp hne
          obtain ⟨j, hj, hjd⟩ := hc.1 r hr
          exact hstep r hr j hj (by rw [hjd, hd])
        have hmap : ∀ ref, i.GetMappedReferences (h nv).Value = some ref →
            ref.Circular = false := by
          intro ref href
          cases hcirc : ref.Circular with
          | false => rfl
          | true =>
            obtain ⟨r, hr, j, hj, hjd⟩ := hc.2 _ ref href hcirc
            exact absurd hjd (hstep r hr j hj)
        cases hm : i.GetMappedReferences (h nv).Value with
        | none => simp [IsCircular, GetCircularReferenceResult, hloop, hnone, hfind, hflp, hm]
        | some ref =>
          simp [IsCircular, GetCircularReferenceResult, hloop, hnone, hfind, hflp, hm,
            hmap ref hm]

theorem idxRecorded_consistent : idxRecorded.Consistent := by
  constructor
  · decide
  · intro s ref hs hcirc
    refine ⟨_, List.mem_cons_self _ _, ?_⟩
    simp only [idxRecorded] at hs
    by_cases ha : s = "#/a"
    · exact ⟨⟨"#/a", some 10, true⟩, by decide, ha.symm⟩
    · by_cases hb : s = "#/b"
      · exact ⟨⟨"#/b", some 11, true⟩, by decide, hb.symm⟩
      · by_cases hcc : s = "#/c"
        · rw [if_neg ha, if_neg hb, if_pos hcc] at hs
          cases hs
          cases hcirc
        · rw [if_neg ha, if_neg hb, if_neg hcc] at hs
          cases hs

/-- C11. The two detector queries agree: for every node and every index, nil or recorded by
the detector (the definition of each loop point is the definition of a step of its journey,
and a mapped reference is flagged circular only when a recorded journey has a step of that
definition), the outcome of `IsCircular(node, idx)` is that of testing
`GetCircularReferenceResult(node, idx)` against nil, the nil-pointer panic of a nil node that
no result names included; and for every non-nil node both return, and `IsCircular` is true
exactly when `GetCircularReferenceResult` returns a non-nil result. -/
theorem C11_queries_agree (h : Heap) (node : Ptr) (idx : Option index.SpecIndex)
    (hidx : ∀ i, idx = some i → i.Consistent) :
    IsCircular h node idx =
      (GetCircularReferenceResult h node idx).map (fun o => o.isSome) ∧
    (∀ a, node = some a →
      ∃ b o, IsCircular h node idx = some b ∧ GetCircularReferenceResult h node idx = some o ∧
        (b = true ↔ o ≠ none)) := by
  have hagree : IsCircular h node idx =
      (GetCircularReferenceResult h node idx).map (fun o => o.isSome) := by
    cases idx with
    | none => rfl
    | some i => exact queries_agree_on_consistent_index h node i (hidx i rfl)
  refine ⟨hagree, ?_⟩
  intro a ha
  subst ha
  obtain ⟨b, hb⟩ := IsCircular_returns h a idx
  rw [hb] at hagree
  cases hg : GetCircularReferenceResult h (some a) idx with
  | none => rw [hg] at hagree; cases hagree
  | some o =>
    rw [hg] at hagree
    simp only [Option.map_some', Option.some.injEq] at hagree
    refine ⟨b, o, hb, rfl, ?_⟩
    rw [hagree]
    cases o <;> simp

theorem C11_queries_agree_witness :
    idxRecorded.Consistent ∧
    IsCircular docMarker (some 3) (some idxRecorded) = some true ∧
    ∃ b o, IsCircular docMarker (some 3) (some idxRecorded) = some b ∧
      GetCircularReferenceResult docMarker (some 3) (some idxRecorded) = some o ∧
      (b = true ↔ o ≠ none) :=
  ⟨idxRecorded_consistent, by decide,
    (C11_queries_agree docMarker (some 3) (some idxRecorded)
      (fun i hi => by
        cases hi
        exact idxRecorded_consistent)).2 3 rfl⟩

/-- C12. Whenever `GetCircularReferenceResult` returns a non-nil result `r`, `r` is one of the
index's circular reference results and the node is located in it: the node is `r`'s loop point
node, or the node of one of `r`'s journey steps, or the node is a reference marker whose
`$ref` string equals the definition of one of `r`'s journey steps or of `r`'s loop point. -/
theorem C12_result_contains_node (h : Heap) (node : Ptr) (idx : Option index.SpecIndex)
    (r : index.CircularReferenceResult)
    (hr : GetCircularReferenceResult h node idx = some (some r)) :
    ∃ i, idx = some i ∧ r ∈ i.GetCircularReferences ∧
      (r.LoopPoint.Node = node ∨
        (∃ j ∈ r.Journey, j.Node = node) ∨
        ((IsNodeRefValue h node).1 = true ∧
          ((∃ j ∈ r.Journey, j.Definition = (IsNodeRefValue h node).2.2) ∨
            r.LoopPoint.Definition = (IsNodeRefValue h node).2.2))) := by
  cases idx with
  | none => simp [GetCircularReferenceResult] at hr
  | some i =>
    refine ⟨i, rfl, ?_⟩
    unfold GetCircularReferenceResult at hr
    simp only at hr
    cases hm : firstCircularMatch h node i.GetCircularReferences with
    | some r2 =>
      simp only [hm, Option.some.injEq] at hr
      subst hr
      obtain ⟨hmem, hloc⟩ := firstCircularMatch_some h node _ _ hm
      refine ⟨hmem, ?_⟩
      rcases hloc with h1 | ⟨j, hj, h2⟩ | ⟨j, hj, h3, h4⟩
      · exact Or.inl h1
      · exact Or.inr (Or.inl ⟨j, hj, h2⟩)
      · exact Or.inr (Or.inr ⟨h3, Or.inl ⟨j, hj, h4⟩⟩)
    | none =>
      simp only [hm] at hr
      cases node with
      | none => simp at hr
      | some a =>
        simp only at hr
        cases hf : (FindKeyNode h "$ref" (h a).Content).2 with
        | none => simp [hf] at hr
        | some nv =>
          simp only [hf, Option.some.injEq] at hr
          obtain ⟨hmem, hdef⟩ := firstLoopPointDefinition_some _ _ _ hr
          obtain ⟨k, hk⟩ := FindKeyNode_ref_is_marker h _ nv hf
          have hmark : IsNodeRefValue h (some a) = (true, some k, (h nv).Value) := by
            simp [IsNodeRefValue, hk]
          refine ⟨hmem, Or.inr (Or.inr ⟨by rw [hmark], Or.inr ?_⟩)⟩
          rw [hmark]
          exact hdef

theorem C12_result_contains_node_witness :
    GetCircularReferenceResult docMarker (some 3) (some idxLoopPointOnly) =
      some (some { Journey := [], LoopPoint := ⟨"#/b", some 12, true⟩ }) ∧
    ∃ i, some idxLoopPointOnly = some i ∧
      ({ Journey := [], LoopPoint := ⟨"#/b", some 12, true⟩ } :
        index.CircularReferenceResult) ∈ i.GetCircularReferences ∧
      ((some 12 : Ptr) = some 3 ∨
        (∃ j ∈ ([] : List index.Reference), j.Node = some 3) ∨
        ((IsNodeRefValue docMarker (some 3)).1 = true ∧
          ((∃ j ∈ ([] : List index.Reference),
              j.Definition = (IsNodeRefValue docMarker (some 3)).2.2) ∨
            "#/b" = (IsNodeRefValue docMarker (some 3)).2.2))) :=
  ⟨by decide,
    C12_result_contains_node docMarker (some 3) (some idxLoopPointOnly)
      { Journey := [], LoopPoint := ⟨"#/b", some 12, true⟩ } (by decide)⟩

/-! ### Claims C13 to C16 -/

/-- C13. For every `ValueReference` whose `Reference` string is non-empty, `MarshalYAML`
returns, without error, a created mapping node with exactly two children, the scalar `$ref`
followed by a scalar holding the `Reference` string; the result is the same whatever `Value`
and `ValueNode` hold (a nil `ValueNode` included), whatever the heap holds and whatever
`Decode` would produce, so nothing of the referenced target is rendered. -/
theorem C13_marshal_reference_only {T : Type} (Decode : Heap → Addr → YNode × Option String)
    (h : Heap) (n : ValueReference T) (href : n.Reference ≠ "") :
    ∃ m, ValueReference.MarshalYAML Decode h n = some (.created m, none) ∧
      m.Kind = 4 ∧ m.Content.length = 2 ∧
      m.Content = [CreateStringNode "$ref", CreateStringNode n.Reference] ∧
      (∀ c ∈ m.Content, c.Kind = 8 ∧ c.Content = []) ∧
      (m.Content.map (fun c => c.Value)) = ["$ref", n.Reference] ∧
      (∀ (Decode2 : Heap → Addr → YNode × Option String) (h2 : Heap) (n2 : ValueReference T),
        n2.Reference = n.Reference →
        ValueReference.MarshalYAML Decode2 h2 n2 = some (.created m, none)) := by
  have hr : n.IsReference = true := by simp [ValueReference.IsReference, href]
  refine ⟨{ CreateEmptyMapNode with
      Content := [CreateStringNode "$ref", CreateStringNode n.Reference] }, ?_, rfl, rfl, rfl,
    ?_, rfl, ?_⟩
  · simp [ValueReference.MarshalYAML, hr]
  · intro c hc
    simp only [List.mem_cons, List.mem_singleton, List.not_mem_nil, or_false] at hc
    rcases hc with hc | hc <;> subst hc <;> exact ⟨rfl, rfl⟩
  · intro Decode2 h2 n2 hsame
    have hr2 : n2.IsReference = true := by
      simp [ValueReference.IsReference, hsame, href]
    simp [ValueReference.MarshalYAML, hr2, hsame]

theorem C13_marshal_reference_only_witness :
    ∃ m, ValueReference.MarshalYAML (fun h a => (h a, none)) docRefFirst
        ({ Value := 9, ValueNode := none, ReferenceNode := false,
           Reference := "#/components/pathItems/P" } : ValueReference Addr) =
        some (.created m, none) ∧
      m.Kind = 4 ∧ m.Content.length = 2 ∧
      m.Content = [CreateStringNode "$ref", CreateStringNode "#/components/pathItems/P"] ∧
      (∀ c ∈ m.Content, c.Kind = 8 ∧ c.Content = []) ∧
      (m.Content.map (fun c => c.Value)) = ["$ref", "#/components/pathItems/P"] ∧
      (∀ (Decode2 : Heap → Addr → YNode × Option String) (h2 : Heap)
        (n2 : ValueReference Addr),
        n2.Reference = "#/components/pathItems/P" →
        ValueReference.MarshalYAML Decode2 h2 n2 = some (.created m, none)) :=
  C13_marshal_reference_only (fun h a => (h a, none)) docRefFirst
    { Value := 9, ValueNode := none, ReferenceNode := false,
      Reference := "#/components/pathItems/P" } (by decide)

/-- C14. For every `NodeReference` or `ValueReference` `n` backed by a value node and every
value `v`, `n.Mutate(v)` returns a reference whose `Value` is `v` (so `GetValue` on it returns
`v`) and sets the scalar text of the backing value node to the default textual rendering of
`v`; the node is updated in place, so every node that had it as a child still has it. -/
theorem C14_mutate_sets_value_and_text {T : Type} (render : T → String) (h : Heap) (a : Addr)
    (v : T) :
    (∀ n : NodeReference T, n.ValueNode = some a →
      ∃ h2 n2, NodeReference.Mutate render h n v = some (h2, n2) ∧
        n2.Value = v ∧ n2.GetValue = v ∧ (h2 a).Value = render v ∧
        ∀ parent, a ∈ (h parent).Content → a ∈ (h2 parent).Content) ∧
    (∀ n : ValueReference T, n.ValueNode = some a →
      ∃ h2 n2, ValueReference.Mutate render h n v = some (h2, n2) ∧
        n2.Value = v ∧ n2.GetValue = v ∧ (h2 a).Value = render v ∧
        ∀ parent, a ∈ (h parent).Content → a ∈ (h2 parent).Content) := by
  constructor
  · intro n hn
    refine ⟨Heap.setValue h a (render v), { n with Value := v }, ?_, rfl, rfl, ?_, ?_⟩
    · simp [NodeReference.Mutate, hn]
    · simp [Heap.setValue]
    · intro parent hp
      unfold Heap.setValue
      by_cases hpa : parent = a
      · simp only [hpa, if_true]
        rw [hpa] at hp
        exact hp
      · simp only [hpa, if_false]
        exact hp
  · intro n hn
    refine ⟨Heap.setValue h a (render v), { n with Value := v }, ?_, rfl, rfl, ?_, ?_⟩
    · simp [ValueReference.Mutate, hn]
    · simp [Heap.setValue]
    · intro parent hp
      unfold Heap.setValue
      by_cases hpa : parent = a
      · simp only [hpa, if_true]
        rw [hpa] at hp
        exact hp
      · simp only [hpa, if_false]
        exact hp

theorem C14_mutate_sets_value_and_text_witness :
    ∃ h2 n2, ValueReference.Mutate (fun s : String => s) docExtAndPath
        { Value := "v", ValueNode := some 3, ReferenceNode := false, Reference := "" }
        "w" = some (h2, n2) ∧
      n2.Value = "w" ∧ n2.GetValue = "w" ∧ (h2 3).Value = "w" ∧
      ∀ parent, 3 ∈ (docExtAndPath parent).Content → 3 ∈ (h2 parent).Content :=
  (C14_mutate_sets_value_and_text (fun s : String => s) docExtAndPath 3 "w").2
    { Value := "v", ValueNode := some 3, ReferenceNode := false, Reference := "" } rfl

/-- C15. `Mutate` is position-preserving: it changes only the `Value` of the returned
reference and the scalar text of the backing value node. The value node's line, column, kind
and children, every other node, the key node and value node pointers, the `ReferenceNode`
flag and the `Reference` string are the same after the call as before. -/
theorem C15_mutate_preserves_positions {T : Type} (render : T → String) (h : Heap) (a : Addr)
    (v : T) :
    (∀ n : NodeReference T, n.ValueNode = some a →
      ∃ h2 n2, NodeReference.Mutate render h n v = some (h2, n2) ∧
        (h2 a).Line = (h a).Line ∧ (h2 a).Column = (h a).Column ∧
        (h2 a).Kind = (h a).Kind ∧ (h2 a).Content = (h a).Content ∧
        (∀ b, b ≠ a → h2 b = h b) ∧
        n2.KeyNode = n.KeyNode ∧ n2.ValueNode = n.ValueNode ∧
        n2.ReferenceNode = n.ReferenceNode ∧ n2.Reference = n.Reference) ∧
    (∀ n : ValueReference T, n.ValueNode = some a →
      ∃ h2 n2, ValueReference.Mutate render h n v = some (h2, n2) ∧
        (h2 a).Line = (h a).Line ∧ (h2 a).Column = (h a).Column ∧
        (h2 a).Kind = (h a).Kind ∧ (h2 a).Content = (h a).Content ∧
        (∀ b, b ≠ a → h2 b = h b) ∧
        n2.ValueNode = n.ValueNode ∧
        n2.ReferenceNode = n.ReferenceNode ∧ n2.Reference = n.Reference) := by
  constructor
  · intro n hn
    refine ⟨Heap.setValue h a (render v), { n with Value := v }, ?_, ?_, ?_, ?_, ?_, ?_,
      rfl, rfl, rfl, rfl⟩
    · simp [NodeReference.Mutate, hn]
    · simp [Heap.setValue]
    · simp [Heap.setValue]
    · simp [Heap.setValue]
    · simp [Heap.setValue]
    · intro b hb
      simp [Heap.setValue, hb]
  · intro n hn
    refine ⟨Heap.setValue h a (render v), { n with Value := v }, ?_, ?_, ?_, ?_, ?_, ?_,
      rfl, rfl, rfl⟩
    · simp [ValueReference.Mutate, hn]
    · simp [Heap.setValue]
    · simp [Heap.setValue]
    · simp [Heap.setValue]
    · simp [Heap.setValue]
    · intro b hb
      simp [Heap.setValue, hb]

theorem C15_mutate_preserves_positions_witness :
    ∃ h2 n2, NodeReference.Mutate (fun s : String => s) docExtAndPath
        { Value := "v", ValueNode := some 3, KeyNode := some 2, ReferenceNode := false,
          Reference := "" } "w" = some (h2, n2) ∧
      (h2 3).Line = (docExtAndPath 3).Line ∧ (h2 3).Column = (docExtAndPath 3).Column ∧
      (h2 3).Kind = (docExtAndPath 3).Kind ∧ (h2 3).Content = (docExtAndPath 3).Content ∧
      (∀ b, b ≠ 3 → h2 b = docExtAndPath b) ∧
      n2.KeyNode = some 2 ∧ n2.ValueNode = some 3 ∧
      n2.ReferenceNode = false ∧ n2.Reference = "" :=
  (C15_mutate_preserves_positions (fun s : String => s) docExtAndPath 3 "w").1
    { Value := "v", ValueNode := some 3, KeyNode := some 2, ReferenceNode := false,
      Reference := "" } rfl

theorem FindPath_some {PI E : Type} (p : Paths PI E) (path : String) :
    ∀ (visit : List (KeyReference String × ValueReference PI)) (v : ValueReference PI),
      Paths.FindPath p visit path = some v → ∃ k, (k, v) ∈ visit ∧ k.Value = path := by
  intro visit
  induction visit with
  | nil => intro v hv; simp [Paths.FindPath] at hv
  | cons e rest ih =>
    intro v hv
    obtain ⟨k, j⟩ := e
    unfold Paths.FindPath at hv
    by_cases hk : k.Value = path
    · simp only [hk, if_true, Option.some.injEq] at hv
      subst hv
      exact ⟨k, List.mem_cons_self _ _, hk⟩
    · simp only [hk, if_false] at hv
      obtain ⟨k2, hmem, hk2⟩ := ih v hv
      exact ⟨k2, List.mem_cons_of_mem _ hmem, hk2⟩

theorem FindPath_none {PI E : Type} (p : Paths PI E) (path : String) :
    ∀ visit : List (KeyReference String × ValueReference PI),
      Paths.FindPath p visit path = none → ∀ e ∈ visit, e.1.Value ≠ path := by
  intro visit
  induction visit with
  | nil => intro _ e he; cases he
  | cons e rest ih =>
    intro hv e2 he2
    obtain ⟨k, j⟩ := e
    unfold Paths.FindPath at hv
    by_cases hk : k.Value = path
    · simp [hk] at hv
    · simp only [hk, if_false] at hv
      rcases List.mem_cons.mp he2 with h1 | h1
      · subst h1
        exact hk
      · exact ih hv e2 h1

/-- C16. Whatever order the `range` loop visits the map in, `Paths.FindPath(path)` returns a
non-nil reference exactly when some key of `PathItems` has `Value` equal to `path` under
case-sensitive exact comparison, and the reference it then returns is the value stored under
a key with that `Value`; when no key matches it returns nil. The only result is the pointer,
so no error is reported. -/
theorem C16_findPath_exact_match {PI E : Type} (p : Paths PI E)
    (visit : List (KeyReference String × ValueReference PI)) (path : String)
    (hvisit : visit.Perm p.PathItems) :
    (Paths.FindPath p visit path ≠ none ↔ ∃ e ∈ p.PathItems, e.1.Value = path) ∧
    (∀ v, Paths.FindPath p visit path = some v →
      ∃ k, (k, v) ∈ p.PathItems ∧ k.Value = path) ∧
    ((∀ e ∈ p.PathItems, e.1.Value ≠ path) → Paths.FindPath p visit path = none) := by
  have hsome : ∀ v, Paths.FindPath p visit path = some v →
      ∃ k, (k, v) ∈ p.PathItems ∧ k.Value = path := by
    intro v hv
    obtain ⟨k, hmem, hk⟩ := FindPath_some p path visit v hv
    exact ⟨k, hvisit.mem_iff.mp hmem, hk⟩
  have hnone : (∀ e ∈ p.PathItems, e.1.Value ≠ path) → Paths.FindPath p visit path = none := by
    intro hall
    cases hf : Paths.FindPath p visit path with
    | none => rfl
    | some v =>
      obtain ⟨k, hmem, hk⟩ := hsome v hf
      exact absurd hk (hall (k, v) hmem)
  refine ⟨⟨?_, ?_⟩, hsome, hnone⟩
  · intro hne
    cases hf : Paths.FindPath p visit path with
    | none => exact absurd hf hne
    | some v =>
      obtain ⟨k, hmem, hk⟩ := hsome v hf
      exact ⟨(k, v), hmem, hk⟩
  · rintro ⟨e, he, hk⟩ hnone2
    exact FindPath_none p path visit hnone2 e (hvisit.mem_iff.mpr he) hk

theorem C16_findPath_exact_match_witness :
    (Paths.FindPath twoPaths twoPaths.PathItems.reverse "/Pets" ≠ none ↔
      ∃ e ∈ twoPaths.PathItems, e.1.Value = "/Pets") ∧
    (∀ v, Paths.FindPath twoPaths twoPaths.PathItems.reverse "/Pets" = some v →
      ∃ k, (k, v) ∈ twoPaths.PathItems ∧ k.Value = "/Pets") ∧
    ((∀ e ∈ twoPaths.PathItems, e.1.Value ≠ "/Pets") →
      Paths.FindPath twoPaths twoPaths.PathItems.reverse "/Pets" = none) :=
  C16_findPath_exact_match twoPaths twoPaths.PathItems.reverse "/Pets"
    (List.reverse_perm _)

/-! ### Claim C20 -/

theorem foldl_add_eq_sum {N : Type} (f : N → Int) :
    ∀ (m : GoMap String N) (d : Int),
      m.foldl (fun d e => d + f e.2) d = d + sumOver f m := by
  intro m
  induction m with
  | nil => intro d; simp [sumOver]
  | cons e rest ih =>
    intro d
    rw [List.foldl_cons, ih]
    simp only [sumOver, List.map_cons, List.sum_cons]
    omega

/-- C20. `TotalChanges` is the sum of an object's own property changes and the totals of all
its nested change sets: `CallbackChanges.TotalChanges` equals the property-change total plus
the sum of `TotalChanges` over every entry of `ExpressionChanges` plus the `ExtensionChanges`
total (0 when absent), and `MediaTypeChanges.TotalChanges` equals the property-change total
plus the totals of every example change, the schema changes, every encoding change and the
extension changes (each 0 when absent). -/
theorem C20_totalChanges_is_sum {Obj N : Type} (t : NestedTotals N) :
    (∀ c : CallbackChanges Obj N,
      c.TotalChanges t =
        c.PropertyChanges.TotalChanges + sumOver t.TotalChanges c.ExpressionChanges +
          totalOrZero t.TotalChanges c.ExtensionChanges) ∧
    (∀ (m : MediaTypeChanges Obj N) (pc : PropertyChanges Obj), m.PropertyChanges = some pc →
      m.TotalChanges t =
        some (pc.TotalChanges + sumOver t.TotalChanges m.ExampleChanges +
          totalOrZero t.TotalChanges m.SchemaChanges +
          sumOver t.TotalChanges m.EncodingChanges +
          totalOrZero t.TotalChanges m.ExtensionChanges)) := by
  constructor
  · intro c
    unfold CallbackChanges.TotalChanges
    simp only [foldl_add_eq_sum]
    cases c.ExtensionChanges <;> simp [totalOrZero]
  · intro m pc hpc
    unfold MediaTypeChanges.TotalChanges
    simp only [hpc, foldl_add_eq_sum]
    have henc : (if m.EncodingChanges.length > 0 then
          (match m.SchemaChanges with
            | some s => pc.TotalChanges + sumOver t.TotalChanges m.ExampleChanges +
                t.TotalChanges s
            | none => pc.TotalChanges + sumOver t.TotalChanges m.ExampleChanges) +
            sumOver t.TotalChanges m.EncodingChanges
        else
          (match m.SchemaChanges with
            | some s => pc.TotalChanges + sumOver t.TotalChanges m.ExampleChanges +
                t.TotalChanges s
            | none => pc.TotalChanges + sumOver t.TotalChanges m.ExampleChanges)) =
        pc.TotalChanges + sumOver t.TotalChanges m.ExampleChanges +
          totalOrZero t.TotalChanges m.SchemaChanges +
          sumOver t.TotalChanges m.EncodingChanges := by
      cases hs : m.SchemaChanges <;> cases he : m.EncodingChanges <;>
        simp [totalOrZero, sumOver]
    rw [henc]
    cases m.ExtensionChanges <;> simp [totalOrZero]

theorem C20_totalChanges_is_sum_witness :
    sampleCallbackChanges.TotalChanges countTotals = 1 + (2 + 3) + 4 ∧
    sampleMediaTypeChanges.TotalChanges countTotals = some (1 + 3 + 2 + (4 + 5) + 1) :=
  ⟨by
    rw [(C20_totalChanges_is_sum countTotals).1 sampleCallbackChanges]
    decide,
   by
    rw [(C20_totalChanges_is_sum countTotals).2 sampleMediaTypeChanges
      { Changes := [⟨Modified, "example", some 5, some 6, false, none, none⟩] } rfl]
    decide⟩

/-! ### Claims C17 and C18 -/

theorem mediaTypeChangesOf_total {V Ext N : Type} (env : MediaTypeEnv V Ext N) (h2 : Heap)
    (l r : MediaType V Ext) :
    ∃ total, (mediaTypeChangesOf env h2 l r).TotalChanges env.totals = some total := by
  unfold MediaTypeChanges.TotalChanges mediaTypeChangesOf
  exact ⟨_, rfl⟩

/-- C17. `CompareMediaTypes` returns nil whenever the two media types are equal by hash
(`low.AreEqual`), before any structural comparison is made: no node is written and no other
collaborator decides the result. It always returns, and every non-nil result it returns
reports at least one change (`TotalChanges` greater than 0). -/
theorem C17_equal_by_hash_or_some_change {V Ext N : Type} (env : MediaTypeEnv V Ext N)
    (h : Heap) (l r : MediaType V Ext) :
    (env.AreEqual h l r = true → CompareMediaTypes env h l r = some (h, none)) ∧
    (∃ res, CompareMediaTypes env h l r = some res) ∧
    (∀ h2 mc, CompareMediaTypes env h l r = some (h2, some mc) →
      ∃ total, mc.TotalChanges env.totals = some total ∧ 0 < total) := by
  refine ⟨?_, ?_, ?_⟩
  · intro he
    simp [CompareMediaTypes, he]
  · unfold CompareMediaTypes
    by_cases he : env.AreEqual h l r = true
    · exact ⟨(h, none), by simp [he]⟩
    · obtain ⟨total, ht⟩ := mediaTypeChangesOf_total env (renderExamples env h l r) l r
      simp only [he, ht]
      by_cases hle : total ≤ 0
      · exact ⟨(renderExamples env h l r, none), by simp [hle]⟩
      · exact ⟨(renderExamples env h l r,
          some (mediaTypeChangesOf env (renderExamples env h l r) l r)), by simp [hle]⟩
  · intro h2 mc hret
    unfold CompareMediaTypes at hret
    by_cases he : env.AreEqual h l r = true
    · simp [he] at hret
    · obtain ⟨total, ht⟩ := mediaTypeChangesOf_total env (renderExamples env h l r) l r
      simp only [he, ht] at hret
      by_cases hle : total ≤ 0
      · simp [hle] at hret
      · simp only [hle, if_false, Bool.false_eq_true, Option.some.injEq, Prod.mk.injEq] at hret
        obtain ⟨_, hmc⟩ := hret
        subst hmc
        exact ⟨total, ht, by omega⟩

theorem C17_equal_by_hash_or_some_change_witness :
    exampleEnv.AreEqual docExamples (mediaTypeWithExample 20) (mediaTypeWithExample 20) = true ∧
    CompareMediaTypes exampleEnv docExamples (mediaTypeWithExample 20)
      (mediaTypeWithExample 20) = some (docExamples, none) :=
  ⟨by decide,
    (C17_equal_by_hash_or_some_change exampleEnv docExamples (mediaTypeWithExample 20)
      (mediaTypeWithExample 20)).1 (by decide)⟩

/-- Writing a scalar text leaves the kind, position and children of every node as they were. -/
theorem setValue_shape (h : Heap) (a : Addr) (text : String) (b : Addr) :
    (Heap.setValue h a text b).Kind = (h b).Kind ∧
    (Heap.setValue h a text b).Line = (h b).Line ∧
    (Heap.setValue h a text b).Column = (h b).Column ∧
    (Heap.setValue h a text b).Content = (h b).Content := by
  unfold Heap.setValue
  by_cases hb : b = a
  · simp [hb]
  · simp [hb]

theorem setValue_other (h : Heap) (a : Addr) (text : String) (b : Addr) (hb : b ≠ a) :
    Heap.setValue h a text b = h b := by
  simp [Heap.setValue, hb]

theorem renderLeft_other {V Ext N : Type} (env : MediaTypeEnv V Ext N) (text : String → String)
    (h : Heap) (node : Ptr) (b : Addr) (hb : some b ≠ node) :
    renderLeft env text h node b = h b := by
  unfold renderLeft
  cases node with
  | none => rfl
  | some a =>
    have hba : b ≠ a := fun hc => hb (by rw [hc])
    simp only
    split
    · exact setValue_other h a _ b hba
    · rfl

theorem renderRight_other {V Ext N : Type} (env : MediaTypeEnv V Ext N)
    (h : Heap) (node : Ptr) (b : Addr) (hb : some b ≠ node) :
    renderRight env h node b = h b := by
  unfold renderRight
  cases node with
  | none => rfl
  | some a =>
    have hba : b ≠ a := fun hc => hb (by rw [hc])
    simp only
    split
    · exact setValue_other h a _ b hba
    · rfl

theorem renderLeft_shape {V Ext N : Type} (env : MediaTypeEnv V Ext N) (text : String → String)
    (h : Heap) (node : Ptr) (b : Addr) :
    (renderLeft env text h node b).Kind = (h b).Kind ∧
    (renderLeft env text h node b).Line = (h b).Line ∧
    (renderLeft env text h node b).Column = (h b).Column ∧
    (renderLeft env text h node b).Content = (h b).Content := by
  unfold renderLeft
  cases node with
  | none => exact ⟨rfl, rfl, rfl, rfl⟩
  | some a =>
    simp only
    split
    · exact setValue_shape h a _ b
    · exact ⟨rfl, rfl, rfl, rfl⟩

theorem renderRight_shape {V Ext N : Type} (env : MediaTypeEnv V Ext N)
    (h : Heap) (node : Ptr) (b : Addr) :
    (renderRight env h node b).Kind = (h b).Kind ∧
    (renderRight env h node b).Line = (h b).Line ∧
    (renderRight env h node b).Column = (h b).Column ∧
    (renderRight env h node b).Content = (h b).Content := by
  unfold renderRight
  cases node with
  | none => exact ⟨rfl, rfl, rfl, rfl⟩
  | some a =>
    simp only
    split
    · exact setValue_shape h a _ b
    · exact ⟨rfl, rfl, rfl, rfl⟩

theorem renderExamples_other {V Ext N : Type} (env : MediaTypeEnv V Ext N) (h : Heap)
    (l r : MediaType V Ext) (b : Addr) (hl : some b ≠ l.Example.ValueNode)
    (hr : some b ≠ r.Example.ValueNode) : renderExamples env h l r b = h b := by
  unfold renderExamples
  simp only
  split
  · split
    · rw [renderRight_other env _ _ b hr, renderLeft_other env _ _ _ b hl]
    · rfl
  · split
    · split
      · rw [renderRight_other env _ _ b hr, renderLeft_other env _ _ _ b hl]
      · rw [renderLeft_other env _ _ _ b hl]
    · split
      · rw [renderRight_other env _ _ b hr]
      · rfl

theorem renderExamples_shape {V Ext N : Type} (env : MediaTypeEnv V Ext N) (h : Heap)
    (l r : MediaType V Ext) (b : Addr) :
    (renderExamples env h l r b).Kind = (h b).Kind ∧
    (renderExamples env h l r b).Line = (h b).Line ∧
    (renderExamples env h l r b).Column = (h b).Column ∧
    (renderExamples env h l r b).Content = (h b).Content := by
  have hcomp : ∀ (text : String → String) (lv rv : Ptr),
      (renderRight env (renderLeft env text h lv) rv b).Kind = (h b).Kind ∧
      (renderRight env (renderLeft env text h lv) rv b).Line = (h b).Line ∧
      (renderRight env (renderLeft env text h lv) rv b).Column = (h b).Column ∧
      (renderRight env (renderLeft env text h lv) rv b).Content = (h b).Content := by
    intro text lv rv
    obtain ⟨a1, a2, a3, a4⟩ := renderRight_shape env (renderLeft env text h lv) rv b
    obtain ⟨b1, b2, b3, b4⟩ := renderLeft_shape env text h lv b
    exact ⟨a1.trans b1, a2.trans b2, a3.trans b3, a4.trans b4⟩
  unfold renderExamples
  simp only
  split
  · split
    · exact hcomp _ _ _
    · exact ⟨rfl, rfl, rfl, rfl⟩
  · split
    · split
      · exact hcomp _ _ _
      · exact renderLeft_shape env _ h _ b
    · split
      · exact renderRight_shape env h _ b
      · exact ⟨rfl, rfl, rfl, rfl⟩

theorem renderExamples_scalars {V Ext N : Type} (env : MediaTypeEnv V Ext N) (h : Heap)
    (l r : MediaType V Ext)
    (h1 : IsNodeMap h l.Example.ValueNode = false)
    (h2 : IsNodeArray h l.Example.ValueNode = false)
    (h3 : IsNodeMap h r.Example.ValueNode = false)
    (h4 : IsNodeArray h r.Example.ValueNode = false) : renderExamples env h l r = h := by
  unfold renderExamples
  simp [h1, h2, h3, h4]

theorem renderExamples_right_rendered {V Ext N : Type} (env : MediaTypeEnv V Ext N) (h : Heap)
    (l r : MediaType V Ext) (a b : Addr) (hl : l.Example.ValueNode = some a)
    (hr : r.Example.ValueNode = some b)
    (hkind : (IsNodeMap h (some a) = true ∧ IsNodeMap h (some b) = true) ∨
      (IsNodeArray h (some a) = true ∧ IsNodeArray h (some b) = true))
    (hla : (env.Marshal h a).2 = none) (hrb : (env.Marshal h b).2 = none) :
    (renderExamples env h l r b).Value = (env.Marshal h b).1 := by
  have hle : l.Example.IsEmpty = false := by simp [NodeReference.IsEmpty, hl]
  have hre : r.Example.IsEmpty = false := by simp [NodeReference.IsEmpty, hr]
  have hcond : ((IsNodeMap h (some a) && IsNodeMap h (some b)) ||
      (IsNodeArray h (some a) && IsNodeArray h (some b))) = true := by
    rcases hkind with ⟨k1, k2⟩ | ⟨k1, k2⟩ <;> simp [k1, k2]
  have hleft : renderLeft env (fun s => s) h (some a) = h := by
    simp [renderLeft, hla]
  unfold renderExamples
  simp only [hl, hr, hle, hre, hcond, hleft, Bool.not_false, Bool.and_self, if_true]
  simp [renderRight, hrb, Heap.setValue]

/-- C18 (counterexample). Comparing a media type whose example is the mapping at node 20 with
one whose example is the mapping at node 30, where rendering succeeds: before the call the
right example node holds the empty scalar text of a mapping, after the call it holds the
rendered text. -/
theorem C18_right_example_node_rewritten :
    (docExamples 30).Value = "" ∧
    (CompareMediaTypes exampleEnv docExamples (mediaTypeWithExample 20)
        (mediaTypeWithExample 30)).map (fun x => (x.1 30).Value) = some "a, 2" := by
  decide

/-- C18 (amended). `CompareMediaTypes` writes to no node other than the two example value
nodes, and of those it changes only the scalar text: kind, line, column and children of every
node are as before. It writes nothing at all when the media types are equal by hash, and
nothing when neither example value node is a mapping or a sequence. When both example value
nodes are mappings (or both sequences) and rendering succeeds on both, the scalar text of the
right example value node is replaced by its rendering. -/
theorem C18_only_example_text_written {V Ext N : Type} (env : MediaTypeEnv V Ext N)
    (h : Heap) (l r : MediaType V Ext) :
    ∃ h2 res, CompareMediaTypes env h l r = some (h2, res) ∧
      (env.AreEqual h l r = true → h2 = h) ∧
      (∀ b, some b ≠ l.Example.ValueNode → some b ≠ r.Example.ValueNode → h2 b = h b) ∧
      (∀ b, (h2 b).Kind = (h b).Kind ∧ (h2 b).Line = (h b).Line ∧
        (h2 b).Column = (h b).Column ∧ (h2 b).Content = (h b).Content) ∧
      (IsNodeMap h l.Example.ValueNode = false → IsNodeArray h l.Example.ValueNode = false →
        IsNodeMap h r.Example.ValueNode = false → IsNodeArray h r.Example.ValueNode = false →
        h2 = h) ∧
      (∀ a b, l.Example.ValueNode = some a → r.Example.ValueNode = some b →
        env.AreEqual h l r = false →
        ((IsNodeMap h (some a) = true ∧ IsNodeMap h (some b) = true) ∨
          (IsNodeArray h (some a) = true ∧ IsNodeArray h (some b) = true)) →
        (env.Marshal h a).2 = none → (env.Marshal h b).2 = none →
        (h2 b).Value = (env.Marshal h b).1) := by
  by_cases he : env.AreEqual h l r = true
  · refine ⟨h, none, by simp [CompareMediaTypes, he], fun _ => rfl, fun _ _ _ => rfl,
      fun _ => ⟨rfl, rfl, rfl, rfl⟩, fun _ _ _ _ => rfl, ?_⟩
    intro a b _ _ hne
    rw [he] at hne
    cases hne
  · obtain ⟨total, ht⟩ := mediaTypeChangesOf_total env (renderExamples env h l r) l r
    have hret : ∃ res, CompareMediaTypes env h l r =
        some (renderExamples env h l r, res) := by
      unfold CompareMediaTypes
      simp only [he, ht]
      by_cases hle : total ≤ 0
      · exact ⟨none, by simp [hle]⟩
      · exact ⟨some (mediaTypeChangesOf env (renderExamples env h l r) l r), by simp [hle]⟩
    obtain ⟨res, hres⟩ := hret
    refine ⟨renderExamples env h l r, res, hres, fun hc => absurd hc he,
      fun b hl hr => renderExamples_other env h l r b hl hr,
      fun b => renderExamples_shape env h l r b,
      fun h1 h2 h3 h4 => renderExamples_scalars env h l r h1 h2 h3 h4, ?_⟩
    intro a b hl hr _ hkind hla hrb
    exact renderExamples_right_rendered env h l r a b hl hr hkind hla hrb

theorem C18_only_example_text_written_witness :
    ∃ h2 res, CompareMediaTypes exampleEnv docExamples (mediaTypeWithExample 20)
        (mediaTypeWithExample 30) = some (h2, res) ∧
      h2 22 = docExamples 22 ∧ (h2 30).Content = [31, 32] ∧ (h2 30).Value = "a, 2" := by
  obtain ⟨h2, res, hret, _, hother, hshape, _, hright⟩ :=
    C18_only_example_text_written exampleEnv docExamples (mediaTypeWithExample 20)
      (mediaTypeWithExample 30)
  refine ⟨h2, res, hret, hother 22 (by decide) (by decide), ?_, ?_⟩
  · rw [(hshape 30).2.2.2]
    decide
  · rw [hright 20 30 rfl rfl (by decide) (Or.inl ⟨by decide, by decide⟩) (by decide)
      (by decide)]
    decide

/-! ### Claim C19 -/

theorem callbackChanges_total {Obj N : Type} (t : NestedTotals N) (c : CallbackChanges Obj N) :
    c.TotalChanges t =
      c.PropertyChanges.TotalChanges + sumOver t.TotalChanges c.ExpressionChanges +
        totalOrZero t.TotalChanges c.ExtensionChanges := by
  unfold CallbackChanges.TotalChanges
  simp only [foldl_add_eq_sum]
  cases c.ExtensionChanges <;> simp [totalOrZero]

theorem HashToString_ne_empty (hash : Hash32) : HashToString hash ≠ "" := by
  obtain ⟨bytes, size⟩ := hash
  cases bytes with
  | nil => simp at size
  | cons b bs =>
    intro hc
    have hdata := congrArg String.data hc
    simp [HashToString, hexOf] at hdata

theorem GoMap.get_nil {K V : Type} [DecidableEq K] (k : K) :
    GoMap.get ([] : GoMap K V) k = none := rfl

theorem GoMap.get_of_mem_keys {K V : Type} [DecidableEq K] :
    ∀ (m : GoMap K V) (k : K), k ∈ m.map (fun e => e.1) → ∃ v, m.get k = some v
  | [], k, hk => by cases hk
  | e :: rest, k, hk => by
    unfold GoMap.get
    by_cases he : e.1 = k
    · exact ⟨e.2, by simp [List.find?_cons, he]⟩
    · have hrest : k ∈ rest.map (fun e => e.1) := by
        rcases List.mem_cons.mp hk with h1 | h1
        · exact absurd h1.symm he
        · exact h1
      obtain ⟨v, hv⟩ := GoMap.get_of_mem_keys rest k hrest
      refine ⟨v, ?_⟩
      have h1 : decide (e.1 = k) = false := by simp [he]
      rw [List.find?_cons, h1]
      exact hv

theorem collectLoop_hash_other {P Ext N : Type} (env : CallbackEnv P Ext N) (k : String) :
    ∀ (visit : List (KeyReference String × ValueReference P)) (hashes : GoMap String String)
      (values : GoMap String (ValueReference P)),
      (∀ e ∈ visit, e.1.Value ≠ k) →
      (collectLoop env visit hashes values).1.get k = hashes.get k := by
  intro visit
  induction visit with
  | nil => intro hashes values _; rfl
  | cons e rest ih =>
    intro hashes values hne
    unfold collectLoop
    rw [ih _ _ (fun e2 he2 => hne e2 (List.mem_cons_of_mem _ he2)), GoMap.get_assign]
    have hk : ¬ k = e.1.Value := fun hc => hne e (List.mem_cons_self _ _) hc.symm
    simp [hk]

theorem collectLoop_hash_source {P Ext N : Type} (env : CallbackEnv P Ext N) (k s : String) :
    ∀ (visit : List (KeyReference String × ValueReference P)) (hashes : GoMap String String)
      (values : GoMap String (ValueReference P)),
      (collectLoop env visit hashes values).1.get k = some s →
      hashes.get k = some s ∨
        ∃ e ∈ visit, e.1.Value = k ∧ s = GenerateHashString env e.2.Value := by
  intro visit
  induction visit with
  | nil => intro hashes values hget; exact Or.inl hget
  | cons e rest ih =>
    intro hashes values hget
    unfold collectLoop at hget
    rcases ih _ _ hget with h1 | ⟨e2, he2, hk2, hs2⟩
    · rw [GoMap.get_assign] at h1
      by_cases hk : k = e.1.Value
      · simp only [hk, if_true, Option.some.injEq] at h1
        exact Or.inr ⟨e, List.mem_cons_self _ _, hk.symm, h1.symm⟩
      · simp only [hk, if_false] at h1
        exact Or.inl h1
    · exact Or.inr ⟨e2, List.mem_cons_of_mem _ he2, hk2, hs2⟩

theorem collectLoop_hash_present {P Ext N : Type} (env : CallbackEnv P Ext N) (k : String) :
    ∀ (visit : List (KeyReference String × ValueReference P)) (hashes : GoMap String String)
      (values : GoMap String (ValueReference P)),
      (∃ e ∈ visit, e.1.Value = k) →
      ∃ e ∈ visit, e.1.Value = k ∧
        (collectLoop env visit hashes values).1.get k =
          some (GenerateHashString env e.2.Value) := by
  intro visit
  induction visit with
  | nil => rintro _ _ ⟨e, he, _⟩; cases he
  | cons e rest ih =>
    intro hashes values hex
    unfold collectLoop
    by_cases hlater : ∃ e2 ∈ rest, e2.1.Value = k
    · obtain ⟨e2, he2, hk2, hget⟩ := ih _ _ hlater
      exact ⟨e2, List.mem_cons_of_mem _ he2, hk2, hget⟩
    · have hnone : ∀ e2 ∈ rest, e2.1.Value ≠ k := fun e2 he2 hc => hlater ⟨e2, he2, hc⟩
      have hek : e.1.Value = k := by
        obtain ⟨e3, he3, hk3⟩ := hex
        rcases List.mem_cons.mp he3 with h1 | h1
        · rw [← h1]; exact hk3
        · exact absurd hk3 (hnone e3 h1)
      refine ⟨e, List.mem_cons_self _ _, hek, ?_⟩
      rw [collectLoop_hash_other env k rest _ _ hnone, GoMap.get_assign]
      simp [hek]

theorem checkLeftLoop_unchanged {P Ext N : Type} [Inhabited P] (env : CallbackEnv P Ext N)
    (lHashes rHashes : GoMap String String) (lValues rValues : GoMap String (ValueReference P)) :
    ∀ (keys : List String) (changes : List (Change P)) (expChanges : GoMap String N),
      (∀ k ∈ keys, hashAt rHashes k ≠ "" ∧ hashAt lHashes k = hashAt rHashes k) →
      checkLeftLoop env lHashes rHashes lValues rValues keys changes expChanges =
        (changes, expChanges) := by
  intro keys
  induction keys with
  | nil => intro changes expChanges _; rfl
  | cons k rest ih =>
    intro changes expChanges hall
    obtain ⟨h1, h2⟩ := hall k (List.mem_cons_self _ _)
    unfold checkLeftLoop
    simp only [h1, h2, if_false, if_true]
    exact ih changes expChanges (fun k2 hk2 => hall k2 (List.mem_cons_of_mem _ hk2))

theorem checkRightLoop_unchanged {P : Type} [Inhabited P] (lHashes : GoMap String String)
    (rValues : GoMap String (ValueReference P)) :
    ∀ (keys : List String) (changes : List (Change P)),
      (∀ k ∈ keys, hashAt lHashes k ≠ "") →
      checkRightLoop lHashes rValues keys changes = changes := by
  intro keys
  induction keys with
  | nil => intro changes _; rfl
  | cons k rest ih =>
    intro changes hall
    have h1 := hall k (List.mem_cons_self _ _)
    unfold checkRightLoop
    simp only [h1, if_false]
    exact ih changes (fun k2 hk2 => hall k2 (List.mem_cons_of_mem _ hk2))

/-- Every key of the hash map built from `visit` has the hash of an entry of `other` with the
same text, when the two visited maps have the same key texts and equal hashes under equal
texts. -/
theorem collected_hashes_agree {P Ext N : Type} (env : CallbackEnv P Ext N)
    (visit other : List (KeyReference String × ValueReference P))
    (hkeys : ∀ e ∈ visit, ∃ e2 ∈ other, e2.1.Value = e.1.Value)
    (hhash : ∀ e ∈ visit, ∀ e2 ∈ other, e.1.Value = e2.1.Value →
      GenerateHashString env e.2.Value = GenerateHashString env e2.2.Value)
    (k : String) (hk : k ∈ (collectLoop env visit [] []).1.map (fun e => e.1)) :
    hashAt (collectLoop env other [] []).1 k ≠ "" ∧
    hashAt (collectLoop env visit [] []).1 k = hashAt (collectLoop env other [] []).1 k := by
  obtain ⟨s, hs⟩ := GoMap.get_of_mem_keys _ k hk
  rcases collectLoop_hash_source env k s visit [] [] hs with h1 | ⟨e, he, hek, hse⟩
  · rw [GoMap.get_nil] at h1
    cases h1
  · obtain ⟨e2, he2, hk2⟩ := hkeys e he
    obtain ⟨e3, he3, hk3, hget3⟩ :=
      collectLoop_hash_present env k other [] [] ⟨e2, he2, by rw [hk2, hek]⟩
    have heq : GenerateHashString env e.2.Value = GenerateHashString env e3.2.Value :=
      hhash e he e3 he3 (by rw [hek, hk3])
    unfold hashAt
    rw [hs, hget3, hse, heq]
    exact ⟨HashToString_ne_empty _, rfl⟩

/-- C19 (counterexample). A callback whose mapping carries the expression `$url` twice, with
path items of different hash: when the two loops over the same map visit it in opposite
orders, `CompareCallback(c, c)` returns a non-nil result with one change. -/
theorem C19_same_callback_reported_changed :
    twiceCallback.Expression.reverse.Perm twiceCallback.Expression ∧
    (CompareCallback numberEnv twiceCallback twiceCallback twiceCallback.Expression
        twiceCallback.Expression.reverse).map
      (fun c => (c.ExpressionChanges, c.TotalChanges countTotals)) =
      some ([("$url", 1)], 1) := by
  refine ⟨List.reverse_perm _, ?_⟩
  decide

/-- C19 (amended). `CompareCallback(l, r)` returns nil, whatever order the maps are visited
in, whenever `l` and `r` have the same expression key texts, every left and right path item
under keys of the same text have equal hashes, and the extensions show no change. In
particular `CompareCallback(c, c)` returns nil for every callback `c` in which keys of the
same text carry path items of equal hash (so for every `c` whose key texts are pairwise
distinct) and whose extensions compared with themselves show no change. -/
theorem C19_equal_hashes_give_nil {P Ext N : Type} [Inhabited P] (env : CallbackEnv P Ext N) :
    (∀ (l r : Callback P Ext) (lVisit rVisit : List (KeyReference String × ValueReference P)),
      lVisit.Perm l.Expression → rVisit.Perm r.Expression →
      (∀ s, (∃ e ∈ l.Expression, e.1.Value = s) ↔ (∃ e ∈ r.Expression, e.1.Value = s)) →
      (∀ e ∈ l.Expression, ∀ e2 ∈ r.Expression, e.1.Value = e2.1.Value →
        GenerateHashString env e.2.Value = GenerateHashString env e2.2.Value) →
      totalOrZero env.totals.TotalChanges (env.CompareExtensions l.Extensions r.Extensions) = 0 →
      CompareCallback env l r lVisit rVisit = none) ∧
    (∀ (c : Callback P Ext) (lVisit rVisit : List (KeyReference String × ValueReference P)),
      lVisit.Perm c.Expression → rVisit.Perm c.Expression →
      (∀ e ∈ c.Expression, ∀ e2 ∈ c.Expression, e.1.Value = e2.1.Value →
        GenerateHashString env e.2.Value = GenerateHashString env e2.2.Value) →
      totalOrZero env.totals.TotalChanges (env.CompareExtensions c.Extensions c.Extensions) = 0 →
      CompareCallback env c c lVisit rVisit = none) := by
  have general : ∀ (l r : Callback P Ext)
      (lVisit rVisit : List (KeyReference String × ValueReference P)),
      lVisit.Perm l.Expression → rVisit.Perm r.Expression →
      (∀ s, (∃ e ∈ l.Expression, e.1.Value = s) ↔ (∃ e ∈ r.Expression, e.1.Value = s)) →
      (∀ e ∈ l.Expression, ∀ e2 ∈ r.Expression, e.1.Value = e2.1.Value →
        GenerateHashString env e.2.Value = GenerateHashString env e2.2.Value) →
      totalOrZero env.totals.TotalChanges (env.CompareExtensions l.Extensions r.Extensions) = 0 →
      CompareCallback env l r lVisit rVisit = none := by
    intro l r lVisit rVisit hl hr hkeys hhash hext
    have hleft := collected_hashes_agree env lVisit rVisit
      (fun e he => by
        obtain ⟨e2, he2, hk2⟩ := (hkeys e.1.Value).mp ⟨e, hl.mem_iff.mp he, rfl⟩
        exact ⟨e2, hr.mem_iff.mpr he2, hk2⟩)
      (fun e he e2 he2 hk => hhash e (hl.mem_iff.mp he) e2 (hr.mem_iff.mp he2) hk)
    have hright := collected_hashes_agree env rVisit lVisit
      (fun e he => by
        obtain ⟨e2, he2, hk2⟩ := (hkeys e.1.Value).mpr ⟨e, hr.mem_iff.mp he, rfl⟩
        exact ⟨e2, hl.mem_iff.mpr he2, hk2⟩)
      (fun e he e2 he2 hk =>
        (hhash e2 (hl.mem_iff.mp he2) e (hr.mem_iff.mp he) hk.symm).symm)
    unfold CompareCallback
    simp only
    rw [checkLeftLoop_unchanged env _ _ _ _ _ [] [] hleft,
      checkRightLoop_unchanged _ _ _ [] (fun k hk => (hright k hk).1)]
    have htotal : CallbackChanges.TotalChanges env.totals
        ({ PropertyChanges := { Changes := [] }, ExpressionChanges := [],
           ExtensionChanges := env.CompareExtensions l.Extensions r.Extensions } :
          CallbackChanges P N) = 0 := by
      rw [callbackChanges_total]
      simp [PropertyChanges.TotalChanges, sumOver, hext]
    simp [htotal]
  exact ⟨general, fun c lVisit rVisit hl hr hhash hext =>
    general c c lVisit rVisit hl hr (fun _ => Iff.rfl) hhash hext⟩

theorem C19_equal_hashes_give_nil_witness :
    plainCallback.Expression.reverse.Perm plainCallback.Expression ∧
    CompareCallback numberEnv plainCallback plainCallback plainCallback.Expression
      plainCallback.Expression.reverse = none :=
  ⟨List.reverse_perm _,
    (C19_equal_hashes_give_nil numberEnv).2 plainCallback plainCallback.Expression
      plainCallback.Expression.reverse (List.Perm.refl _) (List.reverse_perm _)
      (by decide) (by decide)⟩

/-! ### Claims C21 to C25 -/

/-- C21. `GoLow` returns the low-level instance the high-level one was created from: for
every low-level `Link` `l`, `NewLink(l).GoLow()` is `l`, and for every low-level `OAuthFlows`
`f`, `NewOAuthFlows(f).GoLow()` is `f` (the same pointer), so the original position metadata
stays reachable from the high-level model. -/
theorem C21_goLow_returns_source {S Ext HS HExt F HF : Type} :
    (∀ (env : high.LinkEnv S Ext HS HExt) (link : GoPtr (low.Link S Ext))
        (visit : List (KeyReference String × ValueReference String)),
      (high.NewLink env link visit).GoLow = link ∧
      (high.NewLink env link visit).GoLow.target.OperationId.ValueNode =
        link.target.OperationId.ValueNode) ∧
    (∀ (env : high.OAuthFlowsEnv F Ext HF HExt) (flows : GoPtr (low.OAuthFlows F Ext)),
      (high.NewOAuthFlows env flows).GoLow = flows ∧
      (high.NewOAuthFlows env flows).GoLow.target.Implicit.ValueNode =
        flows.target.Implicit.ValueNode) :=
  ⟨fun _ _ _ => ⟨rfl, rfl⟩, fun _ _ => ⟨rfl, rfl⟩⟩

theorem ofNat_digit_toNat (d : Nat) (hd : d < 10) : (Char.ofNat (48 + d)).toNat = 48 + d := by
  interval_cases d <;> rfl

theorem ofNat_digit_ne_colon (d : Nat) (hd : d < 10) : Char.ofNat (48 + d) ≠ ':' := by
  interval_cases d <;> decide

theorem decimalDigitsRev_value :
    ∀ (fuel n : Nat), n < fuel → valueOfDigitsRev (decimalDigitsRev fuel n) = n
  | 0, n, hn => by omega
  | fuel + 1, n, hn => by
    unfold decimalDigitsRev
    by_cases h10 : n < 10
    · simp only [h10, if_true, valueOfDigitsRev, ofNat_digit_toNat n h10]
      omega
    · have hlt : n / 10 < fuel := by omega
      have hmod : n % 10 < 10 := Nat.mod_lt _ (by omega)
      simp only [h10, if_false, valueOfDigitsRev, ofNat_digit_toNat _ hmod,
        decimalDigitsRev_value fuel (n / 10) hlt]
      omega

theorem decimalDigitsRev_no_colon :
    ∀ (fuel n : Nat), ∀ c ∈ decimalDigitsRev fuel n, c ≠ ':'
  | 0, n, c, hc => by simp [decimalDigitsRev] at hc
  | fuel + 1, n, c, hc => by
    unfold decimalDigitsRev at hc
    by_cases h10 : n < 10
    · simp only [h10, if_true, List.mem_singleton] at hc
      rw [hc]
      exact ofNat_digit_ne_colon n h10
    · simp only [h10, if_false, List.mem_cons] at hc
      rcases hc with hc | hc
      · rw [hc]
        exact ofNat_digit_ne_colon _ (Nat.mod_lt _ (by omega))
      · exact decimalDigitsRev_no_colon fuel (n / 10) c hc

theorem fmtD_injective (a b : Nat) (hab : fmtD a = fmtD b) : a = b := by
  have hdata : (decimalDigitsRev (a + 1) a).reverse = (decimalDigitsRev (b + 1) b).reverse := by
    have := congrArg String.data hab
    simpa [fmtD] using this
  have hrev := List.reverse_injective hdata
  have ha := decimalDigitsRev_value (a + 1) a (by omega)
  have hb := decimalDigitsRev_value (b + 1) b (by omega)
  rw [hrev] at ha
  omega

theorem fmtD_no_colon (a : Nat) : ∀ c ∈ (fmtD a).data, c ≠ ':' := by
  intro c hc
  have hc2 : c ∈ decimalDigitsRev (a + 1) a := by
    simpa [fmtD] using hc
  exact decimalDigitsRev_no_colon _ _ c hc2

theorem split_at_separator (sep : Char) :
    ∀ (d1 d2 e1 e2 : List Char), (∀ c ∈ d1, c ≠ sep) → (∀ c ∈ d2, c ≠ sep) →
      d1 ++ sep :: e1 = d2 ++ sep :: e2 → d1 = d2 ∧ e1 = e2
  | [], [], e1, e2, _, _, heq => by
    simp at heq
    exact ⟨rfl, heq⟩
  | [], c :: d2, e1, e2, _, h2, heq => by
    simp at heq
    exact absurd heq.1.symm (h2 c (List.mem_cons_self _ _))
  | c :: d1, [], e1, e2, h1, _, heq => by
    simp at heq
    exact absurd heq.1 (h1 c (List.mem_cons_self _ _))
  | c :: d1, c2 :: d2, e1, e2, h1, h2, heq => by
    simp only [List.cons_append, List.cons.injEq] at heq
    obtain ⟨hd, ht⟩ := split_at_separator sep d1 d2 e1 e2
      (fun x hx => h1 x (List.mem_cons_of_mem _ hx))
      (fun x hx => h2 x (List.mem_cons_of_mem _ hx)) heq.2
    exact ⟨by rw [heq.1, hd], ht⟩

theorem lineColumnKey_data (line column : Nat) :
    (lineColumnKey line column).data = (fmtD line).data ++ ':' :: (fmtD column).data := by
  simp [lineColumnKey, String.data_append]

theorem lineColumnKey_eq_iff (l1 c1 l2 c2 : Nat) :
    lineColumnKey l1 c1 = lineColumnKey l2 c2 ↔ l1 = l2 ∧ c1 = c2 := by
  constructor
  · intro heq
    have hdata := congrArg String.data heq
    rw [lineColumnKey_data, lineColumnKey_data] at hdata
    obtain ⟨h1, h2⟩ := split_at_separator ':' _ _ _ _ (fmtD_no_colon l1) (fmtD_no_colon l2) hdata
    exact ⟨fmtD_injective _ _ (String.ext h1), fmtD_injective _ _ (String.ext h2)⟩
  · rintro ⟨h1, h2⟩
    rw [h1, h2]

/-- C22. `GenerateMapKey` returns the decimal line number, a colon, and the decimal column
number of the backing node (the value node for `NodeReference` and `ValueReference`, the key
node for `KeyReference`), for example `33:56` for line 33, column 56; the decimal rendering
reads back as the number, and consequently two references receive the same map key exactly
when their backing nodes have the same line and the same column. -/
theorem C22_mapKey_is_line_colon_column (h : Heap) (a : Addr) :
    (∀ {T : Type} (n : NodeReference T), n.ValueNode = some a →
      n.GenerateMapKey h = some (fmtD (h a).Line ++ ":" ++ fmtD (h a).Column)) ∧
    (∀ {T : Type} (n : ValueReference T), n.ValueNode = some a →
      n.GenerateMapKey h = some (fmtD (h a).Line ++ ":" ++ fmtD (h a).Column)) ∧
    (∀ {T : Type} (n : KeyReference T), n.KeyNode = some a →
      n.GenerateMapKey h = some (fmtD (h a).Line ++ ":" ++ fmtD (h a).Column)) ∧
    lineColumnKey 33 56 = "33:56" ∧
    (∀ n : Nat, valueOfDigitsRev (fmtD n).data.reverse = n) ∧
    (∀ b : Addr, lineColumnKey (h a).Line (h a).Column = lineColumnKey (h b).Line (h b).Column ↔
      (h a).Line = (h b).Line ∧ (h a).Column = (h b).Column) := by
  refine ⟨?_, ?_, ?_, by decide, ?_, ?_⟩
  · intro T n hn
    simp [NodeReference.GenerateMapKey, hn, lineColumnKey]
  · intro T n hn
    simp [ValueReference.GenerateMapKey, hn, lineColumnKey]
  · intro T n hn
    simp [KeyReference.GenerateMapKey, hn, lineColumnKey]
  · intro n
    have := decimalDigitsRev_value (n + 1) n (by omega)
    simpa [fmtD] using this
  · intro b
    exact lineColumnKey_eq_iff _ _ _ _

theorem C22_mapKey_is_line_colon_column_witness :
    (nodeRefAt "v" 1).GenerateMapKey docPositions = some "33:56" ∧
    (nodeRefAt "v" 1).GenerateMapKey docPositions ≠ (nodeRefAt "k" 2).GenerateMapKey docPositions ∧
    (nodeRefAt "v" 1).GenerateMapKey docPositions ≠ (nodeRefAt "w" 3).GenerateMapKey docPositions :=
  ⟨by
    rw [(C22_mapKey_is_line_colon_column docPositions 1).1 (nodeRefAt "v" 1) rfl]
    decide,
   by decide, by decide⟩

/-- C23 (evaluation at a failing input). A `NodeReference` with a key node and no value node
is not empty, so `NodeLineNumber` reads `n.ValueNode.Line` through the nil pointer and
panics; the `ValueReference` with no value node returns 0. -/
theorem C23_nodeLineNumber_panics_on_key_only :
    ({ Value := "v", ValueNode := none, KeyNode := some 2, ReferenceNode := false,
       Reference := "" } : NodeReference String).IsEmpty = false ∧
    ({ Value := "v", ValueNode := none, KeyNode := some 2, ReferenceNode := false,
       Reference := "" } : NodeReference String).NodeLineNumber docPositions = none ∧
    ({ Value := "v", ValueNode := none, ReferenceNode := false,
       Reference := "" } : ValueReference String).NodeLineNumber docPositions = some 0 := by
  decide

/-- What `NodeLineNumber` does in general: on a `ValueReference` it always returns, the line
of the value node or 0 without one; on a `NodeReference` it returns the line of the value
node when there is one and 0 when there is neither a value node nor a key node. -/
theorem nodeLineNumber_cases {T : Type} (h : Heap) :
    (∀ n : ValueReference T,
      n.NodeLineNumber h =
        some (match n.ValueNode with
          | some a => (h a).Line
          | none => 0)) ∧
    (∀ (n : NodeReference T) (a : Addr), n.ValueNode = some a →
      n.NodeLineNumber h = some (h a).Line) ∧
    (∀ n : NodeReference T, n.ValueNode = none → n.KeyNode = none →
      n.NodeLineNumber h = some 0) ∧
    (∀ (n : NodeReference T) (k : Addr), n.ValueNode = none → n.KeyNode = some k →
      n.NodeLineNumber h = none) := by
  refine ⟨?_, ?_, ?_, ?_⟩
  · intro n
    cases hv : n.ValueNode <;> simp [ValueReference.NodeLineNumber, ValueReference.IsEmpty, hv]
  · intro n a hv
    simp [NodeReference.NodeLineNumber, NodeReference.IsEmpty, hv]
  · intro n hv hk
    simp [NodeReference.NodeLineNumber, NodeReference.IsEmpty, hv, hk]
  · intro n k hv hk
    simp [NodeReference.NodeLineNumber, NodeReference.IsEmpty, hv, hk]

theorem refKeyScan_true_iff (h : Heap) :
    ∀ (content : List Addr) (k0 : Nat),
      refKeyScan h content k0 = true ↔
        ∃ i c, (k0 + i) % 2 = 0 ∧ content[i]? = some c ∧ (h c).Value = "$ref" := by
  intro content
  induction content with
  | nil => intro k0; simp [refKeyScan]
  | cons x rest ih =>
    intro k0
    unfold refKeyScan
    constructor
    · intro hscan
      by_cases hk : k0 % 2 = 0
      · by_cases hx : (h x).Value = "$ref"
        · exact ⟨0, x, by simpa using hk, by simp, hx⟩
        · simp only [hk, hx, if_true, if_false] at hscan
          obtain ⟨i, c, hi, hc, hv⟩ := (ih (k0 + 1)).mp hscan
          exact ⟨i + 1, c, by rw [← hi]; congr 1; omega, by simpa using hc, hv⟩
      · simp only [hk, if_false] at hscan
        obtain ⟨i, c, hi, hc, hv⟩ := (ih (k0 + 1)).mp hscan
        exact ⟨i + 1, c, by rw [← hi]; congr 1; omega, by simpa using hc, hv⟩
    · rintro ⟨i, c, hi, hc, hv⟩
      cases i with
      | zero =>
        simp only [List.getElem?_cons_zero, Option.some.injEq] at hc
        subst hc
        have hk : k0 % 2 = 0 := by simpa using hi
        simp [hk, hv]
      | succ j =>
        have hrest : refKeyScan h rest (k0 + 1) = true :=
          (ih (k0 + 1)).mpr ⟨j, c, by rw [← hi]; congr 1; omega, by simpa using hc, hv⟩
        by_cases hk : k0 % 2 = 0
        · by_cases hx : (h x).Value = "$ref"
          · simp [hk, hx]
          · simp [hk, hx, hrest]
        · simp [hk, hrest]

/-- C24. `NodeReference.IsReference` returns true exactly when the `ReferenceNode` flag is set
or the key node has an entry with text `$ref` at a key position of its content (an even
index); a `$ref` text that occurs only at odd indexes does not make it a reference, and a
reference with no key node and an unset flag is not a reference. -/
theorem C24_isReference_flag_or_even_ref {T : Type} (h : Heap) (n : NodeReference T) :
    (n.IsReference h = true ↔
      (n.ReferenceNode = true ∨
        ∃ a, n.KeyNode = some a ∧
          ∃ i c, i % 2 = 0 ∧ (h a).Content[i]? = some c ∧ (h c).Value = "$ref")) ∧
    (n.ReferenceNode = false →
      (∀ a, n.KeyNode = some a → ∀ i c, (h a).Content[i]? = some c → (h c).Value = "$ref" →
        i % 2 = 1) →
      n.IsReference h = false) ∧
    (n.ReferenceNode = false → n.KeyNode = none → n.IsReference h = false) := by
  have hiff : n.IsReference h = true ↔
      (n.ReferenceNode = true ∨
        ∃ a, n.KeyNode = some a ∧
          ∃ i c, i % 2 = 0 ∧ (h a).Content[i]? = some c ∧ (h c).Value = "$ref") := by
    unfold NodeReference.IsReference
    by_cases hflag : n.ReferenceNode = true
    · simp [hflag]
    · cases hk : n.KeyNode with
      | none => simp [hflag]
      | some a =>
        simp only [hflag, if_false, Bool.false_eq_true, false_or]
        rw [refKeyScan_true_iff]
        constructor
        · rintro ⟨i, c, hi, hc, hv⟩
          exact ⟨a, rfl, i, c, by simpa using hi, hc, hv⟩
        · rintro ⟨a2, ha2, i, c, hi, hc, hv⟩
          cases ha2
          exact ⟨i, c, by simpa using hi, hc, hv⟩
  refine ⟨hiff, ?_, ?_⟩
  · intro hflag hodd
    cases hr : n.IsReference h with
    | false => rfl
    | true =>
      rcases hiff.mp hr with h1 | ⟨a, ha, i, c, hi, hc, hv⟩
      · rw [hflag] at h1
        cases h1
      · have := hodd a ha i c hc hv
        omega
  · intro hflag hkey
    cases hr : n.IsReference h with
    | false => rfl
    | true =>
      rcases hiff.mp hr with h1 | ⟨a, ha, _⟩
      · rw [hflag] at h1
        cases h1
      · rw [hkey] at ha
        cases ha

theorem C24_isReference_flag_or_even_ref_witness :
    ({ Value := "v", ValueNode := none, KeyNode := some 6, ReferenceNode := false,
       Reference := "" } : NodeReference String).IsReference docPositions = true ∧
    ({ Value := "v", ValueNode := none, KeyNode := none, ReferenceNode := false,
       Reference := "" } : NodeReference String).IsReference docPositions = false :=
  ⟨(C24_isReference_flag_or_even_ref docPositions
      { Value := "v", ValueNode := none, KeyNode := some 6, ReferenceNode := false,
        Reference := "" }).1.mpr
      (Or.inr ⟨6, rfl, 2, 9, by decide, by decide, by decide⟩),
   (C24_isReference_flag_or_even_ref docPositions
      { Value := "v", ValueNode := none, KeyNode := none, ReferenceNode := false,
        Reference := "" }).2.2 rfl rfl⟩

/-! ### Claim C25 -/

theorem GoMap.mem_keys_assign {K V : Type} [DecidableEq K] (m : GoMap K V) (k k2 : K) (v : V) :
    k2 ∈ (m.assign k v).map (fun e => e.1) ↔ k2 = k ∨ k2 ∈ m.map (fun e => e.1) := by
  unfold GoMap.assign
  simp only [List.map_cons, List.mem_cons, List.mem_map, List.mem_filter]
  constructor
  · rintro (h1 | ⟨e, ⟨he, _⟩, hk⟩)
    · exact Or.inl h1
    · exact Or.inr ⟨e, he, hk⟩
  · rintro (h1 | ⟨e, he, hk⟩)
    · exact Or.inl h1
    · by_cases hek : e.1 = k
      · exact Or.inl (by rw [← hk, hek])
      · exact Or.inr ⟨e, ⟨he, by simpa using hek⟩, hk⟩

theorem GoMap.keys_assign_nodup {K V : Type} [DecidableEq K] (m : GoMap K V) (k : K) (v : V)
    (hnd : (m.map (fun e => e.1)).Nodup) : ((m.assign k v).map (fun e => e.1)).Nodup := by
  unfold GoMap.assign
  rw [List.map_cons, List.nodup_cons]
  constructor
  · intro hin
    obtain ⟨e, he, hk⟩ := List.mem_map.mp hin
    have := (List.mem_filter.mp he).2
    simp at this
    exact this hk
  · exact List.Nodup.sublist (List.Sublist.map _ (List.filter_sublist _)) hnd

theorem GoMap.get_some_mem_keys {K V : Type} [DecidableEq K] (m : GoMap K V) (k : K) (v : V)
    (hget : m.get k = some v) : k ∈ m.map (fun e => e.1) := by
  unfold GoMap.get at hget
  cases hf : m.find? (fun e => decide (e.1 = k)) with
  | none => simp [hf] at hget
  | some e =>
    have hmem := List.mem_of_find?_eq_some hf
    have hp := List.find?_some hf
    exact List.mem_map.mpr ⟨e, hmem, by simpa using hp⟩

theorem paramsLoop_keys :
    ∀ (visit : List (KeyReference String × ValueReference String)) (m : GoMap String String)
      (s : String),
      s ∈ (high.paramsLoop visit m).map (fun e => e.1) ↔
        s ∈ m.map (fun e => e.1) ∨ ∃ e ∈ visit, e.1.Value = s := by
  intro visit
  induction visit with
  | nil => intro m s; simp [high.paramsLoop]
  | cons e rest ih =>
    intro m s
    unfold high.paramsLoop
    rw [ih, GoMap.mem_keys_assign]
    constructor
    · rintro ((h1 | h1) | ⟨e2, he2, hk⟩)
      · exact Or.inr ⟨e, List.mem_cons_self _ _, h1.symm⟩
      · exact Or.inl h1
      · exact Or.inr ⟨e2, List.mem_cons_of_mem _ he2, hk⟩
    · rintro (h1 | ⟨e2, he2, hk⟩)
      · exact Or.inl (Or.inr h1)
      · rcases List.mem_cons.mp he2 with h2 | h2
        · subst h2
          exact Or.inl (Or.inl hk.symm)
        · exact Or.inr ⟨e2, h2, hk⟩

theorem paramsLoop_nodup :
    ∀ (visit : List (KeyReference String × ValueReference String)) (m : GoMap String String),
      (m.map (fun e => e.1)).Nodup → ((high.paramsLoop visit m).map (fun e => e.1)).Nodup := by
  intro visit
  induction visit with
  | nil => intro m hnd; exact hnd
  | cons e rest ih =>
    intro m hnd
    unfold high.paramsLoop
    exact ih _ (GoMap.keys_assign_nodup m _ _ hnd)

theorem paramsLoop_source (s v : String) :
    ∀ (visit : List (KeyReference String × ValueReference String)) (m : GoMap String String),
      (high.paramsLoop visit m).get s = some v →
      m.get s = some v ∨ ∃ e ∈ visit, e.1.Value = s ∧ e.2.Value = v := by
  intro visit
  induction visit with
  | nil => intro m hget; exact Or.inl hget
  | cons e rest ih =>
    intro m hget
    unfold high.paramsLoop at hget
    rcases ih _ hget with h1 | ⟨e2, he2, hk2, hv2⟩
    · rw [GoMap.get_assign] at h1
      by_cases hk : s = e.1.Value
      · simp only [hk, if_true, Option.some.injEq] at h1
        exact Or.inr ⟨e, List.mem_cons_self _ _, hk.symm, h1⟩
      · simp only [hk, if_false] at h1
        exact Or.inl h1
    · exact Or.inr ⟨e2, List.mem_cons_of_mem _ he2, hk2, hv2⟩

/-- C25. For every low-level `Link`, whatever order the parameters are visited in, `NewLink`
copies `OperationRef`, `OperationId`, `RequestBody` and `Description` unchanged, sets `Server`
exactly when the low-level server value is present, and builds a non-nil `Parameters` map
(empty when there are no low-level parameters) whose key set is exactly the set of low-level
parameter key strings, each mapped to the value of a low-level parameter carrying that key
string. -/
theorem C25_newLink_copies_fields {S Ext HS HExt : Type} (env : high.LinkEnv S Ext HS HExt)
    (link : GoPtr (low.Link S Ext))
    (visit : List (KeyReference String × ValueReference String))
    (hvisit : visit.Perm link.target.Parameters.Value) :
    (high.NewLink env link visit).OperationRef = link.target.OperationRef.Value ∧
    (high.NewLink env link visit).OperationId = link.target.OperationId.Value ∧
    (high.NewLink env link visit).RequestBody = link.target.RequestBody.Value ∧
    (high.NewLink env link visit).Description = link.target.Description.Value ∧
    ((high.NewLink env link visit).Server ≠ none ↔ link.target.Server.Value ≠ none) ∧
    (∀ s, link.target.Server.Value = some s →
      (high.NewLink env link visit).Server = some (env.NewServer s)) ∧
    ∃ params, (high.NewLink env link visit).Parameters = some params ∧
      (params.map (fun e => e.1)).Nodup ∧
      (∀ s, s ∈ params.map (fun e => e.1) ↔
        ∃ e ∈ link.target.Parameters.Value, e.1.Value = s) ∧
      (∀ s v, params.get s = some v →
        ∃ e ∈ link.target.Parameters.Value, e.1.Value = s ∧ e.2.Value = v) ∧
      (link.target.Parameters.Value = [] → params = []) := by
  refine ⟨rfl, rfl, rfl, rfl, ?_, ?_, high.paramsLoop visit [], rfl, ?_, ?_, ?_, ?_⟩
  · unfold high.NewLink
    cases link.target.Server.Value <;> simp
  · intro s hs
    unfold high.NewLink
    simp [hs]
  · exact paramsLoop_nodup visit [] List.nodup_nil
  · intro s
    rw [paramsLoop_keys]
    constructor
    · rintro (h1 | ⟨e, he, hk⟩)
      · cases h1
      · exact ⟨e, hvisit.mem_iff.mp he, hk⟩
    · rintro ⟨e, he, hk⟩
      exact Or.inr ⟨e, hvisit.mem_iff.mpr he, hk⟩
  · intro s v hget
    rcases paramsLoop_source s v visit [] hget with h1 | ⟨e, he, hk, hv⟩
    · cases h1
    · exact ⟨e, hvisit.mem_iff.mp he, hk, hv⟩
  · intro hempty
    rw [hempty] at hvisit
    rw [List.Perm.eq_nil hvisit]
    rfl

theorem C25_newLink_copies_fields_witness :
    (high.NewLink sampleLinkEnv sampleLowLink
        sampleLowLink.target.Parameters.Value.reverse).OperationId = "listPets" ∧
    (high.NewLink sampleLinkEnv sampleLowLink
        sampleLowLink.target.Parameters.Value.reverse).Server = some "https://pb33f.io" ∧
    ∃ params, (high.NewLink sampleLinkEnv sampleLowLink
        sampleLowLink.target.Parameters.Value.reverse).Parameters = some params ∧
      (params.map (fun e => e.1)).Nodup ∧
      (∀ s, s ∈ params.map (fun e => e.1) ↔
        ∃ e ∈ sampleLowLink.target.Parameters.Value, e.1.Value = s) ∧
      (∀ s v, params.get s = some v →
        ∃ e ∈ sampleLowLink.target.Parameters.Value, e.1.Value = s ∧ e.2.Value = v) ∧
      (sampleLowLink.target.Parameters.Value = [] → params = []) :=
  have hall := C25_newLink_copies_fields sampleLinkEnv sampleLowLink
    sampleLowLink.target.Parameters.Value.reverse (List.reverse_perm _)
  ⟨hall.2.1, hall.2.2.2.2.2.1 "https://pb33f.io" rfl, hall.2.2.2.2.2.2⟩

/-! ### Claim C28 -/

theorem callbackChanges_breaking {Obj N : Type} (t : NestedTotals N)
    (c : CallbackChanges Obj N) :
    c.TotalBreakingChanges t =
      c.PropertyChanges.TotalBreakingChanges +
        sumOver t.TotalBreakingChanges c.ExpressionChanges +
        totalOrZero t.TotalBreakingChanges c.ExtensionChanges := by
  unfold CallbackChanges.TotalBreakingChanges
  simp only [foldl_add_eq_sum]
  cases c.ExtensionChanges <;> simp [totalOrZero]

theorem mediaTypeChanges_total {Obj N : Type} (t : NestedTotals N)
    (m : MediaTypeChanges Obj N) (pc : PropertyChanges Obj) (hpc : m.PropertyChanges = some pc) :
    m.TotalChanges t =
      some (pc.TotalChanges + sumOver t.TotalChanges m.ExampleChanges +
        totalOrZero t.TotalChanges m.SchemaChanges +
        sumOver t.TotalChanges m.EncodingChanges +
        totalOrZero t.TotalChanges m.ExtensionChanges) := by
  unfold MediaTypeChanges.TotalChanges
  simp only [hpc, foldl_add_eq_sum]
  cases hs : m.SchemaChanges <;> cases he : m.EncodingChanges <;>
    cases hx : m.ExtensionChanges <;> simp [totalOrZero, sumOver]

theorem mediaTypeChanges_breaking {Obj N : Type} (t : NestedTotals N)
    (m : MediaTypeChanges Obj N) (pc : PropertyChanges Obj) (hpc : m.PropertyChanges = some pc) :
    m.TotalBreakingChanges t =
      some (pc.TotalBreakingChanges + sumOver t.TotalBreakingChanges m.ExampleChanges +
        totalOrZero t.TotalBreakingChanges m.SchemaChanges +
        sumOver t.TotalBreakingChanges m.EncodingChanges) := by
  unfold MediaTypeChanges.TotalBreakingChanges
  simp only [hpc, foldl_add_eq_sum]
  cases hs : m.SchemaChanges <;> cases he : m.EncodingChanges <;> simp [totalOrZero, sumOver]

theorem propertyChanges_bounds {Obj : Type} (p : PropertyChanges Obj) :
    0 ≤ p.TotalBreakingChanges ∧ p.TotalBreakingChanges ≤ p.TotalChanges := by
  unfold PropertyChanges.TotalBreakingChanges PropertyChanges.TotalChanges
  constructor
  · exact Int.ofNat_nonneg _
  · exact Int.ofNat_le.mpr (List.length_filter_le _ _)

theorem sumOver_bounds {N : Type} (f g : N → Int) :
    ∀ m : GoMap String N, (∀ e ∈ m, 0 ≤ f e.2 ∧ f e.2 ≤ g e.2) →
      0 ≤ sumOver f m ∧ sumOver f m ≤ sumOver g m := by
  intro m
  induction m with
  | nil => intro _; simp [sumOver]
  | cons e rest ih =>
    intro hall
    obtain ⟨h1, h2⟩ := hall e (List.mem_cons_self _ _)
    obtain ⟨h3, h4⟩ := ih (fun e2 he2 => hall e2 (List.mem_cons_of_mem _ he2))
    simp only [sumOver, List.map_cons, List.sum_cons] at h3 h4 ⊢
    constructor <;> omega

theorem totalOrZero_bounds {N : Type} (f g : N → Int) (x : Option N)
    (hx : ∀ n, x = some n → 0 ≤ f n ∧ f n ≤ g n) :
    0 ≤ totalOrZero f x ∧ totalOrZero f x ≤ totalOrZero g x := by
  cases x with
  | none => simp [totalOrZero]
  | some n => exact hx n rfl

/-- C28. Breaking changes never exceed total changes: for every `CallbackChanges` and every
`MediaTypeChanges` value whose nested change sets each satisfy
`0 <= TotalBreakingChanges <= TotalChanges` (the own property changes always do), the value's
`TotalBreakingChanges` is at most its `TotalChanges` and both are non-negative. -/
theorem C28_breaking_at_most_total {Obj N : Type} (t : NestedTotals N) :
    (∀ c : CallbackChanges Obj N,
      (∀ e ∈ c.ExpressionChanges,
        0 ≤ t.TotalBreakingChanges e.2 ∧ t.TotalBreakingChanges e.2 ≤ t.TotalChanges e.2) →
      (∀ x, c.ExtensionChanges = some x →
        0 ≤ t.TotalBreakingChanges x ∧ t.TotalBreakingChanges x ≤ t.TotalChanges x) →
      0 ≤ c.TotalBreakingChanges t ∧ c.TotalBreakingChanges t ≤ c.TotalChanges t ∧
        0 ≤ c.TotalChanges t) ∧
    (∀ (m : MediaTypeChanges Obj N) (pc : PropertyChanges Obj), m.PropertyChanges = some pc →
      (∀ e ∈ m.ExampleChanges,
        0 ≤ t.TotalBreakingChanges e.2 ∧ t.TotalBreakingChanges e.2 ≤ t.TotalChanges e.2) →
      (∀ x, m.SchemaChanges = some x →
        0 ≤ t.TotalBreakingChanges x ∧ t.TotalBreakingChanges x ≤ t.TotalChanges x) →
      (∀ e ∈ m.EncodingChanges,
        0 ≤ t.TotalBreakingChanges e.2 ∧ t.TotalBreakingChanges e.2 ≤ t.TotalChanges e.2) →
      (∀ x, m.ExtensionChanges = some x →
        0 ≤ t.TotalBreakingChanges x ∧ t.TotalBreakingChanges x ≤ t.TotalChanges x) →
      ∃ breaking total, m.TotalBreakingChanges t = some breaking ∧
        m.TotalChanges t = some total ∧ 0 ≤ breaking ∧ breaking ≤ total ∧ 0 ≤ total) := by
  constructor
  · intro c hexp hext
    rw [callbackChanges_breaking, callbackChanges_total]
    obtain ⟨p1, p2⟩ := propertyChanges_bounds c.PropertyChanges
    obtain ⟨s1, s2⟩ := sumOver_bounds _ _ c.ExpressionChanges hexp
    obtain ⟨x1, x2⟩ := totalOrZero_bounds t.TotalBreakingChanges t.TotalChanges
      c.ExtensionChanges hext
    refine ⟨?_, ?_, ?_⟩ <;> omega
  · intro m pc hpc hex hsch henc hext
    refine ⟨_, _, mediaTypeChanges_breaking t m pc hpc, mediaTypeChanges_total t m pc hpc, ?_⟩
    obtain ⟨p1, p2⟩ := propertyChanges_bounds pc
    obtain ⟨s1, s2⟩ := sumOver_bounds _ _ m.ExampleChanges hex
    obtain ⟨c1, c2⟩ := totalOrZero_bounds t.TotalBreakingChanges t.TotalChanges
      m.SchemaChanges hsch
    obtain ⟨n1, n2⟩ := sumOver_bounds _ _ m.EncodingChanges henc
    obtain ⟨x1, x2⟩ := totalOrZero_bounds t.TotalBreakingChanges t.TotalChanges
      m.ExtensionChanges hext
    refine ⟨?_, ?_, ?_⟩ <;> omega

theorem C28_breaking_at_most_total_witness :
    0 ≤ sampleCallbackChanges.TotalBreakingChanges countTotals ∧
    sampleCallbackChanges.TotalBreakingChanges countTotals ≤
      sampleCallbackChanges.TotalChanges countTotals ∧
    0 ≤ sampleCallbackChanges.TotalChanges countTotals :=
  (C28_breaking_at_most_total countTotals).1 sampleCallbackChanges (by decide) (by decide)

/-! ### Claim C26 -/

theorem collectLoop_keys {P Ext N : Type} (env : CallbackEnv P Ext N) :
    ∀ (visit : List (KeyReference String × ValueReference P)) (hashes : GoMap String String)
      (values : GoMap String (ValueReference P)) (s : String),
      s ∈ (collectLoop env visit hashes values).1.map (fun e => e.1) ↔
        s ∈ hashes.map (fun e => e.1) ∨ ∃ e ∈ visit, e.1.Value = s := by
  intro visit
  induction visit with
  | nil => intro hashes values s; simp [collectLoop]
  | cons e rest ih =>
    intro hashes values s
    unfold collectLoop
    rw [ih, GoMap.mem_keys_assign]
    constructor
    · rintro ((h1 | h1) | ⟨e2, he2, hk⟩)
      · exact Or.inr ⟨e, List.mem_cons_self _ _, h1.symm⟩
      · exact Or.inl h1
      · exact Or.inr ⟨e2, List.mem_cons_of_mem _ he2, hk⟩
    · rintro (h1 | ⟨e2, he2, hk⟩)
      · exact Or.inl (Or.inr h1)
      · rcases List.mem_cons.mp he2 with h2 | h2
        · subst h2
          exact Or.inl (Or.inl hk.symm)
        · exact Or.inr ⟨e2, h2, hk⟩

theorem collectLoop_keys_nodup {P Ext N : Type} (env : CallbackEnv P Ext N) :
    ∀ (visit : List (KeyReference String × ValueReference P)) (hashes : GoMap String String)
      (values : GoMap String (ValueReference P)),
      (hashes.map (fun e => e.1)).Nodup →
      ((collectLoop env visit hashes values).1.map (fun e => e.1)).Nodup := by
  intro visit
  induction visit with
  | nil => intro hashes values hnd; exact hnd
  | cons e rest ih =>
    intro hashes values hnd
    unfold collectLoop
    exact ih _ _ (GoMap.keys_assign_nodup hashes _ _ hnd)

theorem collectLoop_value_other {P Ext N : Type} (env : CallbackEnv P Ext N) (k : String) :
    ∀ (visit : List (KeyReference String × ValueReference P)) (hashes : GoMap String String)
      (values : GoMap String (ValueReference P)),
      (∀ e ∈ visit, e.1.Value ≠ k) →
      (collectLoop env visit hashes values).2.get k = values.get k := by
  intro visit
  induction visit with
  | nil => intro hashes values _; rfl
  | cons e rest ih =>
    intro hashes values hne
    unfold collectLoop
    rw [ih _ _ (fun e2 he2 => hne e2 (List.mem_cons_of_mem _ he2)), GoMap.get_assign]
    have hk : ¬ k = e.1.Value := fun hc => hne e (List.mem_cons_self _ _) hc.symm
    simp [hk]

theorem collectLoop_value_present {P Ext N : Type} (env : CallbackEnv P Ext N) (k : String) :
    ∀ (visit : List (KeyReference String × ValueReference P)) (hashes : GoMap String String)
      (values : GoMap String (ValueReference P)),
      (∃ e ∈ visit, e.1.Value = k) →
      ∃ e ∈ visit, e.1.Value = k ∧
        (collectLoop env visit hashes values).2.get k = some e.2 ∧
        (collectLoop env visit hashes values).1.get k =
          some (GenerateHashString env e.2.Value) := by
  intro visit
  induction visit with
  | nil => rintro _ _ ⟨e, he, _⟩; cases he
  | cons e rest ih =>
    intro hashes values hex
    unfold collectLoop
    by_cases hlater : ∃ e2 ∈ rest, e2.1.Value = k
    · obtain ⟨e2, he2, hk2, hget⟩ := ih _ _ hlater
      exact ⟨e2, List.mem_cons_of_mem _ he2, hk2, hget⟩
    · have hnone : ∀ e2 ∈ rest, e2.1.Value ≠ k := fun e2 he2 hc => hlater ⟨e2, he2, hc⟩
      have hek : e.1.Value = k := by
        obtain ⟨e3, he3, hk3⟩ := hex
        rcases List.mem_cons.mp he3 with h1 | h1
        · rw [← h1]; exact hk3
        · exact absurd hk3 (hnone e3 h1)
      refine ⟨e, List.mem_cons_self _ _, hek, ?_, ?_⟩
      · rw [collectLoop_value_other env k rest _ _ hnone, GoMap.get_assign]
        simp [hek]
      · rw [collectLoop_hash_other env k rest _ _ hnone, GoMap.get_assign]
        simp [hek]

theorem hashAt_collected_empty_iff {P Ext N : Type} (env : CallbackEnv P Ext N)
    (visit : List (KeyReference String × ValueReference P)) (s : String) :
    hashAt (collectLoop env visit [] []).1 s = "" ↔ ¬ ∃ e ∈ visit, e.1.Value = s := by
  constructor
  · rintro h ⟨e, he, hk⟩
    obtain ⟨e2, _, _, _, hget⟩ := collectLoop_value_present env s visit [] [] ⟨e, he, hk⟩
    unfold hashAt at h
    rw [hget] at h
    exact HashToString_ne_empty _ h
  · intro h
    unfold hashAt
    rw [collectLoop_hash_other env s visit [] [] (fun e he hc => h ⟨e, he, hc⟩), GoMap.get_nil]
    rfl

theorem checkLeftLoop_changes {P Ext N : Type} [Inhabited P] (env : CallbackEnv P Ext N)
    (lHashes rHashes : GoMap String String) (lValues rValues : GoMap String (ValueReference P)) :
    ∀ (keys : List String) (changes : List (Change P)) (expChanges : GoMap String N),
      (checkLeftLoop env lHashes rHashes lValues rValues keys changes expChanges).1 =
        changes ++ (keys.filter (fun k => decide (hashAt rHashes k = ""))).map
          (removedChange lValues) := by
  intro keys
  induction keys with
  | nil => intro changes expChanges; simp [checkLeftLoop]
  | cons k rest ih =>
    intro changes expChanges
    unfold checkLeftLoop
    by_cases h1 : hashAt rHashes k = ""
    · simp only [h1, if_true]
      rw [ih]
      simp [CreateChange, removedChange, List.filter_cons, h1]
    · by_cases h2 : hashAt lHashes k = hashAt rHashes k
      · simp only [h1, h2, if_false, if_true]
        rw [ih]
        simp [List.filter_cons, h1]
      · simp only [h1, h2, if_false]
        rw [ih]
        simp [List.filter_cons, h1]

theorem checkLeftLoop_exp_keys {P Ext N : Type} [Inhabited P] (env : CallbackEnv P Ext N)
    (lHashes rHashes : GoMap String String) (lValues rValues : GoMap String (ValueReference P)) :
    ∀ (keys : List String) (changes : List (Change P)) (expChanges : GoMap String N)
      (s : String),
      s ∈ (checkLeftLoop env lHashes rHashes lValues rValues keys changes expChanges).2.map
          (fun e => e.1) →
      s ∈ expChanges.map (fun e => e.1) ∨
        (s ∈ keys ∧ hashAt rHashes s ≠ "" ∧ hashAt lHashes s ≠ hashAt rHashes s) := by
  intro keys
  induction keys with
  | nil => intro changes expChanges s hs; exact Or.inl hs
  | cons k rest ih =>
    intro changes expChanges s hs
    unfold checkLeftLoop at hs
    by_cases h1 : hashAt rHashes k = ""
    · simp only [h1, if_true] at hs
      rcases ih _ _ s hs with h3 | ⟨h3, h4⟩
      · exact Or.inl h3
      · exact Or.inr ⟨List.mem_cons_of_mem _ h3, h4⟩
    · by_cases h2 : hashAt lHashes k = hashAt rHashes k
      · simp only [h1, h2, if_false, if_true] at hs
        rcases ih _ _ s hs with h3 | ⟨h3, h4⟩
        · exact Or.inl h3
        · exact Or.inr ⟨List.mem_cons_of_mem _ h3, h4⟩
      · simp only [h1, h2, if_false] at hs
        rcases ih _ _ s hs with h3 | ⟨h3, h4⟩
        · rcases (GoMap.mem_keys_assign _ _ _ _).mp h3 with h5 | h5
          · subst h5
            exact Or.inr ⟨List.mem_cons_self _ _, h1, h2⟩
          · exact Or.inl h5
        · exact Or.inr ⟨List.mem_cons_of_mem _ h3, h4⟩

theorem checkRightLoop_changes {P : Type} [Inhabited P] (lHashes : GoMap String String)
    (rValues : GoMap String (ValueReference P)) :
    ∀ (keys : List String) (changes : List (Change P)),
      checkRightLoop lHashes rValues keys changes =
        changes ++ (keys.filter (fun k => decide (hashAt lHashes k = ""))).map
          (addedChange rValues) := by
  intro keys
  induction keys with
  | nil => intro changes; simp [checkRightLoop]
  | cons k rest ih =>
    intro changes
    unfold checkRightLoop
    by_cases h1 : hashAt lHashes k = ""
    · simp only [h1, if_true]
      rw [ih]
      simp [CreateChange, addedChange, List.filter_cons, h1]
    · simp only [h1, if_false]
      rw [ih]
      simp [List.filter_cons, h1]

theorem changes_of_property {P : Type} (f : String → Change P)
    (hf : ∀ k, (f k).Property = k) (s : String) :
    ∀ ks : List String, ks.Nodup →
      (ks.map f).filter (fun c => decide (c.Property = s)) = if s ∈ ks then [f s] else [] := by
  intro ks
  induction ks with
  | nil => intro _; rfl
  | cons k rest ih =>
    intro hnd
    obtain ⟨hk, hrest⟩ := List.nodup_cons.mp hnd
    rw [List.map_cons, List.filter_cons, ih hrest, hf]
    by_cases hks : k = s
    · subst hks
      simp [hk]
    · have hsk : ¬ s = k := fun hc => hks hc.symm
      simp [hks, hsk]

theorem callbackChangesOf_changes {P Ext N : Type} [Inhabited P] (env : CallbackEnv P Ext N)
    (l r : Callback P Ext) (lVisit rVisit : List (KeyReference String × ValueReference P)) :
    (callbackChangesOf env l r lVisit rVisit).PropertyChanges.Changes =
      (((collectLoop env lVisit [] []).1.map (fun e => e.1)).filter
          (fun k => decide (hashAt (collectLoop env rVisit [] []).1 k = ""))).map
        (removedChange (collectLoop env lVisit [] []).2) ++
      (((collectLoop env rVisit [] []).1.map (fun e => e.1)).filter
          (fun k => decide (hashAt (collectLoop env lVisit [] []).1 k = ""))).map
        (addedChange (collectLoop env rVisit [] []).2) := by
  unfold callbackChangesOf
  simp only [checkRightLoop_changes, checkLeftLoop_changes, List.nil_append]

theorem removed_keys_iff {P Ext N : Type} (env : CallbackEnv P Ext N)
    (lVisit rVisit : List (KeyReference String × ValueReference P)) (s : String) :
    s ∈ ((collectLoop env lVisit [] []).1.map (fun e => e.1)).filter
        (fun k => decide (hashAt (collectLoop env rVisit [] []).1 k = "")) ↔
      (∃ e ∈ lVisit, e.1.Value = s) ∧ ¬ ∃ e ∈ rVisit, e.1.Value = s := by
  rw [List.mem_filter, collectLoop_keys, decide_eq_true_eq, hashAt_collected_empty_iff]
  simp

/-- The changes recorded for the property `s`: a removal when `s` is a key text of the left
map only, an addition when it is a key text of the right map only. -/
theorem callbackChangesOf_changes_of_key {P Ext N : Type} [Inhabited P]
    (env : CallbackEnv P Ext N) (l r : Callback P Ext)
    (lVisit rVisit : List (KeyReference String × ValueReference P)) (s : String) :
    (callbackChangesOf env l r lVisit rVisit).PropertyChanges.Changes.filter
        (fun c => decide (c.Property = s)) =
      (if s ∈ ((collectLoop env lVisit [] []).1.map (fun e => e.1)).filter
          (fun k => decide (hashAt (collectLoop env rVisit [] []).1 k = ""))
        then [removedChange (collectLoop env lVisit [] []).2 s] else []) ++
      (if s ∈ ((collectLoop env rVisit [] []).1.map (fun e => e.1)).filter
          (fun k => decide (hashAt (collectLoop env lVisit [] []).1 k = ""))
        then [addedChange (collectLoop env rVisit [] []).2 s] else []) := by
  rw [callbackChangesOf_changes, List.filter_append,
    changes_of_property (removedChange (collectLoop env lVisit [] []).2) (fun _ => rfl) s _
      (List.Nodup.sublist (List.filter_sublist _)
        (collectLoop_keys_nodup env lVisit [] [] List.nodup_nil)),
    changes_of_property (addedChange (collectLoop env rVisit [] []).2) (fun _ => rfl) s _
      (List.Nodup.sublist (List.filter_sublist _)
        (collectLoop_keys_nodup env rVisit [] [] List.nodup_nil))]

theorem valueAt_collected {P Ext N : Type} [Inhabited P] (env : CallbackEnv P Ext N)
    (visit : List (KeyReference String × ValueReference P)) (s : String)
    (hs : ∃ e ∈ visit, e.1.Value = s) :
    ∃ e ∈ visit, e.1.Value = s ∧ valueAt (collectLoop env visit [] []).2 s = e.2 ∧
      hashAt (collectLoop env visit [] []).1 s = GenerateHashString env e.2.Value := by
  obtain ⟨e, he, hk, hv, hh⟩ := collectLoop_value_present env s visit [] [] hs
  refine ⟨e, he, hk, ?_, ?_⟩
  · unfold valueAt
    rw [hv]
    rfl
  · unfold hashAt
    rw [hh]
    rfl

theorem callbackChangesOf_total_pos {P Ext N : Type} [Inhabited P] (env : CallbackEnv P Ext N)
    (l r : Callback P Ext) (lVisit rVisit : List (KeyReference String × ValueReference P))
    (hnonneg : ∀ n, 0 ≤ env.totals.TotalChanges n) (s : String)
    (hs : (callbackChangesOf env l r lVisit rVisit).PropertyChanges.Changes.filter
        (fun c => decide (c.Property = s)) ≠ []) :
    ¬ (callbackChangesOf env l r lVisit rVisit).TotalChanges env.totals ≤ 0 := by
  rw [callbackChanges_total]
  have h1 := (sumOver_bounds env.totals.TotalChanges env.totals.TotalChanges
    (callbackChangesOf env l r lVisit rVisit).ExpressionChanges
    (fun e _ => ⟨hnonneg e.2, le_refl _⟩)).1
  have h2 := (totalOrZero_bounds env.totals.TotalChanges env.totals.TotalChanges
    (callbackChangesOf env l r lVisit rVisit).ExtensionChanges
    (fun n _ => ⟨hnonneg n, le_refl _⟩)).1
  have h3 : 0 < (callbackChangesOf env l r lVisit rVisit).PropertyChanges.Changes.length := by
    have hle := List.length_filter_le (fun c : Change P => decide (c.Property = s))
      (callbackChangesOf env l r lVisit rVisit).PropertyChanges.Changes
    have hpos := List.length_pos.mpr hs
    omega
  unfold PropertyChanges.TotalChanges
  omega

/-- C26. For every pair of callbacks and every order in which their expression maps are
visited, reading "key" as the key text under which `CompareCallback` stores hashes and
values: the changes `CompareCallback` records for a key text of the left map that is no key
text of the right map are exactly one `ObjectRemoved` change, breaking, with the left value
node and the left value as original; for a key text of the right map only they are exactly
one `ObjectAdded` change, not breaking, with the right value node and the right value as
new; for a key text of both maps there is none; and every key of `ExpressionChanges` is a
key text of both maps under which the left and right hashes differ. The change set
described is the one returned whenever its total is positive, which it is as soon as some
key text is on one side only and nested totals are non-negative. -/
theorem C26_one_change_per_one_sided_key {P Ext N : Type} [Inhabited P]
    (env : CallbackEnv P Ext N) (l r : Callback P Ext)
    (lVisit rVisit : List (KeyReference String × ValueReference P))
    (hl : lVisit.Perm l.Expression) (hr : rVisit.Perm r.Expression) :
    (CompareCallback env l r lVisit rVisit =
      if (callbackChangesOf env l r lVisit rVisit).TotalChanges env.totals ≤ 0 then none
      else some (callbackChangesOf env l r lVisit rVisit)) ∧
    ((∀ n, 0 ≤ env.totals.TotalChanges n) →
      (∃ s, (HasKeyText l.Expression s ∧ ¬ HasKeyText r.Expression s) ∨
        (HasKeyText r.Expression s ∧ ¬ HasKeyText l.Expression s)) →
      CompareCallback env l r lVisit rVisit =
        some (callbackChangesOf env l r lVisit rVisit)) ∧
    (∀ s, HasKeyText l.Expression s → ¬ HasKeyText r.Expression s →
      ∃ e ∈ l.Expression, e.1.Value = s ∧
        (callbackChangesOf env l r lVisit rVisit).PropertyChanges.Changes.filter
            (fun c => decide (c.Property = s)) =
          [{ ChangeType := ObjectRemoved, Property := s, LeftNode := e.2.GetValueNode,
             RightNode := none, Breaking := true, OriginalObject := some e.2.GetValue,
             NewObject := none }]) ∧
    (∀ s, HasKeyText r.Expression s → ¬ HasKeyText l.Expression s →
      ∃ e ∈ r.Expression, e.1.Value = s ∧
        (callbackChangesOf env l r lVisit rVisit).PropertyChanges.Changes.filter
            (fun c => decide (c.Property = s)) =
          [{ ChangeType := ObjectAdded, Property := s, LeftNode := none,
             RightNode := e.2.GetValueNode, Breaking := false, OriginalObject := none,
             NewObject := some e.2.GetValue }]) ∧
    (∀ s, HasKeyText l.Expression s → HasKeyText r.Expression s →
      (callbackChangesOf env l r lVisit rVisit).PropertyChanges.Changes.filter
          (fun c => decide (c.Property = s)) = []) ∧
    (∀ s, s ∈ (callbackChangesOf env l r lVisit rVisit).ExpressionChanges.map (fun e => e.1) →
      ∃ e ∈ l.Expression, ∃ e2 ∈ r.Expression, e.1.Value = s ∧ e2.1.Value = s ∧
        GenerateHashString env e.2.Value ≠ GenerateHashString env e2.2.Value) := by
  have hL : ∀ s, HasKeyText l.Expression s ↔ ∃ e ∈ lVisit, e.1.Value = s := fun s =>
    ⟨fun ⟨e, he, hk⟩ => ⟨e, hl.mem_iff.mpr he, hk⟩, fun ⟨e, he, hk⟩ => ⟨e, hl.mem_iff.mp he, hk⟩⟩
  have hR : ∀ s, HasKeyText r.Expression s ↔ ∃ e ∈ rVisit, e.1.Value = s := fun s =>
    ⟨fun ⟨e, he, hk⟩ => ⟨e, hr.mem_iff.mpr he, hk⟩, fun ⟨e, he, hk⟩ => ⟨e, hr.mem_iff.mp he, hk⟩⟩
  have hremoved : ∀ s, HasKeyText l.Expression s → ¬ HasKeyText r.Expression s →
      (callbackChangesOf env l r lVisit rVisit).PropertyChanges.Changes.filter
          (fun c => decide (c.Property = s)) =
        [removedChange (collectLoop env lVisit [] []).2 s] := by
    intro s hs hns
    rw [callbackChangesOf_changes_of_key,
      if_pos ((removed_keys_iff env lVisit rVisit s).mpr ⟨(hL s).mp hs, fun hc => hns ((hR s).mpr hc)⟩),
      if_neg (fun hc => hns ((hR s).mpr ((removed_keys_iff env rVisit lVisit s).mp hc).1))]
    rfl
  have hadded : ∀ s, HasKeyText r.Expression s → ¬ HasKeyText l.Expression s →
      (callbackChangesOf env l r lVisit rVisit).PropertyChanges.Changes.filter
          (fun c => decide (c.Property = s)) =
        [addedChange (collectLoop env rVisit [] []).2 s] := by
    intro s hs hns
    rw [callbackChangesOf_changes_of_key,
      if_neg (fun hc => hns ((hL s).mpr ((removed_keys_iff env lVisit rVisit s).mp hc).1)),
      if_pos ((removed_keys_iff env rVisit lVisit s).mpr ⟨(hR s).mp hs, fun hc => hns ((hL s).mpr hc)⟩)]
    rfl
  refine ⟨rfl, ?_, ?_, ?_, ?_, ?_⟩
  · rintro hnonneg ⟨s, hs⟩
    have hne : (callbackChangesOf env l r lVisit rVisit).PropertyChanges.Changes.filter
        (fun c => decide (c.Property = s)) ≠ [] := by
      rcases hs with ⟨h1, h2⟩ | ⟨h1, h2⟩
      · rw [hremoved s h1 h2]; exact List.cons_ne_nil _ _
      · rw [hadded s h1 h2]; exact List.cons_ne_nil _ _
    have hpos := callbackChangesOf_total_pos env l r lVisit rVisit hnonneg s hne
    show (if (callbackChangesOf env l r lVisit rVisit).TotalChanges env.totals ≤ 0 then none
      else some (callbackChangesOf env l r lVisit rVisit)) = _
    rw [if_neg hpos]
  · intro s hs hns
    obtain ⟨e, he, hk, hv, _⟩ := valueAt_collected env lVisit s ((hL s).mp hs)
    refine ⟨e, hl.mem_iff.mp he, hk, ?_⟩
    rw [hremoved s hs hns, removedChange, hv]
  · intro s hs hns
    obtain ⟨e, he, hk, hv, _⟩ := valueAt_collected env rVisit s ((hR s).mp hs)
    refine ⟨e, hr.mem_iff.mp he, hk, ?_⟩
    rw [hadded s hs hns, addedChange, hv]
  · intro s hs1 hs2
    rw [callbackChangesOf_changes_of_key,
      if_neg (fun hc => ((removed_keys_iff env lVisit rVisit s).mp hc).2 ((hR s).mp hs2)),
      if_neg (fun hc => ((removed_keys_iff env rVisit lVisit s).mp hc).2 ((hL s).mp hs1))]
    rfl
  · intro s hs
    have hexp : (callbackChangesOf env l r lVisit rVisit).ExpressionChanges =
        (checkLeftLoop env (collectLoop env lVisit [] []).1 (collectLoop env rVisit [] []).1
          (collectLoop env lVisit [] []).2 (collectLoop env rVisit [] []).2
          ((collectLoop env lVisit [] []).1.map (fun e => e.1)) [] []).2 := rfl
    rw [hexp] at hs
    have hkeys := checkLeftLoop_exp_keys env (collectLoop env lVisit [] []).1
      (collectLoop env rVisit [] []).1 (collectLoop env lVisit [] []).2
      (collectLoop env rVisit [] []).2
      ((collectLoop env lVisit [] []).1.map (fun e => e.1)) [] [] s hs
    rcases hkeys with h1 | ⟨h1, h2, h3⟩
    · cases h1
    · have hsl : ∃ e ∈ lVisit, e.1.Value = s := by
        rcases (collectLoop_keys env lVisit [] [] s).mp h1 with h4 | h4
        · cases h4
        · exact h4
      have hsr : ∃ e ∈ rVisit, e.1.Value = s := by
        by_contra hc
        exact h2 ((hashAt_collected_empty_iff env rVisit s).mpr hc)
      obtain ⟨e, he, hk, _, hh⟩ := valueAt_collected env lVisit s hsl
      obtain ⟨e2, he2, hk2, _, hh2⟩ := valueAt_collected env rVisit s hsr
      refine ⟨e, hl.mem_iff.mp he, e2, hr.mem_iff.mp he2, hk, hk2, ?_⟩
      rw [← hh, ← hh2]
      exact h3

theorem C26_one_change_per_one_sided_key_witness :
    leftCallback.Expression.reverse.Perm leftCallback.Expression ∧
    rightCallback.Expression.reverse.Perm rightCallback.Expression ∧
    HasKeyText leftCallback.Expression "$gone" ∧ ¬ HasKeyText rightCallback.Expression "$gone" ∧
    ∃ e ∈ leftCallback.Expression, e.1.Value = "$gone" ∧
      (callbackChangesOf numberEnv leftCallback rightCallback leftCallback.Expression.reverse
          rightCallback.Expression.reverse).PropertyChanges.Changes.filter
          (fun c => decide (c.Property = "$gone")) =
        [{ ChangeType := ObjectRemoved, Property := "$gone", LeftNode := e.2.GetValueNode,
           RightNode := none, Breaking := true, OriginalObject := some e.2.GetValue,
           NewObject := none }] :=
  have hin : HasKeyText leftCallback.Expression "$gone" :=
    ⟨_, List.mem_cons_self _ _, rfl⟩
  have hout : ¬ HasKeyText rightCallback.Expression "$gone" := by
    unfold HasKeyText
    decide
  ⟨List.reverse_perm _, List.reverse_perm _, hin, hout,
    (C26_one_change_per_one_sided_key numberEnv leftCallback rightCallback
      leftCallback.Expression.reverse rightCallback.Expression.reverse
      (List.reverse_perm _) (List.reverse_perm _)).2.2.1 "$gone" hin hout⟩

/-! ### Claim C27 -/

/-- When both example value nodes are mappings (or both sequences) and rendering succeeds on
both, the example step leaves the text of the left node as it was: line 78 writes it only
when rendering fails. -/
theorem renderExamples_left_kept {V Ext N : Type} (env : MediaTypeEnv V Ext N) (h : Heap)
    (l r : MediaType V Ext) (a b : Addr) (hl : l.Example.ValueNode = some a)
    (hr : r.Example.ValueNode = some b) (hab : a ≠ b)
    (hkind : (IsNodeMap h (some a) = true ∧ IsNodeMap h (some b) = true) ∨
      (IsNodeArray h (some a) = true ∧ IsNodeArray h (some b) = true))
    (hla : (env.Marshal h a).2 = none) (hrb : (env.Marshal h b).2 = none) :
    (renderExamples env h l r a).Value = (h a).Value := by
  have hle : l.Example.IsEmpty = false := by simp [NodeReference.IsEmpty, hl]
  have hre : r.Example.IsEmpty = false := by simp [NodeReference.IsEmpty, hr]
  have hcond : ((IsNodeMap h (some a) && IsNodeMap h (some b)) ||
      (IsNodeArray h (some a) && IsNodeArray h (some b))) = true := by
    rcases hkind with ⟨k1, k2⟩ | ⟨k1, k2⟩ <;> simp [k1, k2]
  have hleft : renderLeft env (fun s => s) h (some a) = h := by
    simp [renderLeft, hla]
  unfold renderExamples
  simp only [hl, hr, hle, hre, hcond, hleft, Bool.not_false, Bool.and_self, if_true]
  simp [renderRight, hrb, Heap.setValue, hab]

/-- C27 (failing input). Two media types that differ in their schema and carry the same
example, the mapping `a: 1`, at the nodes 20 and 40, both of whose renderings succeed: the
two nodes have the same children texts and the two example values are equal, yet after
`CompareMediaTypes(l, r)` the left node still holds the empty text of a mapping while the
right node holds its rendering, and a `Modified` change is recorded for the example. On the
heap that call leaves, `CompareMediaTypes(l, r)` records the example change again while
`CompareMediaTypes(r, l)` records none. -/
theorem C27_identical_examples_reported_modified :
    (docTwins 20).Content.map (fun c => (docTwins c).Value) =
      (docTwins 40).Content.map (fun c => (docTwins c).Value) ∧
    twinLeft.Example.Value = twinRight.Example.Value ∧
    (IsNodeMap docTwins twinLeft.Example.ValueNode = true ∧
      IsNodeMap docTwins twinRight.Example.ValueNode = true) ∧
    ((twinEnv.Marshal docTwins 20).2 = none ∧ (twinEnv.Marshal docTwins 40).2 = none) ∧
    (CompareMediaTypes twinEnv docTwins twinLeft twinRight).map
      (fun x => ((x.1 20).Value, (x.1 40).Value)) = some ("", "a, 1") ∧
    recordedChanges (CompareMediaTypes twinEnv docTwins twinLeft twinRight) =
      some [⟨Modified, "example", some 20, some 40, false, none, none⟩] ∧
    recordedChanges ((CompareMediaTypes twinEnv docTwins twinLeft twinRight).bind
      (fun x => CompareMediaTypes twinEnv x.1 twinLeft twinRight)) =
      some [⟨Modified, "example", some 20, some 40, false, none, none⟩] ∧
    recordedChanges ((CompareMediaTypes twinEnv docTwins twinLeft twinRight).bind
      (fun x => CompareMediaTypes twinEnv x.1 twinRight twinLeft)) = some [] := by
  refine ⟨?_, ?_, ⟨?_, ?_⟩, ⟨?_, ?_⟩, ?_, ?_, ?_, ?_⟩ <;> decide

end LibOpenAPI
